import Mathlib

/-!
# Simple asset contract

A shallow embedding of `contracts/basic/simple_contract.0.6/simple_contract_hyperledger.go`:
the asset record types, the partial-state merge, the input validator, the
create/update/read/delete operations over the ledger stub and the
most-recently-updated list, followed by theorems about them.

Go pointers that are only ever nil or point to an immutable value are `Option`s.
A Go `(value, error)` result is a pair whose second component is `Option String`
(the error text, `none` for a nil error). Go strings and byte slices are
`String`s. Logging and printing have no effect on results and are left out.

What the contract takes from outside its own source is modelled as follows.
* `encoding/json` is a text-level parser, decoders and encoders for the four
  struct types of the contract. A `float64` is the binary64 value nearest to
  the number read and is written with the fewest digits that read back as it; a
  `time.Time` is read as `time.Parse` reads RFC 3339 and written as
  `MarshalJSON` writes it. Both are represented by the text written for them.
* The ledger stub is a world state together with, for each kind of call, the
  keys on which the call reports an error. A read sees the puts made earlier in
  the same invocation.
* `time.Now().UTC()` is read twice by `createOrUpdateAsset`; the two readings
  are arguments of the operation.
-/

namespace SimpleContract

/-! ## Scalar values carried by the records -/

/-- Drops a run of decimal digits. -/
def dropDigits : List Char → List Char
  | [] => []
  | c :: r => if c.isDigit then dropDigits r else c :: r

/-- Integer part of a JSON number: `0` or a non-zero digit followed by digits. -/
def numInt : List Char → Option (List Char)
  | [] => none
  | c :: r => if c = '0' then some r else if c.isDigit then some (dropDigits r) else none

/-- Optional fraction of a JSON number: `.` followed by at least one digit. -/
def numFrac : List Char → Option (List Char)
  | '.' :: c :: r => if c.isDigit then some (dropDigits r) else none
  | '.' :: [] => none
  | r => some r

/-- Digits of an exponent, after the optional sign: at least one digit. -/
def numExpDigits : List Char → Option (List Char)
  | [] => none
  | c :: r => if c.isDigit then some (dropDigits r) else none

/-- Optional exponent of a JSON number: `e` or `E`, an optional sign, digits. -/
def numExp : List Char → Option (List Char)
  | [] => some []
  | c :: r =>
    if c = 'e' ∨ c = 'E' then
      match r with
      | s :: r2 => if s = '+' ∨ s = '-' then numExpDigits r2 else numExpDigits (s :: r2)
      | [] => none
    else some (c :: r)

/-- Optional leading minus sign of a JSON number. -/
def numSign : List Char → List Char
  | [] => []
  | c :: r => if c = '-' then r else c :: r

/-- Characters that can occur in a JSON number. -/
def isNumChar (c : Char) : Bool :=
  c.isDigit ∨ c = '-' ∨ c = '+' ∨ c = '.' ∨ c = 'e' ∨ c = 'E'

/-- The JSON number grammar `-? int frac? exp?`, on the whole of `l`. -/
def numGrammar (l : List Char) : Bool :=
  match (numInt (numSign l)).bind (fun r => (numFrac r).bind numExp) with
  | some [] => true
  | _ => false

/-- Whether `l` is a JSON number: made of number characters and of the shape the
grammar asks for. -/
def isNumberLit (l : List Char) : Bool := l.all isNumChar && numGrammar l

/-- A JSON number as it stands in a text: the literal, not yet converted. -/
structure Number where
  lit : List Char
  wf : isNumberLit lit = true
deriving DecidableEq

/-! ### float64

`strconv.ParseFloat` and the way `encoding/json` writes a `float64`, in exact
arithmetic on natural numbers. A finite binary64 value is a sign and a pair
`(m, t)` that stands for `m * 2 ^ t / 2 ^ 1074`. -/

/-- A run of decimal digits at the start of the text. -/
def takeDigits : List Char → List Char
  | [] => []
  | c :: r => if c.isDigit then c :: takeDigits r else []

/-- Value of a run of decimal digits, after the digits already read. -/
def digitsVal : Nat → List Char → Nat
  | acc, [] => acc
  | acc, c :: r => digitsVal (acc * 10 + (c.toNat - 48)) r

/-- The decimal digits of a number, most significant first; the first argument
bounds the number of digits. -/
def natDigits : Nat → Nat → List Char
  | 0, _ => []
  | f + 1, n =>
    if n < 10 then [Char.ofNat (48 + n)]
    else natDigits f (n / 10) ++ [Char.ofNat (48 + n % 10)]

/-- Decimal text of a natural number. -/
def natText (n : Nat) : List Char := natDigits (n + 1) n

/-- The power `b ^ e` by repeated squaring; the first argument bounds the number
of squarings. -/
def npowAux : Nat → Nat → Nat → Nat
  | 0, _, _ => 1
  | f + 1, b, e =>
    if e = 0 then 1
    else if e % 2 = 1 then b * npowAux f (b * b) (e / 2)
    else npowAux f (b * b) (e / 2)

/-- The power `b ^ e`. -/
def npow (b e : Nat) : Nat := npowAux (e + 1) b e

/-- Number of digits of `n` in base `b`, for `n < b ^ 2 ^ k`, by halving the
range. -/
def digitCount (b : Nat) : Nat → Nat → Nat
  | 0, n => if n = 0 then 0 else 1
  | k + 1, n =>
    if npow b (npow 2 k) ≤ n then npow 2 k + digitCount b k (n / npow b (npow 2 k))
    else digitCount b k n

/-- Number of binary digits, for numbers below `2 ^ 4096`. -/
def bitLen (n : Nat) : Nat := digitCount 2 12 n

/-- Number of decimal digits, for numbers below `10 ^ 4096`. -/
def decLen (n : Nat) : Nat := digitCount 10 12 n

/-- A decimal literal taken apart: sign, the digits of the integer part and of
the fraction as one number, the number of fraction digits, and the exponent. -/
structure Decimal where
  neg : Bool
  digits : Nat
  fracLen : Nat
  expNeg : Bool
  exp : Nat

/-- Reads a JSON number literal. -/
def readDecimal (l : List Char) : Decimal :=
  let body := numSign l
  let ip := takeDigits body
  let r1 := dropDigits body
  let fp := match r1 with
    | '.' :: r => takeDigits r
    | _ => []
  let r2 := match r1 with
    | '.' :: r => dropDigits r
    | r => r
  let ex := match r2 with
    | _ :: '-' :: r => (true, r)
    | _ :: '+' :: r => (false, r)
    | _ :: r => (false, r)
    | [] => (false, [])
  ⟨l.head? = some '-', digitsVal 0 (ip ++ fp), fp.length, ex.1, digitsVal 0 ex.2⟩

/-- Number of digits of the integer part and the fraction of a literal, leading
zeros not counted. -/
def sigLen (l : List Char) : Nat :=
  let body := numSign l
  let fp := match dropDigits body with
    | '.' :: r => takeDigits r
    | _ => []
  ((takeDigits body ++ fp).dropWhile (fun c => c = '0')).length

/-- Quotient rounded to nearest, ties to even. -/
def divRoundEven (n d : Nat) : Nat :=
  if 2 * (n % d) > d ∨ (2 * (n % d) = d ∧ n / d % 2 = 1) then n / d + 1 else n / d

/-- The binary64 value nearest to `n / d`, ties to even, as the pair `(m, t)`
with `m < 2 ^ 53` and, when `t > 0`, `2 ^ 52 ≤ m`; `none` when the nearest value
is beyond the largest finite one. For `n / d` below `10 ^ 310`. -/
def toBinary64 (n d : Nat) : Option (Nat × Nat) :=
  let n1 := n * npow 2 1074
  let t := bitLen (n1 / d) - 53
  let m := divRoundEven n1 (d * npow 2 t)
  if m = npow 2 53 then (if 2046 ≤ t + 1 then none else some (npow 2 52, t + 1))
  else if 2046 ≤ t then none else some (m, t)

/-- `strconv.ParseFloat(s, 64)` on a JSON number literal: the sign and the pair
`(m, t)` of the nearest binary64 value; `none` is the range error of a literal
too large in magnitude. A literal too small in magnitude gives zero. -/
def parseBits (l : List Char) : Option (Bool × Nat × Nat) :=
  let d := readDecimal l
  if d.digits = 0 then some (d.neg, 0, 0)
  else
    let len : Int := sigLen l
    let e : Int := (if d.expNeg then - (d.exp : Int) else (d.exp : Int)) - (d.fracLen : Int)
    if 310 < len + e then none
    else if len + e < -330 then some (d.neg, 0, 0)
    else
      (if 0 ≤ e then toBinary64 (d.digits * npow 10 e.toNat) 1
        else toBinary64 d.digits (npow 10 (-e).toNat)).map (fun b => (d.neg, b))

/-- Whether the decimal `c * 10 ^ p / 10 ^ s` reads back as `(m, t)`. -/
def readsBack (m t c p s : Nat) : Bool := toBinary64 (c * npow 10 p) (npow 10 s) = some (m, t)

/-- The shortest decimal that reads back as `(m, t)`. With `i / 10 ^ s` the exact
value and `len` the number of digits of `i`, it tries 1, 2, ... digits; with `n`
digits the candidates are the value cut to `n` digits and the next `n`-digit
number; when both read back, the nearer one is taken, ties to even. The result
`(c, p)` stands for `c * 10 ^ p / 10 ^ s`. -/
def shortest (m t i s len : Nat) : Nat → Nat → Nat × Nat
  | 0, _ => (i, 0)
  | fuel + 1, n =>
    if len ≤ n then (i, 0)
    else
      if readsBack m t (i / npow 10 (len - n)) (len - n) s
          && readsBack m t (i / npow 10 (len - n) + 1) (len - n) s then
        (divRoundEven i (npow 10 (len - n)), len - n)
      else if readsBack m t (i / npow 10 (len - n)) (len - n) s then
        (i / npow 10 (len - n), len - n)
      else if readsBack m t (i / npow 10 (len - n) + 1) (len - n) s then
        (i / npow 10 (len - n) + 1, len - n)
      else shortest m t i s len fuel (n + 1)

/-- Drops the trailing zeros of a decimal `c * 10 ^ p`. -/
def stripZeros : Nat → Nat → Nat → Nat × Nat
  | 0, c, p => (c, p)
  | f + 1, c, p => if c ≠ 0 ∧ c % 10 = 0 then stripZeros f (c / 10) (p + 1) else (c, p)

/-- The digits `d1 d2 ...` and the position `dp` of the decimal point of the
shortest decimal that reads back as the non-zero value `(m, t)`: the decimal is
`0.d1d2... * 10 ^ dp`. -/
def shortestDigits (m t : Nat) : List Char × Int :=
  let s := 1074 - t
  let i := m * npow 2 (t - 1074) * npow 5 s
  let r := shortest m t i s (decLen i) 17 1
  let z := stripZeros 17 r.1 r.2
  (natText z.1, ((natText z.1).length : Int) + (z.2 : Int) - (s : Int))

/-- The format `%f` with the shortest precision. -/
def formatF (ds : List Char) (dp : Int) : List Char :=
  if 0 < dp then
    (if ds.length ≤ dp.toNat then ds ++ List.replicate (dp.toNat - ds.length) '0'
      else ds.take dp.toNat ++ '.' :: ds.drop dp.toNat)
  else '0' :: '.' :: (List.replicate (-dp).toNat '0' ++ ds)

/-- The format `%e` with the shortest precision, the exponent without a leading
zero, as `encoding/json` leaves it. -/
def formatE (ds : List Char) (dp : Int) : List Char :=
  let mant := match ds with
    | [] => []
    | [c] => [c]
    | c :: r => c :: '.' :: r
  mant ++ 'e' ::
    (if dp - 1 < 0 then '-' :: natText (-(dp - 1)).toNat else '+' :: natText (dp - 1).toNat)

/-- The text that `encoding/json` writes for a finite binary64 value: `%e` when
the magnitude is below `1e-6` or at least `1e21`, `%f` otherwise, each with the
fewest digits that read back as the value. -/
def formatBits (b : Bool × Nat × Nat) : List Char :=
  let sign := if b.1 then ['-'] else []
  if b.2.1 = 0 then sign ++ ['0']
  else
    let d := shortestDigits b.2.1 b.2.2
    sign ++ (if d.2 < -5 ∨ 21 < d.2 then formatE d.1 d.2 else formatF d.1 d.2)

/-- A number literal converted to binary64 and written back: the text that
stands for the value; `none` when the literal is out of range. -/
def canonFloat (l : List Char) : Option (List Char) := (parseBits l).map formatBits

/-- A `float64` as the contract sees it: read from a JSON number and written back
as one. The value is represented by the text that `encoding/json` writes for
it, so that two numbers are equal exactly when they are the same binary64 value
(`20.0`, `2e1` and `20` are one value, written `20`). The value carries the facts
that its text is a JSON number and reads back as itself. -/
structure Float64 where
  lit : List Char
  wf : isNumberLit lit = true
  canon : canonFloat lit = some lit
deriving DecidableEq

/-- The JSON number that is written for a `float64`. -/
def Float64.toNumber (x : Float64) : Number := ⟨x.lit, x.wf⟩

/-- The `float64` that a JSON number converts to; `none` when it is out of
range. The value is built from the text written for the number, with the check
that this text reads back as itself. -/
def parseFloat (n : Number) : Option Float64 :=
  match canonFloat n.lit with
  | none => none
  | some c =>
    if h : isNumberLit c = true ∧ canonFloat c = some c then some ⟨c, h.1, h.2⟩ else none

/-! ### time.Time

The text form of a `time.Time` in JSON: what `time.Parse(time.RFC3339, s)` takes
and what `MarshalJSON` writes. -/

/-- Value of a decimal digit. -/
def digitOf (c : Char) : Nat := c.toNat - 48

/-- Two decimal digits as a number, and the rest. -/
def twoDigits : List Char → Option (Nat × List Char)
  | a :: b :: r => if a.isDigit ∧ b.isDigit then some (digitOf a * 10 + digitOf b, r) else none
  | _ => none

/-- One or two decimal digits as a number, and the rest: the hour field. -/
def oneOrTwoDigits : List Char → Option (Nat × List Char)
  | [] => none
  | [a] => if a.isDigit then some (digitOf a, []) else none
  | a :: b :: r =>
    if a.isDigit then
      (if b.isDigit then some (digitOf a * 10 + digitOf b, r) else some (digitOf a, b :: r))
    else none

/-- One expected character followed by the rest. -/
def expectChar (c : Char) : List Char → Option (List Char)
  | [] => none
  | d :: r => if d = c then some r else none

/-- Number of days of a month. -/
def daysIn (month year : Nat) : Nat :=
  if month = 2 then (if year % 4 = 0 ∧ (year % 100 ≠ 0 ∨ year % 400 = 0) then 29 else 28)
  else if month = 4 ∨ month = 6 ∨ month = 9 ∨ month = 11 then 30
  else 31

/-- Drops the zeros at the end of a run of digits. -/
def dropTrailingZeros (l : List Char) : List Char :=
  (l.reverse.dropWhile (fun c => c = '0')).reverse

/-- Fractional seconds: a period or a comma followed by at least one digit is
read as a fraction, of which nine digits count; anything else is left to the
zone. The result is the fraction as it is written back (empty, or a period and
up to nine digits without zeros at the end) and the rest. -/
def timeFraction : List Char → List Char × List Char
  | sep :: c :: r =>
    if (sep = '.' ∨ sep = ',') ∧ c.isDigit then
      (match dropTrailingZeros ((takeDigits (c :: r)).take 9) with
        | [] => []
        | ds => '.' :: ds,
       dropDigits (c :: r))
    else ([], sep :: c :: r)
  | r => ([], r)

/-- Two digits written for a number below 100. -/
def twoDigitText (n : Nat) : List Char := [Char.ofNat (48 + n / 10), Char.ofNat (48 + n % 10)]

/-- The zone at the end of the text: `Z`, or a sign and `hh:mm` with at most 24
hours and 60 minutes, for an offset of less than a day. The result is the zone
as it is written back: `Z` for the offset zero, a sign and `hh:mm` otherwise. -/
def timeZone (l : List Char) : Option (List Char) :=
  if l = ['Z'] then some ['Z']
  else
    match l with
    | [sign, h1, h2, colon, m1, m2] =>
      if (sign = '+' ∨ sign = '-') ∧ colon = ':' ∧ h1.isDigit ∧ h2.isDigit ∧ m1.isDigit
          ∧ m2.isDigit ∧ digitOf h1 * 10 + digitOf h2 ≤ 24 ∧ digitOf m1 * 10 + digitOf m2 ≤ 60
          ∧ (digitOf h1 * 10 + digitOf h2) * 60 + (digitOf m1 * 10 + digitOf m2) < 1440 then
        (if (digitOf h1 * 10 + digitOf h2) * 60 + (digitOf m1 * 10 + digitOf m2) = 0 then
          some ['Z']
        else some (sign ::
          (twoDigitText (((digitOf h1 * 10 + digitOf h2) * 60 + (digitOf m1 * 10 + digitOf m2)) / 60)
            ++ ':' :: twoDigitText
              (((digitOf h1 * 10 + digitOf h2) * 60 + (digitOf m1 * 10 + digitOf m2)) % 60))))
      else none
    | _ => none

/-- One numeric field read by `p`: its value is put before the values read so
far. -/
def readField (p : List Char → Option (Nat × List Char)) :
    Option (List Nat × List Char) → Option (List Nat × List Char)
  | none => none
  | some (vals, r) =>
    match p r with
    | some (v, r1) => some (v :: vals, r1)
    | none => none

/-- One expected character between two fields. -/
def readChar (c : Char) : Option (List Nat × List Char) → Option (List Nat × List Char)
  | none => none
  | some (vals, r) =>
    match expectChar c r with
    | some r1 => some (vals, r1)
    | none => none

/-- The fields of a timestamp up to the seconds, last field first, and the text
after the seconds: four digits of year in two halves, `-`, month, `-`, day,
`T`, an hour in one or two digits, `:`, minutes, `:`, seconds. -/
def readFields (l : List Char) : Option (List Nat × List Char) :=
  readField twoDigits (readChar ':' (readField twoDigits (readChar ':'
    (readField oneOrTwoDigits (readChar 'T' (readField twoDigits (readChar '-'
      (readField twoDigits (readChar '-' (readField twoDigits (readField twoDigits
        (some ([], l)))))))))))))

/-- The text of a timestamp read by `time.Parse(time.RFC3339, s)` and written
back by `MarshalJSON`: four digits of year, a month from 1 to 12, a day of that
month, `T`, an hour below 24 in one or two digits, minutes and seconds below 60,
an optional fraction and a zone. The result is the text in the form
`yyyy-mm-ddThh:mm:ss[.fffffffff](Z|±hh:mm)`; `none` when the text is refused. An
offset of a day or more, which `time.Parse` takes and `MarshalJSON` refuses to
write, is refused here when it is read. -/
def canonTime (l : List Char) : Option (List Char) :=
  match readFields l with
  | some ([s, mi, h, d, mo, y2, y1], r) =>
    match timeZone (timeFraction r).2 with
    | some z =>
      if 1 ≤ mo ∧ mo ≤ 12 ∧ 1 ≤ d ∧ d ≤ daysIn mo (y1 * 100 + y2) ∧ h < 24 ∧ mi < 60
          ∧ s < 60 then
        some (List.flatten [twoDigitText y1, twoDigitText y2, ['-'], twoDigitText mo, ['-'],
          twoDigitText d, ['T'], twoDigitText h, [':'], twoDigitText mi, [':'],
          twoDigitText s, (timeFraction r).1, z])
      else none
    | none => none
  | _ => none

/-- Characters of the text of a timestamp. -/
def isTimeChar (c : Char) : Bool :=
  c.isDigit ∨ c = '-' ∨ c = ':' ∨ c = 'T' ∨ c = 'Z' ∨ c = '+' ∨ c = '.'

/-- A `time.Time` as the contract sees it: an instant read from the clock or from
a JSON string and written back as a JSON string. It is represented by the text
that `MarshalJSON` writes for it, and carries the facts that this text is made of
the characters of a timestamp and reads back as itself. Calendar arithmetic is
outside the model. -/
structure Time where
  text : List Char
  plain : text.all isTimeChar = true
  canon : canonTime text = some text
deriving DecidableEq

/-- The `time.Time` that a text is parsed to; `none` when it is refused. The value
is built from the text written for the time, with the check that this text
reads back as itself. -/
def parseTime (s : List Char) : Option Time :=
  match canonTime s with
  | none => none
  | some c =>
    if h : c.all isTimeChar = true ∧ canonTime c = some c then some ⟨c, h.1, h.2⟩ else none

/-- The zero `time.Time`, as Go marshals it. -/
def Time.zero : Time := ⟨"0001-01-01T00:00:00Z".toList, by decide, by decide⟩

/-! ## Asset and contract state (source lines 457-499) -/

/-- Key under which the contract version record is stored. -/
def CONTRACTSTATEKEY : String := "ContractStateKey"

/-- Version that the deployment argument must carry. -/
def MYVERSION : String := "1.0"

/-- Key under which the list of the last ten updates is stored. -/
def MRUKEY : String := "_MruListKey"

/-- ContractState holds the contract version. -/
structure ContractState where
  version : String
deriving DecidableEq

/-- Geolocation stores latitude and longitude, each a `*float64`. -/
structure Geolocation where
  latitude : Option Float64
  longitude : Option Float64
deriving DecidableEq

/-- AssetState stores the current state of an asset; every field is a pointer. -/
structure AssetState where
  assetID : Option String
  location : Option Geolocation
  temperature : Option Float64
  carrier : Option String
  updatedAt : Option Time
deriving DecidableEq

/-- The zero value `AssetState{}`: every pointer nil. -/
def AssetState.empty : AssetState := ⟨none, none, none, none, none⟩

/-- AssetUpdatedAt is one entry of the most-recently-updated list; `updatedAt` is
a `time.Time` value, not a pointer. -/
structure AssetUpdatedAt where
  assetID : Option String
  updatedAt : Time
deriving DecidableEq

/-- The zero value `AssetUpdatedAt{}`. -/
def AssetUpdatedAt.empty : AssetUpdatedAt := ⟨none, Time.zero⟩

/-- AssetMruList wraps the list of entries. -/
structure AssetMruList where
  list : List AssetUpdatedAt
deriving DecidableEq

/-! ## mergePartialState (source lines 853-865) -/

/-- Number of fields of `AssetState`, `old.NumField()`. -/
def numField : Nat := 5

/-- One iteration of the reflection loop: when field `i` of `new` is not nil, field
`i` of `old` is set to it. Field order is that of the struct declaration. -/
def mergeField (new : AssetState) (old : AssetState) (i : Nat) : AssetState :=
  match i with
  | 0 => if new.assetID.isSome then { old with assetID := new.assetID } else old
  | 1 => if new.location.isSome then { old with location := new.location } else old
  | 2 => if new.temperature.isSome then { old with temperature := new.temperature } else old
  | 3 => if new.carrier.isSome then { old with carrier := new.carrier } else old
  | 4 => if new.updatedAt.isSome then { old with updatedAt := new.updatedAt } else old
  | _ => old

/-- The merge of a partial state into a stored one: the loop
`for i := 0; i < old.NumField(); i++` over every field, then `return oldState, nil`. -/
def mergePartialState (oldState newState : AssetState) : AssetState × Option String :=
  ((List.range numField).foldl (mergeField newState) oldState, none)


/-! ## encoding/json, as far as the contract uses it

The contract calls `json.Unmarshal` and `json.Marshal` on its own struct types.
The library is modelled in three layers: a parser from text to a JSON value
tree, decoders from a value tree to each struct (field lookup by name, nil for
`null`, unknown members skipped, a type mismatch recorded as an error while
decoding goes on), and encoders back to compact text with `omitempty`. -/

mutual
/-- A JSON value. A string is `str` when its text has no escape and `estr` when it
has one; both carry the characters that the text stands for. -/
inductive JVal where
  | null
  | bool (b : Bool)
  | num (n : Number)
  | str (s : List Char)
  | estr (s : List Char)
  | arr (items : JList)
  | obj (members : JMembers)
/-- The elements of a JSON array, in order. -/
inductive JList where
  | nil
  | cons (v : JVal) (tl : JList)
/-- The members of a JSON object, in order, duplicates kept. -/
inductive JMembers where
  | nil
  | cons (k : List Char) (v : JVal) (tl : JMembers)
end

/-- JSON insignificant whitespace. -/
def isWs (c : Char) : Bool := c = ' ' ∨ c = '\t' ∨ c = '\n' ∨ c = '\r'

/-- Skips insignificant whitespace. -/
def skipWs : List Char → List Char
  | [] => []
  | c :: r => if isWs c then skipWs r else c :: r

/-- Value of a hexadecimal digit. -/
def hexVal (c : Char) : Option Nat :=
  if c.isDigit then some (c.toNat - 48)
  else if 97 ≤ c.toNat ∧ c.toNat ≤ 102 then some (c.toNat - 87)
  else if 65 ≤ c.toNat ∧ c.toNat ≤ 70 then some (c.toNat - 55)
  else none

/-- Value of four hexadecimal digits. -/
def hex4 (a b c d : Char) : Option Nat :=
  (hexVal a).bind (fun x => (hexVal b).bind (fun y => (hexVal c).bind (fun z =>
    (hexVal d).map (fun w => ((x * 16 + y) * 16 + z) * 16 + w))))

/-- The character of a one-letter escape. -/
def simpleEscape (e : Char) : Option Char :=
  if e = '\"' then some '\"'
  else if e = '\\' then some '\\'
  else if e = '/' then some '/'
  else if e = 'b' then some (Char.ofNat 8)
  else if e = 'f' then some (Char.ofNat 12)
  else if e = 'n' then some '\n'
  else if e = 'r' then some '\r'
  else if e = 't' then some '\t'
  else none

/-- Whether a UTF-16 code unit is a surrogate. -/
def isSurrogate (n : Nat) : Bool := 0xD800 ≤ n ∧ n < 0xE000

/-- The low surrogate escape that may follow a high surrogate `hi`: the combined
code point and the rest, when `cs` starts with one. -/
def lowSurrogate (hi : Nat) (cs : List Char) : Option Nat :=
  match cs with
  | b :: u :: a1 :: a2 :: a3 :: a4 :: _ =>
    if b = '\\' ∧ u = 'u' ∧ hi < 0xDC00 then
      match hex4 a1 a2 a3 a4 with
      | some lo => if 0xDC00 ≤ lo ∧ lo < 0xE000 then some ((hi - 0xD800) * 1024 + (lo - 0xDC00) + 0x10000) else none
      | none => none
    else none
  | _ => none

/-- Prepends a decoded character to the result of the rest of a string. -/
def consChar (c : Char) : Option (List Char × List Char) → Option (List Char × List Char)
  | some (s, r) => some (c :: s, r)
  | none => none

/-- The escape after a backslash: the decoded character and how many characters
of the text it takes. A `\u` escape of a surrogate that is followed by the escape
of a matching low surrogate takes both (eleven characters); any other surrogate
decodes to U+FFFD. -/
def strEscape : List Char → Option (Char × Nat)
  | [] => none
  | e :: r1 =>
    if e = 'u' then
      match r1 with
      | a1 :: a2 :: a3 :: a4 :: r2 =>
        match hex4 a1 a2 a3 a4 with
        | none => none
        | some n =>
          if isSurrogate n then
            match lowSurrogate n r2 with
            | some cp => some (Char.ofNat cp, 11)
            | none => some (Char.ofNat 0xFFFD, 5)
          else some (Char.ofNat n, 5)
      | _ => none
    else
      match simpleEscape e with
      | some ch => some (ch, 1)
      | none => none

/-- The body of a JSON string after its opening quote: the decoded characters and
the text after the closing quote. The first argument counts characters of an
escape that are still to be passed over. Control characters below U+0020 are
refused. -/
def parseStrBody : Nat → List Char → Option (List Char × List Char)
  | _, [] => none
  | skip + 1, _ :: r => parseStrBody skip r
  | 0, c :: r =>
    if c = '\"' then some ([], r)
    else if c = '\\' then
      match strEscape r with
      | some (ch, k) => consChar ch (parseStrBody k r)
      | none => none
    else if c.toNat < 32 then none
    else consChar c (parseStrBody 0 r)

/-- Whether the body of a string has an escape before its closing quote. -/
def bodyEscaped : List Char → Bool
  | [] => false
  | c :: r => if c = '\"' then false else if c = '\\' then true else bodyEscaped r

/-- Splits off the longest run of number characters. -/
def spanNum : List Char → List Char × List Char
  | [] => ([], [])
  | c :: r => if isNumChar c then ((c :: (spanNum r).1), (spanNum r).2) else ([], c :: r)

/-- A JSON number at the start of the text. -/
def parseNum (cs : List Char) : Option (JVal × List Char) :=
  if h : isNumberLit (spanNum cs).1 = true then some (JVal.num ⟨(spanNum cs).1, h⟩, (spanNum cs).2)
  else none

/-- One of the literals `true`, `false`, `null` at the start of the text. -/
def parseLit : List Char → Option (JVal × List Char)
  | 't' :: 'r' :: 'u' :: 'e' :: r => some (JVal.bool true, r)
  | 'f' :: 'a' :: 'l' :: 's' :: 'e' :: r => some (JVal.bool false, r)
  | 'n' :: 'u' :: 'l' :: 'l' :: r => some (JVal.null, r)
  | _ => none

mutual
/-- A JSON value at the start of the text (no leading whitespace), with the text
that follows it. The first argument bounds the number of nested calls. -/
def parseValue : Nat → List Char → Option (JVal × List Char)
  | 0, _ => none
  | _ + 1, [] => none
  | f + 1, c :: r =>
    if c = '{' then
      match skipWs r with
      | [] => none
      | d :: r1 =>
        if d = '}' then some (JVal.obj JMembers.nil, r1)
        else
          match parseMembers f (d :: r1) with
          | some (ms, r2) => some (JVal.obj ms, r2)
          | none => none
    else if c = '[' then
      match skipWs r with
      | [] => none
      | d :: r1 =>
        if d = ']' then some (JVal.arr JList.nil, r1)
        else
          match parseItems f (d :: r1) with
          | some (xs, r2) => some (JVal.arr xs, r2)
          | none => none
    else if c = '\"' then
      match parseStrBody 0 r with
      | some (s, r1) => some (if bodyEscaped r then JVal.estr s else JVal.str s, r1)
      | none => none
    else if c = 't' ∨ c = 'f' ∨ c = 'n' then parseLit (c :: r)
    else parseNum (c :: r)
/-- The members of an object from its first key to the closing brace. -/
def parseMembers : Nat → List Char → Option (JMembers × List Char)
  | 0, _ => none
  | _ + 1, [] => none
  | f + 1, q :: r =>
    if q = '\"' then
      match parseStrBody 0 r with
      | none => none
      | some (k, r1) =>
        match skipWs r1 with
        | [] => none
        | col :: r2 =>
          if col = ':' then
            match parseValue f (skipWs r2) with
            | none => none
            | some (v, r3) =>
              match skipWs r3 with
              | [] => none
              | d :: r4 =>
                if d = ',' then
                  match parseMembers f (skipWs r4) with
                  | some (ms, r5) => some (JMembers.cons k v ms, r5)
                  | none => none
                else if d = '}' then some (JMembers.cons k v JMembers.nil, r4)
                else none
          else none
    else none
/-- The elements of an array from its first element to the closing bracket. -/
def parseItems : Nat → List Char → Option (JList × List Char)
  | 0, _ => none
  | f + 1, cs =>
    match parseValue f cs with
    | none => none
    | some (v, r1) =>
      match skipWs r1 with
      | [] => none
      | d :: r2 =>
        if d = ',' then
          match parseItems f (skipWs r2) with
          | some (xs, r3) => some (JList.cons v xs, r3)
          | none => none
        else if d = ']' then some (JList.cons v JList.nil, r2)
        else none
end

/-- A whole text as one JSON value, whitespace allowed around it; `none` is a
syntax error. -/
def parseJSON (s : List Char) : Option JVal :=
  match parseValue (s.length + 1) (skipWs s) with
  | some (v, r) => if skipWs r = [] then some v else none
  | none => none


/-! ### Decoding a value tree into the contract's structs -/

/-- Error text of a syntax error, whatever its position. -/
def syntaxError : String := "invalid character in JSON input"

/-- Error text of a type mismatch or of a value that a type's own unmarshaller
refuses. -/
def typeError : String := "json: cannot unmarshal value into Go value"

/-- The decoder keeps the first error it saved and goes on. -/
def firstErr (e1 e2 : Option String) : Option String :=
  match e1 with
  | some e => some e
  | none => e2

/-- Case folding of member names: ASCII letters, and the long s that folds to `s`. -/
def foldChar (c : Char) : Char :=
  if 65 ≤ c.toNat ∧ c.toNat ≤ 90 then Char.ofNat (c.toNat + 32)
  else if c.toNat = 0x17F then 's'
  else c

/-- Whether a member name selects the struct field tagged `name`: an exact or a
case-insensitive match (the tags of one struct never match each other). -/
def keyIs (name : String) (key : List Char) : Bool :=
  name.toList.map foldChar = key.map foldChar

/-- The zero `float64`. -/
def Float64.zero : Float64 := ⟨['0'], by decide, by decide⟩

/-- Decoding into a `*string` field: `null` sets nil, a string sets a fresh
pointer, anything else is a type error that leaves an allocated pointer. -/
def decPtrString (cur : Option String) : JVal → Option String × Option String
  | JVal.null => (none, none)
  | JVal.str s => (some (String.mk s), none)
  | JVal.estr s => (some (String.mk s), none)
  | _ => (some (cur.getD ""), some typeError)

/-- Decoding into a `*float64` field: a number is converted to binary64; a number
out of range is an error that leaves an allocated pointer, like a value of
another type. -/
def decPtrFloat (cur : Option Float64) : JVal → Option Float64 × Option String
  | JVal.null => (none, none)
  | JVal.num n =>
    match parseFloat n with
    | some x => (some x, none)
    | none => (some (cur.getD Float64.zero), some typeError)
  | _ => (some (cur.getD Float64.zero), some typeError)

/-- Decoding into a `time.Time`: `null` has no effect; the unmarshaller of
`time.Time` is given the text of the string as it stands, so a string without
escapes that `time.Parse` takes sets the time, and a string with an escape, a
string that is refused and every other value are errors that leave the zero
time. -/
def decTime (cur : Time) : JVal → Time × Option String
  | JVal.null => (cur, none)
  | JVal.str s =>
    match parseTime s with
    | some t => (t, none)
    | none => (Time.zero, some typeError)
  | _ => (Time.zero, some typeError)

/-- Decoding into a `*time.Time` field. -/
def decPtrTime (cur : Option Time) : JVal → Option Time × Option String
  | JVal.null => (none, none)
  | v => (some (decTime (cur.getD Time.zero) v).1, (decTime (cur.getD Time.zero) v).2)

/-- One member of a `Geolocation` object. -/
def decGeoMember (g : Geolocation × Option String) (k : List Char) (v : JVal) :
    Geolocation × Option String :=
  if keyIs "latitude" k then
    ({ g.1 with latitude := (decPtrFloat g.1.latitude v).1 }, firstErr g.2 (decPtrFloat g.1.latitude v).2)
  else if keyIs "longitude" k then
    ({ g.1 with longitude := (decPtrFloat g.1.longitude v).1 }, firstErr g.2 (decPtrFloat g.1.longitude v).2)
  else g

/-- The members of a `Geolocation` object, in order. -/
def decGeoMembers : JMembers → Geolocation × Option String → Geolocation × Option String
  | JMembers.nil, g => g
  | JMembers.cons k v tl, g => decGeoMembers tl (decGeoMember g k v)

/-- Decoding into a `*Geolocation` field: an object is decoded into the struct
the pointer already has, or into a fresh one. -/
def decPtrGeo (cur : Option Geolocation) : JVal → Option Geolocation × Option String
  | JVal.null => (none, none)
  | JVal.obj ms => (some (decGeoMembers ms (cur.getD ⟨none, none⟩, none)).1,
      (decGeoMembers ms (cur.getD ⟨none, none⟩, none)).2)
  | _ => (some (cur.getD ⟨none, none⟩), some typeError)

/-- One member of an `AssetState` object. -/
def decAssetMember (s : AssetState × Option String) (k : List Char) (v : JVal) :
    AssetState × Option String :=
  if keyIs "assetID" k then
    ({ s.1 with assetID := (decPtrString s.1.assetID v).1 }, firstErr s.2 (decPtrString s.1.assetID v).2)
  else if keyIs "location" k then
    ({ s.1 with location := (decPtrGeo s.1.location v).1 }, firstErr s.2 (decPtrGeo s.1.location v).2)
  else if keyIs "temperature" k then
    ({ s.1 with temperature := (decPtrFloat s.1.temperature v).1 },
      firstErr s.2 (decPtrFloat s.1.temperature v).2)
  else if keyIs "carrier" k then
    ({ s.1 with carrier := (decPtrString s.1.carrier v).1 }, firstErr s.2 (decPtrString s.1.carrier v).2)
  else if keyIs "updatedAt" k then
    ({ s.1 with updatedAt := (decPtrTime s.1.updatedAt v).1 }, firstErr s.2 (decPtrTime s.1.updatedAt v).2)
  else s

/-- The members of an `AssetState` object, in order. -/
def decAssetMembers : JMembers → AssetState × Option String → AssetState × Option String
  | JMembers.nil, s => s
  | JMembers.cons k v tl, s => decAssetMembers tl (decAssetMember s k v)

/-- Decoding a value into a zero `AssetState`. -/
def decAsset : JVal → AssetState × Option String
  | JVal.null => (AssetState.empty, none)
  | JVal.obj ms => decAssetMembers ms (AssetState.empty, none)
  | _ => (AssetState.empty, some typeError)

/-- One member of an `AssetUpdatedAt` object. -/
def decEntryMember (e : AssetUpdatedAt × Option String) (k : List Char) (v : JVal) :
    AssetUpdatedAt × Option String :=
  if keyIs "assetID" k then
    ({ e.1 with assetID := (decPtrString e.1.assetID v).1 }, firstErr e.2 (decPtrString e.1.assetID v).2)
  else if keyIs "updatedAt" k then
    ({ e.1 with updatedAt := (decTime e.1.updatedAt v).1 }, firstErr e.2 (decTime e.1.updatedAt v).2)
  else e

/-- The members of an `AssetUpdatedAt` object, in order. -/
def decEntryMembers : JMembers → AssetUpdatedAt × Option String → AssetUpdatedAt × Option String
  | JMembers.nil, e => e
  | JMembers.cons k v tl, e => decEntryMembers tl (decEntryMember e k v)

/-- Decoding a value into an `AssetUpdatedAt` that holds `cur`. -/
def decEntry (cur : AssetUpdatedAt) : JVal → AssetUpdatedAt × Option String
  | JVal.null => (cur, none)
  | JVal.obj ms => decEntryMembers ms (cur, none)
  | _ => (cur, some typeError)

/-- Decoding the elements of an array into a slice of `AssetUpdatedAt` whose
array holds `back` from index 0: the element at an index is decoded into the
element that the array has there, or into a zero element beyond them, and the
slice ends up with as many elements as the array of the text. -/
def decEntries : List AssetUpdatedAt → JList → List AssetUpdatedAt × Option String
  | _, JList.nil => ([], none)
  | back, JList.cons v tl =>
    ((decEntry (back.headD AssetUpdatedAt.empty) v).1 :: (decEntries back.tail tl).1,
      firstErr (decEntry (back.headD AssetUpdatedAt.empty) v).2 (decEntries back.tail tl).2)

/-- One member of an `AssetMruList` object. Next to the list and the first error,
the state has the elements `back` of the array of the slice from index 0: the
elements of the slice, followed by what an earlier, longer value of the member
left behind them. `null` and the empty array give the slice a new array; an
array with elements is decoded into the array that is there. -/
def decMruMember (m : (AssetMruList × Option String) × List AssetUpdatedAt) (k : List Char)
    (v : JVal) : (AssetMruList × Option String) × List AssetUpdatedAt :=
  if keyIs "mruList" k then
    match v with
    | JVal.null => ((⟨[]⟩, m.1.2), [])
    | JVal.arr JList.nil => ((⟨[]⟩, m.1.2), [])
    | JVal.arr (JList.cons x tl) =>
      ((⟨(decEntries m.2 (JList.cons x tl)).1⟩,
          firstErr m.1.2 (decEntries m.2 (JList.cons x tl)).2),
        (decEntries m.2 (JList.cons x tl)).1
          ++ m.2.drop (decEntries m.2 (JList.cons x tl)).1.length)
    | _ => ((m.1.1, firstErr m.1.2 (some typeError)), m.2)
  else m

/-- The members of an `AssetMruList` object, in order. -/
def decMruMembers : JMembers → (AssetMruList × Option String) × List AssetUpdatedAt →
    (AssetMruList × Option String) × List AssetUpdatedAt
  | JMembers.nil, m => m
  | JMembers.cons k v tl, m => decMruMembers tl (decMruMember m k v)

/-- Decoding a value into a zero `AssetMruList`. -/
def decMru : JVal → AssetMruList × Option String
  | JVal.null => (⟨[]⟩, none)
  | JVal.obj ms => (decMruMembers ms ((⟨[]⟩, none), [])).1
  | _ => (⟨[]⟩, some typeError)

/-- One member of a `ContractState` object; `version` is a plain string. -/
def decVersionMember (c : ContractState × Option String) (k : List Char) (v : JVal) :
    ContractState × Option String :=
  if keyIs "version" k then
    match v with
    | JVal.null => c
    | JVal.str s => (⟨String.mk s⟩, c.2)
    | JVal.estr s => (⟨String.mk s⟩, c.2)
    | _ => (c.1, firstErr c.2 (some typeError))
  else c

/-- The members of a `ContractState` object, in order. -/
def decVersionMembers : JMembers → ContractState × Option String → ContractState × Option String
  | JMembers.nil, c => c
  | JMembers.cons k v tl, c => decVersionMembers tl (decVersionMember c k v)

/-- Decoding a value into a zero `ContractState`. -/
def decVersion : JVal → ContractState × Option String
  | JVal.null => (⟨""⟩, none)
  | JVal.obj ms => decVersionMembers ms (⟨""⟩, none)
  | _ => (⟨""⟩, some typeError)

/-- `json.Unmarshal(data, &v)` for a zero `v AssetState`: the value after the call
and the error. A syntax error leaves `v` untouched. -/
def jsonUnmarshalAssetState (data : String) : AssetState × Option String :=
  match parseJSON data.toList with
  | none => (AssetState.empty, some syntaxError)
  | some v => decAsset v

/-- `json.Unmarshal(data, &v)` for a zero `v AssetUpdatedAt`. -/
def jsonUnmarshalAssetUpdatedAt (data : String) : AssetUpdatedAt × Option String :=
  match parseJSON data.toList with
  | none => (AssetUpdatedAt.empty, some syntaxError)
  | some v => decEntry AssetUpdatedAt.empty v

/-- `json.Unmarshal(data, &v)` for a zero `v AssetMruList`. -/
def jsonUnmarshalAssetMruList (data : String) : AssetMruList × Option String :=
  match parseJSON data.toList with
  | none => (⟨[]⟩, some syntaxError)
  | some v => decMru v

/-- `json.Unmarshal(data, &v)` for a zero `v ContractState`. -/
def jsonUnmarshalContractState (data : String) : ContractState × Option String :=
  match parseJSON data.toList with
  | none => (⟨""⟩, some syntaxError)
  | some v => decVersion v

/-! ### Encoding the contract's structs -/

/-- Lower-case hexadecimal digit. -/
def hexDigit (n : Nat) : Char := if n < 10 then Char.ofNat (48 + n) else Char.ofNat (87 + n)

/-- How the encoder writes one character of a string: quote and backslash behind
a backslash, newline, carriage return and tab as letters, other control
characters and `<`, `>`, `&` as `\u00xx`, the line separators U+2028 and U+2029
as `\u202x`, everything else as itself. -/
def escapeChar (c : Char) : List Char :=
  if c = '\"' then ['\\', '\"']
  else if c = '\\' then ['\\', '\\']
  else if c = '\n' then ['\\', 'n']
  else if c = '\r' then ['\\', 'r']
  else if c = '\t' then ['\\', 't']
  else if c.toNat < 32 ∨ c = '<' ∨ c = '>' ∨ c = '&' then
    ['\\', 'u', '0', '0', hexDigit (c.toNat / 16), hexDigit (c.toNat % 16)]
  else if c.toNat = 0x2028 then ['\\', 'u', '2', '0', '2', '8']
  else if c.toNat = 0x2029 then ['\\', 'u', '2', '0', '2', '9']
  else [c]

/-- The escaped body of a string. -/
def escape : List Char → List Char
  | [] => []
  | c :: r => escapeChar c ++ escape r

/-- Whether the encoder writes the character with an escape. -/
def needsEscape (c : Char) : Bool :=
  c = '\"' ∨ c = '\\' ∨ c.toNat < 32 ∨ c = '<' ∨ c = '>' ∨ c = '&' ∨ c.toNat = 0x2028
    ∨ c.toNat = 0x2029

/-- Value tree of a string. -/
def jstr (s : List Char) : JVal := if s.any needsEscape then JVal.estr s else JVal.str s

mutual
/-- Compact text of a value. -/
def renderVal : JVal → List Char
  | JVal.null => ['n', 'u', 'l', 'l']
  | JVal.bool true => ['t', 'r', 'u', 'e']
  | JVal.bool false => ['f', 'a', 'l', 's', 'e']
  | JVal.num n => n.lit
  | JVal.str s => '\"' :: (escape s ++ ['\"'])
  | JVal.estr s => '\"' :: (escape s ++ ['\"'])
  | JVal.arr xs => '[' :: renderItems xs
  | JVal.obj ms => '{' :: renderMembers ms
/-- Compact text of the elements of an array and its closing bracket. -/
def renderItems : JList → List Char
  | JList.nil => [']']
  | JList.cons v JList.nil => renderVal v ++ [']']
  | JList.cons v (JList.cons w tl) => renderVal v ++ ',' :: renderItems (JList.cons w tl)
/-- Compact text of the members of an object and its closing brace. -/
def renderMembers : JMembers → List Char
  | JMembers.nil => ['}']
  | JMembers.cons k v JMembers.nil => '\"' :: (escape k ++ '\"' :: ':' :: (renderVal v ++ ['}']))
  | JMembers.cons k v (JMembers.cons k2 v2 tl) =>
    '\"' :: (escape k ++ '\"' :: ':' :: (renderVal v ++ ',' :: renderMembers (JMembers.cons k2 v2 tl)))
end

mutual
/-- Number of nodes of a value; a bound on the depth of calls its parsing needs. -/
def JVal.size : JVal → Nat
  | JVal.arr xs => xs.size + 1
  | JVal.obj ms => ms.size + 1
  | _ => 1
/-- Number of nodes of the elements of an array. -/
def JList.size : JList → Nat
  | JList.nil => 0
  | JList.cons v tl => v.size + tl.size + 1
/-- Number of nodes of the members of an object. -/
def JMembers.size : JMembers → Nat
  | JMembers.nil => 0
  | JMembers.cons _ v tl => v.size + tl.size + 1
end

mutual
/-- The strings of a value are tagged as the parser tags them: `estr` exactly when
the text written for the string has an escape. -/
def JVal.tagged : JVal → Prop
  | JVal.str s => s.any needsEscape = false
  | JVal.estr s => s.any needsEscape = true
  | JVal.arr xs => xs.tagged
  | JVal.obj ms => ms.tagged
  | _ => True
/-- The strings of the elements of an array are tagged as the parser tags them. -/
def JList.tagged : JList → Prop
  | JList.nil => True
  | JList.cons v tl => v.tagged ∧ tl.tagged
/-- The strings of the members of an object are tagged as the parser tags them. -/
def JMembers.tagged : JMembers → Prop
  | JMembers.nil => True
  | JMembers.cons _ v tl => v.tagged ∧ tl.tagged
end

/-- Text after which a number ends: empty, or starting with a character that
cannot continue a number. -/
def numSafe (rest : List Char) : Prop := ∀ c ∈ rest.head?, isNumChar c = false

/-- A member that `omitempty` drops when the pointer is nil. -/
def optMember (name : String) (v : Option JVal) (tl : JMembers) : JMembers :=
  match v with
  | some x => JMembers.cons name.toList x tl
  | none => tl

/-- Value tree of a `Geolocation`. -/
def encGeo (g : Geolocation) : JVal :=
  JVal.obj (optMember "latitude" (g.latitude.map (fun x => JVal.num x.toNumber))
    (optMember "longitude" (g.longitude.map (fun x => JVal.num x.toNumber)) JMembers.nil))

/-- Value tree of a `time.Time`. -/
def encTime (t : Time) : JVal := JVal.str t.text

/-- Value tree of an `AssetState`, fields in declaration order. -/
def encAsset (s : AssetState) : JVal :=
  JVal.obj (optMember "assetID" (s.assetID.map (fun x => jstr x.toList))
    (optMember "location" (s.location.map encGeo)
    (optMember "temperature" (s.temperature.map (fun x => JVal.num x.toNumber))
    (optMember "carrier" (s.carrier.map (fun x => jstr x.toList))
    (optMember "updatedAt" (s.updatedAt.map encTime) JMembers.nil)))))

/-- Value tree of an `AssetUpdatedAt`; `omitempty` never drops a struct value. -/
def encEntry (e : AssetUpdatedAt) : JVal :=
  JVal.obj (optMember "assetID" (e.assetID.map (fun x => jstr x.toList))
    (JMembers.cons "updatedAt".toList (encTime e.updatedAt) JMembers.nil))

/-- Value trees of the entries of a list. -/
def encEntries : List AssetUpdatedAt → JList
  | [] => JList.nil
  | e :: tl => JList.cons (encEntry e) (encEntries tl)

/-- Value tree of an `AssetMruList`; `omitempty` drops an empty list. -/
def encMru (m : AssetMruList) : JVal :=
  JVal.obj (optMember "mruList" (if m.list.isEmpty then none else some (JVal.arr (encEntries m.list)))
    JMembers.nil)

/-- Value tree of a `ContractState`. -/
def encVersion (c : ContractState) : JVal :=
  JVal.obj (JMembers.cons "version".toList (jstr c.version.toList) JMembers.nil)

/-- `json.Marshal` of an `AssetState`: the text and the error, which is never set
for the values of the model. -/
def jsonMarshalAssetState (s : AssetState) : String × Option String :=
  (String.mk (renderVal (encAsset s)), none)

/-- `json.Marshal` of an `AssetMruList`. -/
def jsonMarshalAssetMruList (m : AssetMruList) : String × Option String :=
  (String.mk (renderVal (encMru m)), none)

/-- `json.Marshal` of a `ContractState`. -/
def jsonMarshalContractState (c : ContractState) : String × Option String :=
  (String.mk (renderVal (encVersion c)), none)

/-! ## The ledger stub (`shim.ChaincodeStubInterface`) -/

/-- The ledger as the contract reaches it: the world state, and for each kind of
call the keys on which the call reports an error, with the error text. -/
structure Stub where
  world : String → Option String
  getFault : String → Option String
  putFault : String → Option String
  delFault : String → Option String

/-- `stub.GetState(key)`: the stored bytes and the error. A key that is not in the
world state gives empty bytes and no error; an error gives no bytes. -/
def Stub.GetState (stub : Stub) (key : String) : String × Option String :=
  match stub.getFault key with
  | some e => ("", some e)
  | none => ((stub.world key).getD "", none)

/-- `stub.PutState(key, value)`: the ledger after the call and the error. -/
def Stub.PutState (stub : Stub) (key value : String) : Stub × Option String :=
  match stub.putFault key with
  | some e => (stub, some e)
  | none => ({ stub with world := fun k => if k = key then some value else stub.world k }, none)

/-- `stub.DelState(key)`: the ledger after the call and the error. -/
def Stub.DelState (stub : Stub) (key : String) : Stub × Option String :=
  match stub.delFault key with
  | some e => (stub, some e)
  | none => ({ stub with world := fun k => if k = key then none else stub.world k }, none)

/-! ## strings.TrimSpace -/

/-- White space as `unicode.IsSpace` defines it. -/
def isSpace (c : Char) : Bool :=
  c.toNat = 9 ∨ c.toNat = 10 ∨ c.toNat = 11 ∨ c.toNat = 12 ∨ c.toNat = 13 ∨ c.toNat = 32
    ∨ c.toNat = 0x85 ∨ c.toNat = 0xA0 ∨ c.toNat = 0x1680 ∨ (0x2000 ≤ c.toNat ∧ c.toNat ≤ 0x200A)
    ∨ c.toNat = 0x2028 ∨ c.toNat = 0x2029 ∨ c.toNat = 0x202F ∨ c.toNat = 0x205F ∨ c.toNat = 0x3000

/-- Drops leading white space. -/
def dropSpace : List Char → List Char
  | [] => []
  | c :: r => if isSpace c then dropSpace r else c :: r

/-- `strings.TrimSpace`: the string without leading and trailing white space. -/
def TrimSpace (s : String) : String :=
  String.mk (dropSpace (dropSpace s.toList).reverse).reverse

/-! ## validateInput (source lines 708-742) -/

/-- The common validation of the CRUD functions: exactly one argument, which
unmarshals into an `AssetState` whose `assetID` is present and not blank. The
result is `(stateIn, err)`; on every error the state returned is the local
`state`, an empty `AssetState`. -/
def validateInput (args : List String) : AssetState × Option String :=
  let state := AssetState.empty
  match args with
  | [jsonData] =>
    match jsonUnmarshalAssetState jsonData with
    | (_, some _) => (state, some "Unable to unmarshal input JSON data")
    | (stateIn, none) =>
      match stateIn.assetID with
      | some id =>
        let assetID := TrimSpace id
        if assetID = "" then (state, some "AssetID not passed")
        else ({ stateIn with assetID := some assetID }, none)
      | none => (state, some "Asset id is mandatory in the input JSON data")
  | _ => (state, some "Incorrect number of arguments. Expecting a JSON strings with mandatory assetID")

/-! ## createOrUpdateAsset (source lines 745-850) -/

/-- The helper `minInt` on Go `int`s. -/
def minInt (a b : Int) : Int := if a < b then a else b

/-- The slice expression `s[:n]`: `none` is the run-time panic for a bound that
is negative or beyond the length (the capacity of a freshly appended slice is
not modelled). -/
def sliceTo {α : Type} (s : List α) (n : Int) : Option (List α) :=
  if 0 ≤ n ∧ n ≤ (s.length : Int) then some (s.take n.toNat) else none

/-- Text of the panic of an index or a nil pointer fault. -/
def panicText : String := "panic: runtime error"

/-- The list that the second half of `createOrUpdateAsset` starts from (source
lines 809-824): what is stored under `MRUKEY`, a read error or empty bytes
counting as a new, empty list, with the error of the unmarshal. -/
def loadMruList (stub : Stub) : AssetMruList × Option String :=
  let mruBytes := (stub.GetState MRUKEY).1
  let err := (stub.GetState MRUKEY).2
  if err.isSome ∨ mruBytes.length = 0 then (⟨[]⟩, none)
  else jsonUnmarshalAssetMruList mruBytes

/-- The entry for `assetID` (source lines 825-830): unmarshalled from the text
`{"assetID":"<assetID>"}`, the error of that unmarshal being dropped as in the
source, and stamped with the clock reading `now`. -/
def newMruEntry (assetID : String) (now : Time) : AssetUpdatedAt :=
  let mruEntryJSON := "\x7b\"assetID\":\"" ++ assetID ++ "\"\x7d"
  { (jsonUnmarshalAssetUpdatedAt mruEntryJSON).1 with updatedAt := now }

/-- The second half of `createOrUpdateAsset` (source lines 808-849): loads the
list, prepends the entry for `assetID`, cuts the list to ten entries with
`[:minInt(len+1, 10)]` and stores it under `MRUKEY`. -/
def updateMruList (stub : Stub) (assetID : String) (now : Time) : Stub × Option String :=
  match loadMruList stub with
  | (_, some _) => (stub, some "Unable to unmarshal JSON data for mruList")
  | (mruList, none) =>
    let mruEntry := newMruEntry assetID now
    match sliceTo (mruEntry :: mruList.list) (minInt ((mruList.list.length : Int) + 1) 10) with
    | none => (stub, some panicText)
    | some newList =>
      match jsonMarshalAssetMruList ⟨newList⟩ with
      | (_, some _) => (stub, some "Unable to marshal mruList")
      | (mruListJSON, none) =>
        match stub.PutState MRUKEY mruListJSON with
        | (_, some e) => (stub, some ("PUT ledger state failed: " ++ e))
        | (stub2, none) => (stub2, none)

/-- The middle of `createOrUpdateAsset` (source lines 794-807, then the list):
marshals the record, puts it under `assetID` and goes on to the list. -/
def storeAsset (stub : Stub) (assetID : String) (stateStub : AssetState) (now2 : Time) :
    Stub × Option String :=
  match jsonMarshalAssetState stateStub with
  | (_, some e) => (stub, some ("Marshal failed for contract state" ++ e))
  | (stateJSON, none) =>
    match stub.PutState assetID stateJSON with
    | (_, some e) => (stub, some ("PUT ledger state failed: " ++ e))
    | (stub1, none) => updateMruList stub1 assetID now2

/-- The operation behind `createAsset` and `updateAsset`. `now1` and `now2` are the
two readings of `time.Now().UTC()`, for the record and for the list entry. The
result is the ledger after the call and the error; the byte result of the source
is always nil. A read error or empty bytes under `assetID` is the create
scenario, where the record is the validated input; otherwise the stored record
is unmarshalled and the input merged into it. Either way `UpdatedAt` is set to
`now1` before the record is stored. -/
def createOrUpdateAsset (stub : Stub) (args : List String) (now1 now2 : Time) :
    Stub × Option String :=
  match validateInput args with
  | (_, some e) => (stub, some e)
  | (stateIn, none) =>
    match stateIn.assetID with
    | none => (stub, some panicText)
    | some assetID =>
      let assetBytes := (stub.GetState assetID).1
      let err := (stub.GetState assetID).2
      let next : AssetState × Option String :=
        if err.isSome ∨ assetBytes.length = 0 then (stateIn, none)
        else
          match jsonUnmarshalAssetState assetBytes with
          | (_, some _) => (AssetState.empty, some "Unable to unmarshal JSON data from stub")
          | (stateStub, none) =>
            match mergePartialState stateStub stateIn with
            | (_, some _) => (AssetState.empty, some "Unable to merge state")
            | (merged, none) => (merged, none)
      match next with
      | (_, some e) => (stub, some e)
      | (stateStub, none) => storeAsset stub assetID { stateStub with updatedAt := some now1 } now2

/-- `createAsset` (source lines 598-601). -/
def createAsset (stub : Stub) (args : List String) (now1 now2 : Time) : Stub × Option String :=
  ((createOrUpdateAsset stub args now1 now2).1, (createOrUpdateAsset stub args now1 now2).2)

/-- `updateAsset` (source lines 605-608). -/
def updateAsset (stub : Stub) (args : List String) (now1 now2 : Time) : Stub × Option String :=
  ((createOrUpdateAsset stub args now1 now2).1, (createOrUpdateAsset stub args now1 now2).2)

/-! ## readAsset (source lines 636-659) -/

/-- The query `readAsset`: the bytes returned and the error. On success the bytes
are the stored ones; on every error they are nil. The ledger is only read. -/
def readAsset (stub : Stub) (args : List String) : String × Option String :=
  match validateInput args with
  | (_, some _) => ("", some "Asset does not exist!")
  | (stateIn, none) =>
    match stateIn.assetID with
    | none => ("", some panicText)
    | some assetID =>
      let assetBytes := (stub.GetState assetID).1
      let err := (stub.GetState assetID).2
      if err.isSome ∨ assetBytes.length = 0 then
        ("", some "Unable to get asset state from ledger")
      else
        match jsonUnmarshalAssetState assetBytes with
        | (_, some _) => ("", some "Unable to unmarshal state data obtained from ledger")
        | (_, none) => (assetBytes, none)

/-! ## deleteAsset (source lines 612-630) -/

/-- The operation `deleteAsset`: validates the argument and deletes the ledger entry
under the identifier. The result is the ledger after the call and the error. -/
def deleteAsset (stub : Stub) (args : List String) : Stub × Option String :=
  match validateInput args with
  | (_, some e) => (stub, some e)
  | (stateIn, none) =>
    match stateIn.assetID with
    | none => (stub, some panicText)
    | some assetID =>
      match stub.DelState assetID with
      | (_, some e) => (stub, some ("DELSTATE failed! : " ++ e))
      | (stub1, none) => (stub1, none)

/-! ## Init (source lines 506-530) -/

/-- The deploy callback `Init`: exactly one argument, which unmarshals into a
`ContractState` whose version is `MYVERSION`; the state is then marshalled and
put under `CONTRACTSTATEKEY`. The argument `function` is not used by the
source. The result is the ledger after the call and the error. -/
def Init (stub : Stub) (_function : String) (args : List String) : Stub × Option String :=
  match args with
  | [arg] =>
    match jsonUnmarshalContractState arg with
    | (_, some e) => (stub, some ("Version argument unmarshal failed: " ++ e))
    | (stateArg, none) =>
      if stateArg.version ≠ MYVERSION then
        (stub, some ("Contract version " ++ MYVERSION ++ " must match version argument: "
          ++ stateArg.version))
      else
        match jsonMarshalContractState stateArg with
        | (_, some e) => (stub, some ("Marshal failed for contract state" ++ e))
        | (contractStateJSON, none) =>
          match stub.PutState CONTRACTSTATEKEY contractStateJSON with
          | (_, some e) => (stub, some ("Contract state failed PUT to ledger: " ++ e))
          | (stub1, none) => (stub1, none)
  | _ => (stub, some "init expects one argument, a JSON string with tagged version string")

/-! ## Invoke (source lines 537-550) -/

/-- The invoke callback: dispatches on the function name to `createAsset`,
`updateAsset` or `deleteAsset`; every other name is an error. `now1` and `now2`
are the clock readings that a create or an update takes. -/
def Invoke (stub : Stub) (function : String) (args : List String) (now1 now2 : Time) :
    Stub × Option String :=
  if function = "createAsset" then createAsset stub args now1 now2
  else if function = "updateAsset" then updateAsset stub args now1 now2
  else if function = "deleteAsset" then deleteAsset stub args
  else (stub, some ("Received unknown invocation: " ++ function))

/-! ## Sequences of operations -/

/-- One call of the contract that can change the ledger. -/
inductive Op where
  | init (function : String) (args : List String)
  | create (args : List String) (now1 now2 : Time)
  | update (args : List String) (now1 now2 : Time)
  | delete (args : List String)

/-- The ledger after one call, whether the call succeeds or fails. -/
def applyOp (stub : Stub) : Op → Stub
  | Op.init function args => (Init stub function args).1
  | Op.create args now1 now2 => (createAsset stub args now1 now2).1
  | Op.update args now1 now2 => (updateAsset stub args now1 now2).1
  | Op.delete args => (deleteAsset stub args).1

/-- The ledger after a sequence of calls. -/
def runOps (stub : Stub) (ops : List Op) : Stub := ops.foldl applyOp stub

/-- The identifier that a createAsset or updateAsset call validates to; `none` for
the other calls and for a rejected argument. -/
def Op.assetID : Op → Option String
  | Op.create args _ _ => (validateInput args).1.assetID
  | Op.update args _ _ => (validateInput args).1.assetID
  | _ => none

/-! ## Sequences of calls and sample values -/

/-- A sequence of `createOrUpdateAsset` calls, each with its argument list and its
two clock readings, that stops at the first call that fails. -/
def runCalls : Stub → List (List String × Time × Time) → Stub × Option String
  | stub, [] => (stub, none)
  | stub, (args, now1, now2) :: rest =>
    match createOrUpdateAsset stub args now1 now2 with
    | (stub1, none) => runCalls stub1 rest
    | (stub1, some e) => (stub1, some e)

/-- The identifier that a call's argument list validates to. -/
def callID (c : List String × Time × Time) : Option String := (validateInput c.1).1.assetID

/-- Identifiers that the text `{"assetID":"<id>"}` carries unchanged: no quote, no
backslash, no control character. -/
def jsonSafe (id : String) : Prop := ∀ c ∈ id.toList, c ≠ '\"' ∧ c ≠ '\\' ∧ 32 ≤ c.toNat

instance (id : String) : Decidable (jsonSafe id) := by
  unfold jsonSafe
  infer_instance

/-- A ledger with no entries on which no call fails. -/
def emptyStub : Stub := ⟨fun _ => none, fun _ => none, fun _ => none, fun _ => none⟩

/-- A clock reading. -/
def timeA : Time := ⟨"2016-05-01T12:00:00Z".toList, by decide, by decide⟩

/-- A later clock reading. -/
def timeB : Time := ⟨"2016-05-01T12:00:01Z".toList, by decide, by decide⟩

/-- The argument `{"assetID":"<id>"}`. -/
def idArg (id : String) : List String := ["\x7b\"assetID\":\"" ++ id ++ "\"\x7d"]

/-- Calls with the arguments `{"assetID":"<id>"}`, one for each identifier. -/
def idCalls (ids : List String) : List (List String × Time × Time) :=
  ids.map (fun id => (idArg id, timeA, timeB))

/-- The argument `{"assetID":"_MruListKey","temperature":20.0}`: a record whose
identifier is the key of the list. -/
def mruKeyArg : List String := ["\x7b\"assetID\":\"_MruListKey\",\"temperature\":20.0\x7d"]

/-- The argument `{"assetID":"A1","temperature":20.0}`. -/
def a1TempArg : List String := ["\x7b\"assetID\":\"A1\",\"temperature\":20.0\x7d"]

/-- The argument `{"assetID":"A1","carrier":"X"}`. -/
def a1CarrierArg : List String := ["\x7b\"assetID\":\"A1\",\"carrier\":\"X\"\x7d"]

/-- The number 20, which is written `20`. -/
def twenty : Float64 := ⟨"20".toList, by decide, by decide⟩

/-- The number 1. -/
def one : Float64 := ⟨['1'], by decide, by decide⟩

/-- The number 2. -/
def two : Float64 := ⟨['2'], by decide, by decide⟩

/-- The number 3. -/
def three : Float64 := ⟨['3'], by decide, by decide⟩

/-- The argument `{"assetID":"A1","updatedAt":"1999-01-01T00:00:00Z"}`: a patch
that carries a timestamp of its own. -/
def a1StampArg : List String :=
  ["\x7b\"assetID\":\"A1\",\"updatedAt\":\"1999-01-01T00:00:00Z\"\x7d"]

/-- The timestamp of `a1StampArg`. -/
def time1999 : Time := ⟨"1999-01-01T00:00:00Z".toList, by decide, by decide⟩

/-- A ledger on which `createOrUpdateAsset` cannot fail for an accepted
identifier other than `MRUKEY`: no put reports an error, the read of `MRUKEY`
reports none, the stored list unmarshals, and every value stored under another
key is unreadable, empty or the text of an asset record. -/
def healthy (stub : Stub) : Prop :=
  (∀ key, stub.putFault key = none) ∧ stub.getFault MRUKEY = none
    ∧ (loadMruList stub).2 = none
    ∧ ∀ k, k ≠ MRUKEY → (stub.GetState k).2.isSome ∨ (stub.GetState k).1.length = 0
        ∨ (jsonUnmarshalAssetState (stub.GetState k).1).2 = none

/-- Fifteen distinct identifiers. -/
def ids15 : List String :=
  ["A1", "A2", "A3", "A4", "A5", "A6", "A7", "A8", "A9", "A10", "A11", "A12", "A13", "A14", "A15"]

/-- The argument `{"assetID":"a\"b"}`, whose identifier is `a"b`. -/
def quoteArg : List String := ["\x7b\"assetID\":\"a\\\"b\"\x7d"]

/-- The argument `{"assetID":"a\\b"}`, whose identifier is `a\b`. -/
def backslashArg : List String := ["\x7b\"assetID\":\"a\\\\b\"\x7d"]

/-- The argument `{"assetID":" A1 ","carrier":"X"}`, whose identifier has white
space around it. -/
def paddedArg : List String := ["\x7b\"assetID\":\" A1 \",\"carrier\":\"X\"\x7d"]

/-- The argument `{"version":"1.0"}` of the deployment. -/
def versionArg : List String := ["\x7b\"version\":\"1.0\"\x7d"]

/-- The argument `{"version":"2.0"}`. -/
def otherVersionArg : List String := ["\x7b\"version\":\"2.0\"\x7d"]

/-- The record after `first` was created and `patches` were merged into it one
after the other with `mergePartialState`. -/
def mergeAll (first : AssetState) (patches : List AssetState) : AssetState :=
  patches.foldl (fun acc patch => (mergePartialState acc patch).1) first

/-- A ledger that holds a record of `A1` with a temperature and whose read of
`A1` reports an error. -/
def unreadableStub : Stub :=
  ⟨fun k => if k = "A1" then some "\x7b\"assetID\":\"A1\",\"temperature\":20\x7d" else none,
    fun k => if k = "A1" then some "ledger unavailable" else none, fun _ => none, fun _ => none⟩

/-- A ledger that holds a list with an entry of `B2` and whose read of the list
reports an error. -/
def unreadableListStub : Stub :=
  ⟨fun k => if k = "_MruListKey" then
      some "\x7b\"mruList\":[\x7b\"assetID\":\"B2\",\"updatedAt\":\"1999-01-01T00:00:00Z\"\x7d]\x7d"
    else none,
    fun k => if k = "_MruListKey" then some "ledger unavailable" else none,
    fun _ => none, fun _ => none⟩

/-- A ledger whose value under `_MruListKey` is not the text of a list. -/
def brokenListStub : Stub :=
  ⟨fun k => if k = "_MruListKey" then some "not a list" else none,
    fun _ => none, fun _ => none, fun _ => none⟩

/-- A ledger whose value under `A1` is not the text of a record. -/
def brokenRecordStub : Stub :=
  ⟨fun k => if k = "A1" then some "not a record" else none,
    fun _ => none, fun _ => none, fun _ => none⟩

/-- A ledger whose value under `A1` is not the text of a record and whose read of
`A1` reports an error. -/
def unreadableBrokenStub : Stub :=
  ⟨fun k => if k = "A1" then some "not a record" else none,
    fun k => if k = "A1" then some "ledger unavailable" else none, fun _ => none, fun _ => none⟩

/-- A ledger whose value under `_MruListKey` unmarshals as a record and not as a
list. -/
def oddListStub : Stub :=
  ⟨fun k => if k = "_MruListKey" then some "\x7b\"mruList\":5\x7d" else none,
    fun _ => none, fun _ => none, fun _ => none⟩

/-- The ledger holds under `key` the text of an asset record whose assetID is
`key` and whose updatedAt is set. -/
def holdsRecordOf (stub : Stub) (key : String) : Prop :=
  ∃ bytes r, stub.world key = some bytes ∧ jsonUnmarshalAssetState bytes = (r, none)
    ∧ r.assetID = some key ∧ r.updatedAt.isSome = true

/-! ## Theorems: the JSON text of a value parses back to the value -/

theorem consChar_some (c : Char) (s r : List Char) : consChar c (some (s, r)) = some (c :: s, r) := rfl

theorem hexVal_hexDigit (d : Nat) (h : d < 16) : hexVal (hexDigit d) = some d := by
  interval_cases d <;> decide

theorem char_eq_of_toNat {c : Char} {n : Nat} (h : c.toNat = n) : c = Char.ofNat n := by
  rw [← h, Char.ofNat_toNat]

theorem parseStrBody_u00 (n : Nat) (h : n < 256) (t : List Char) :
    parseStrBody 0 ('\\' :: 'u' :: '0' :: '0' :: hexDigit (n / 16) :: hexDigit (n % 16) :: t)
      = consChar (Char.ofNat n) (parseStrBody 0 t) := by
  have e1 : hexVal (hexDigit (n / 16)) = some (n / 16) := hexVal_hexDigit _ (by omega)
  have e2 : hexVal (hexDigit (n % 16)) = some (n % 16) := hexVal_hexDigit _ (by omega)
  have e0 : hexVal '0' = some 0 := by decide
  have e4 : n / 16 * 16 + n % 16 = n := by omega
  have e5 : isSurrogate n = false := by simp [isSurrogate]; omega
  simp [parseStrBody, strEscape, hex4, e0, e1, e2, e4, e5]

/-- One escaped character is read back as the character. -/
theorem parseStrBody_escapeChar (c : Char) (t : List Char) :
    parseStrBody 0 (escapeChar c ++ t) = consChar c (parseStrBody 0 t) := by
  unfold escapeChar
  split_ifs with h1 h2 h3 h4 h5 h6 h7 h8
  · subst h1; simp [parseStrBody, strEscape, simpleEscape]
  · subst h2; simp [parseStrBody, strEscape, simpleEscape]
  · subst h3; simp [parseStrBody, strEscape, simpleEscape]
  · subst h4; simp [parseStrBody, strEscape, simpleEscape]
  · subst h5; simp [parseStrBody, strEscape, simpleEscape]
  · have hlt : c.toNat < 256 := by
      rcases h6 with h | h | h | h
      · omega
      · subst h; decide
      · subst h; decide
      · subst h; decide
    have := parseStrBody_u00 c.toNat hlt t
    rw [Char.ofNat_toNat] at this
    simpa using this
  · have hc := char_eq_of_toNat h7
    subst hc
    simp [parseStrBody, strEscape, simpleEscape, hex4, hexVal, isSurrogate]
  · have hc := char_eq_of_toNat h8
    subst hc
    simp [parseStrBody, strEscape, simpleEscape, hex4, hexVal, isSurrogate]
  · have h9 : ¬ c.toNat < 32 := fun h => h6 (Or.inl h)
    simp [parseStrBody, h1, h2, h9]

/-- An escaped string and its closing quote are read back as the string. -/
theorem parseStrBody_escape (s rest : List Char) :
    parseStrBody 0 (escape s ++ '\"' :: rest) = some (s, rest) := by
  induction s with
  | nil => simp [escape, parseStrBody]
  | cons c s ih =>
    rw [escape, List.append_assoc, parseStrBody_escapeChar, ih, consChar_some]

/-- An escaped character starts with a backslash exactly when the character
needs an escape. -/
theorem escapeChar_cases (c : Char) :
    (needsEscape c = true ∧ ∃ t, escapeChar c = '\\' :: t)
      ∨ (needsEscape c = false ∧ escapeChar c = [c] ∧ c ≠ '\"' ∧ c ≠ '\\') := by
  unfold escapeChar
  split_ifs with h1 h2 h3 h4 h5 h6 h7 h8
  · left; subst h1; exact ⟨by decide, _, rfl⟩
  · left; subst h2; exact ⟨by decide, _, rfl⟩
  · left; subst h3; exact ⟨by decide, _, rfl⟩
  · left; subst h4; exact ⟨by decide, _, rfl⟩
  · left; subst h5; exact ⟨by decide, _, rfl⟩
  · left
    refine ⟨?_, _, rfl⟩
    simp only [needsEscape, Bool.decide_or, Bool.or_eq_true, decide_eq_true_eq]
    tauto
  · left
    refine ⟨?_, _, rfl⟩
    simp only [needsEscape, Bool.decide_or, Bool.or_eq_true, decide_eq_true_eq]
    tauto
  · left
    refine ⟨?_, _, rfl⟩
    simp only [needsEscape, Bool.decide_or, Bool.or_eq_true, decide_eq_true_eq]
    tauto
  · right
    refine ⟨?_, rfl, h1, h2⟩
    cases hn : needsEscape c with
    | false => rfl
    | true =>
      simp only [needsEscape, Bool.decide_or, Bool.or_eq_true, decide_eq_true_eq] at hn
      tauto

/-- The text written for a string has an escape exactly when one of its
characters needs one. -/
theorem bodyEscaped_escape (s rest : List Char) :
    bodyEscaped (escape s ++ '\"' :: rest) = s.any needsEscape := by
  induction s with
  | nil => simp [escape, bodyEscaped]
  | cons c s ih =>
    rcases escapeChar_cases c with ⟨hn, t, ht⟩ | ⟨hn, ht, h1, h2⟩
    · rw [escape, ht, List.any_cons, hn]
      simp [bodyEscaped]
    · rw [escape, ht, List.any_cons, hn, List.singleton_append, List.cons_append, bodyEscaped,
        if_neg h1, if_neg h2, ih, Bool.false_or]

theorem spanNum_append (l rest : List Char) (hl : l.all isNumChar = true) (hr : numSafe rest) :
    spanNum (l ++ rest) = (l, rest) := by
  induction l with
  | nil =>
    cases rest with
    | nil => rfl
    | cons c r =>
      have : isNumChar c = false := hr c (by simp)
      simp [spanNum, this]
  | cons c l ih =>
    simp only [List.all_cons, Bool.and_eq_true] at hl
    simp [spanNum, hl.1, ih hl.2]

theorem parseNum_lit (n : Number) (rest : List Char) (hr : numSafe rest) :
    parseNum (n.lit ++ rest) = some (JVal.num n, rest) := by
  have hw := n.wf
  have hall : n.lit.all isNumChar = true := by
    unfold isNumberLit at hw
    simp only [Bool.and_eq_true] at hw
    exact hw.1
  have hs := spanNum_append n.lit rest hall hr
  unfold parseNum
  simp only [hs]
  rw [dif_pos hw]

/-- The first character of a number and what follows it. -/
theorem Number.lit_cons (n : Number) : ∃ c r, n.lit = c :: r ∧ isNumChar c = true := by
  have hw := n.wf
  cases h : n.lit with
  | nil => rw [h] at hw; exact absurd hw (by decide)
  | cons c r =>
    rw [h] at hw
    unfold isNumberLit at hw
    simp only [List.all_cons, Bool.and_eq_true] at hw
    exact ⟨c, r, rfl, hw.1.1⟩

theorem numChar_facts {c : Char} (h : isNumChar c = true) :
    isWs c = false ∧ c ≠ '{' ∧ c ≠ '[' ∧ c ≠ '\"' ∧ ¬ (c = 't' ∨ c = 'f' ∨ c = 'n')
      ∧ c ≠ ']' := by
  refine ⟨?_, ?_, ?_, ?_, ?_, ?_⟩
  · cases hw : isWs c with
    | false => rfl
    | true =>
      simp only [isWs, Bool.decide_or, Bool.or_eq_true, decide_eq_true_eq] at hw
      rcases hw with hw | hw | hw | hw <;> (subst hw; exact absurd h (by decide))
  · rintro rfl; exact absurd h (by decide)
  · rintro rfl; exact absurd h (by decide)
  · rintro rfl; exact absurd h (by decide)
  · rintro (rfl | rfl | rfl) <;> exact absurd h (by decide)
  · rintro rfl; exact absurd h (by decide)

theorem skipWs_cons {c : Char} (r : List Char) (h : isWs c = false) : skipWs (c :: r) = c :: r := by
  simp [skipWs, h]

/-- The text of a value starts with a character that is not white space. -/
theorem renderVal_head (v : JVal) :
    ∃ c r, renderVal v = c :: r ∧ isWs c = false ∧ c ≠ ']' := by
  cases v with
  | null => exact ⟨_, _, by rw [renderVal], by decide, by decide⟩
  | bool b => cases b <;> exact ⟨_, _, by rw [renderVal], by decide, by decide⟩
  | num n =>
    obtain ⟨c, r, h, hc⟩ := n.lit_cons
    exact ⟨c, r, by rw [renderVal, h], (numChar_facts hc).1, (numChar_facts hc).2.2.2.2.2⟩
  | str s => exact ⟨_, _, by rw [renderVal], by decide, by decide⟩
  | estr s => exact ⟨_, _, by rw [renderVal], by decide, by decide⟩
  | arr xs => exact ⟨_, _, by rw [renderVal], by decide, by decide⟩
  | obj ms => exact ⟨_, _, by rw [renderVal], by decide, by decide⟩

/-- The text of a non-empty array body starts with the text of its first element. -/
theorem renderItems_head (v : JVal) (tl : JList) :
    ∃ c r, renderItems (JList.cons v tl) = c :: r ∧ isWs c = false ∧ c ≠ ']' := by
  obtain ⟨c, r, h, hw, hb⟩ := renderVal_head v
  cases tl with
  | nil => exact ⟨c, r ++ [']'], by rw [renderItems, h, List.cons_append], hw, hb⟩
  | cons w tl2 => exact ⟨c, _, by rw [renderItems, h, List.cons_append], hw, hb⟩

theorem skipWs_renderVal (v : JVal) (rest : List Char) :
    skipWs (renderVal v ++ rest) = renderVal v ++ rest := by
  obtain ⟨c, r, h, hc, _⟩ := renderVal_head v
  rw [h, List.cons_append, skipWs_cons _ hc]

theorem numSafe_comma (r : List Char) : numSafe (',' :: r) := by
  intro c hc; simp at hc; subst hc; decide

theorem numSafe_brace (r : List Char) : numSafe ('}' :: r) := by
  intro c hc; simp at hc; subst hc; decide

theorem numSafe_bracket (r : List Char) : numSafe (']' :: r) := by
  intro c hc; simp at hc; subst hc; decide

theorem numSafe_nil : numSafe [] := by
  intro c hc; simp at hc


theorem parseValue_num (f : Nat) (c : Char) (r : List Char) (h1 : c ≠ '{') (h2 : c ≠ '[')
    (h3 : c ≠ '\"') (h4 : ¬ (c = 't' ∨ c = 'f' ∨ c = 'n')) :
    parseValue (f + 1) (c :: r) = parseNum (c :: r) := by
  simp [parseValue, h1, h2, h3, h4]

theorem JVal.size_pos (v : JVal) : 1 ≤ v.size := by
  cases v <;> simp [JVal.size]

/-- The three parsers read back the text of a value, of the elements of a
non-empty array and of the members of a non-empty object, when the call bound
is at least the size of what was written and the strings are tagged as the
parser tags them. -/
theorem parse_render_all (f : Nat) :
    (∀ (v : JVal) (rest : List Char), v.size ≤ f → v.tagged → numSafe rest →
      parseValue f (renderVal v ++ rest) = some (v, rest))
    ∧ (∀ (v : JVal) (tl : JList) (rest : List Char), (JList.cons v tl).size ≤ f →
      (JList.cons v tl).tagged →
      parseItems f (renderItems (JList.cons v tl) ++ rest) = some (JList.cons v tl, rest))
    ∧ (∀ (k : List Char) (v : JVal) (tl : JMembers) (rest : List Char),
      (JMembers.cons k v tl).size ≤ f → (JMembers.cons k v tl).tagged →
      parseMembers f (renderMembers (JMembers.cons k v tl) ++ rest)
        = some (JMembers.cons k v tl, rest)) := by
  induction f with
  | zero =>
    refine ⟨?_, ?_, ?_⟩
    · intro v rest hf; have := v.size_pos; omega
    · intro v tl rest hf; simp [JList.size] at hf
    · intro k v tl rest hf; simp [JMembers.size] at hf
  | succ f ih =>
    obtain ⟨ihV, ihI, ihM⟩ := ih
    refine ⟨?_, ?_, ?_⟩
    · intro v rest hf ht hs
      cases v with
      | null => simp [renderVal, parseValue, parseLit]
      | bool b => cases b <;> simp [renderVal, parseValue, parseLit]
      | num n =>
        obtain ⟨c, r, h, hc⟩ := n.lit_cons
        obtain ⟨_, h1, h2, h3, h4, _⟩ := numChar_facts hc
        have hp := parseNum_lit n rest hs
        have hv : renderVal (JVal.num n) = n.lit := by rw [renderVal]
        rw [hv]
        rw [h, List.cons_append] at hp ⊢
        rw [parseValue_num f c _ h1 h2 h3 h4]
        exact hp
      | str s =>
        have := parseStrBody_escape s rest
        have hb := bodyEscaped_escape s rest
        rw [JVal.tagged] at ht
        simp [renderVal, parseValue, this, hb, ht]
      | estr s =>
        have := parseStrBody_escape s rest
        have hb := bodyEscaped_escape s rest
        rw [JVal.tagged] at ht
        simp [renderVal, parseValue, this, hb, ht]
      | arr xs =>
        cases xs with
        | nil => simp [renderVal, renderItems, parseValue, skipWs, isWs]
        | cons v tl =>
          rw [JVal.tagged] at ht
          have h1 := ihI v tl rest (by simp [JVal.size] at hf; omega) ht
          obtain ⟨c, r, hh, hw, hb⟩ := renderItems_head v tl
          have hv : renderVal (JVal.arr (JList.cons v tl)) = '[' :: c :: r := by rw [renderVal, hh]
          rw [hh, List.cons_append] at h1
          rw [hv]
          simp [parseValue, skipWs, hw, hb, h1]
      | obj ms =>
        cases ms with
        | nil => simp [renderVal, renderMembers, parseValue, skipWs, isWs]
        | cons k v tl =>
          rw [JVal.tagged] at ht
          have h1 := ihM k v tl rest (by simp [JVal.size] at hf; omega) ht
          have hh : ∃ r, renderMembers (JMembers.cons k v tl) = '\"' :: r := by
            cases tl with
            | nil => exact ⟨_, by rw [renderMembers]⟩
            | cons k2 v2 tl2 => exact ⟨_, by rw [renderMembers]⟩
          obtain ⟨r, hh⟩ := hh
          have hv : renderVal (JVal.obj (JMembers.cons k v tl)) = '{' :: '\"' :: r := by
            rw [renderVal, hh]
          rw [hh, List.cons_append] at h1
          rw [hv]
          simp [parseValue, skipWs, isWs, h1]
    · intro v tl rest hf ht
      rw [JList.tagged] at ht
      cases tl with
      | nil =>
        have h1 := ihV v (']' :: rest) (by simp [JList.size] at hf; omega) ht.1
          (numSafe_bracket rest)
        have hv : renderItems (JList.cons v JList.nil) ++ rest = renderVal v ++ ']' :: rest := by
          rw [renderItems, List.append_assoc]; rfl
        rw [hv]
        simp [parseItems, h1, skipWs, isWs]
      | cons w tl2 =>
        have h1 := ihV v (',' :: (renderItems (JList.cons w tl2) ++ rest))
          (by simp [JList.size] at hf; omega) ht.1 (numSafe_comma _)
        have h2 := ihI w tl2 rest (by simp [JList.size] at hf ⊢; omega) ht.2
        obtain ⟨c, r, hh, hw, _⟩ := renderItems_head w tl2
        have hv : renderItems (JList.cons v (JList.cons w tl2)) ++ rest
            = renderVal v ++ ',' :: (renderItems (JList.cons w tl2) ++ rest) := by
          rw [renderItems, List.append_assoc]; rfl
        rw [hv]
        rw [hh, List.cons_append] at h1 h2 ⊢
        have hc : isWs ',' = false := by decide
        simp [parseItems, h1, h2, skipWs_cons _ hw, skipWs_cons _ hc]
    · intro k v tl rest hf ht
      rw [JMembers.tagged] at ht
      cases tl with
      | nil =>
        have h1 := ihV v ('}' :: rest) (by simp [JMembers.size] at hf; omega) ht.1
          (numSafe_brace rest)
        have hk := parseStrBody_escape k (':' :: (renderVal v ++ '}' :: rest))
        have hv : renderMembers (JMembers.cons k v JMembers.nil) ++ rest
            = '\"' :: (escape k ++ '\"' :: ':' :: (renderVal v ++ '}' :: rest)) := by
          rw [renderMembers]; simp
        rw [hv]
        simp [parseMembers, hk, skipWs, isWs, skipWs_renderVal, h1]
      | cons k2 v2 tl2 =>
        have h1 := ihV v (',' :: (renderMembers (JMembers.cons k2 v2 tl2) ++ rest))
          (by simp [JMembers.size] at hf; omega) ht.1 (numSafe_comma _)
        have h2 := ihM k2 v2 tl2 rest (by simp [JMembers.size] at hf ⊢; omega) ht.2
        have hk := parseStrBody_escape k
          (':' :: (renderVal v ++ ',' :: (renderMembers (JMembers.cons k2 v2 tl2) ++ rest)))
        have hh : ∃ r, renderMembers (JMembers.cons k2 v2 tl2) = '\"' :: r := by
          cases tl2 with
          | nil => exact ⟨_, by rw [renderMembers]⟩
          | cons k3 v3 tl3 => exact ⟨_, by rw [renderMembers]⟩
        obtain ⟨r, hh⟩ := hh
        have hv : renderMembers (JMembers.cons k (v) (JMembers.cons k2 v2 tl2)) ++ rest
            = '\"' :: (escape k ++ '\"' :: ':' ::
                (renderVal v ++ ',' :: (renderMembers (JMembers.cons k2 v2 tl2) ++ rest))) := by
          rw [renderMembers]; simp
        rw [hv]
        rw [hh, List.cons_append] at h1 h2 hk ⊢
        simp [parseMembers, hk, skipWs, isWs, skipWs_renderVal, h1, h2]

/-- The size of a value is at most the length of its text. -/
theorem size_le_length (n : Nat) :
    (∀ v : JVal, v.size ≤ n → v.size ≤ (renderVal v).length)
    ∧ (∀ xs : JList, xs.size ≤ n → xs.size ≤ (renderItems xs).length)
    ∧ (∀ ms : JMembers, ms.size ≤ n → ms.size ≤ (renderMembers ms).length) := by
  induction n with
  | zero =>
    refine ⟨?_, ?_, ?_⟩
    · intro v h; have := v.size_pos; omega
    · intro xs h; omega
    · intro ms h; omega
  | succ n ih =>
    obtain ⟨ihV, ihI, ihM⟩ := ih
    refine ⟨?_, ?_, ?_⟩
    · intro v h
      cases v with
      | null => simp [JVal.size, renderVal]
      | bool b => cases b <;> simp [JVal.size, renderVal]
      | num x =>
        obtain ⟨c, r, hl, _⟩ := x.lit_cons
        simp [JVal.size, renderVal, hl]
      | str s => simp [JVal.size, renderVal]
      | estr s => simp [JVal.size, renderVal]
      | arr xs =>
        have := ihI xs (by simp [JVal.size] at h; omega)
        simp [JVal.size, renderVal]; omega
      | obj ms =>
        have := ihM ms (by simp [JVal.size] at h; omega)
        simp [JVal.size, renderVal]; omega
    · intro xs h
      cases xs with
      | nil => simp [JList.size]
      | cons v tl =>
        have h1 := ihV v (by simp [JList.size] at h; omega)
        cases tl with
        | nil => simp [JList.size, renderItems]; omega
        | cons w tl2 =>
          have h2 := ihI (JList.cons w tl2) (by simp [JList.size] at h ⊢; omega)
          rw [renderItems]
          simp [JList.size] at h2 ⊢; omega
    · intro ms h
      cases ms with
      | nil => simp [JMembers.size]
      | cons k v tl =>
        have h1 := ihV v (by simp [JMembers.size] at h; omega)
        cases tl with
        | nil => simp [JMembers.size, renderMembers]; omega
        | cons k2 v2 tl2 =>
          have h2 := ihM (JMembers.cons k2 v2 tl2) (by simp [JMembers.size] at h ⊢; omega)
          rw [renderMembers]
          simp [JMembers.size] at h2 ⊢; omega

/-- Parsing the compact text of a value whose strings are tagged as the parser
tags them gives the value. -/
theorem parseJSON_renderVal (v : JVal) (ht : v.tagged) : parseJSON (renderVal v) = some v := by
  have hsz := (size_le_length v.size).1 v (le_refl _)
  have hp := (parse_render_all ((renderVal v).length + 1)).1 v [] (by omega) ht numSafe_nil
  have hs := skipWs_renderVal v []
  rw [List.append_nil] at hp hs
  simp [parseJSON, hs, hp, skipWs]

/-! ## Theorems: decoding what was encoded -/

theorem keyIs_self (name : String) : keyIs name name.toList = true := by
  simp only [keyIs, decide_True]

theorem keyIs_assetID_location : keyIs "assetID" "location".toList = false := by decide

theorem keyIs_assetID_temperature : keyIs "assetID" "temperature".toList = false := by decide

theorem keyIs_assetID_carrier : keyIs "assetID" "carrier".toList = false := by decide

theorem keyIs_assetID_updatedAt : keyIs "assetID" "updatedAt".toList = false := by decide

theorem keyIs_location_assetID : keyIs "location" "assetID".toList = false := by decide

theorem keyIs_location_temperature : keyIs "location" "temperature".toList = false := by decide

theorem keyIs_location_carrier : keyIs "location" "carrier".toList = false := by decide

theorem keyIs_location_updatedAt : keyIs "location" "updatedAt".toList = false := by decide

theorem keyIs_temperature_assetID : keyIs "temperature" "assetID".toList = false := by decide

theorem keyIs_temperature_location : keyIs "temperature" "location".toList = false := by decide

theorem keyIs_temperature_carrier : keyIs "temperature" "carrier".toList = false := by decide

theorem keyIs_temperature_updatedAt : keyIs "temperature" "updatedAt".toList = false := by decide

theorem keyIs_carrier_assetID : keyIs "carrier" "assetID".toList = false := by decide

theorem keyIs_carrier_location : keyIs "carrier" "location".toList = false := by decide

theorem keyIs_carrier_temperature : keyIs "carrier" "temperature".toList = false := by decide

theorem keyIs_carrier_updatedAt : keyIs "carrier" "updatedAt".toList = false := by decide

theorem keyIs_updatedAt_assetID : keyIs "updatedAt" "assetID".toList = false := by decide

theorem keyIs_updatedAt_location : keyIs "updatedAt" "location".toList = false := by decide

theorem keyIs_updatedAt_temperature : keyIs "updatedAt" "temperature".toList = false := by decide

theorem keyIs_updatedAt_carrier : keyIs "updatedAt" "carrier".toList = false := by decide

theorem keyIs_latitude_longitude : keyIs "latitude" "longitude".toList = false := by decide

theorem keyIs_longitude_latitude : keyIs "longitude" "latitude".toList = false := by decide

theorem keyIs_mruList_assetID : keyIs "mruList" "assetID".toList = false := by decide

theorem keyIs_mruList_location : keyIs "mruList" "location".toList = false := by decide

theorem keyIs_mruList_temperature : keyIs "mruList" "temperature".toList = false := by decide

theorem keyIs_mruList_carrier : keyIs "mruList" "carrier".toList = false := by decide

theorem keyIs_mruList_updatedAt : keyIs "mruList" "updatedAt".toList = false := by decide

theorem keyIs_assetID_mruList : keyIs "assetID" "mruList".toList = false := by decide

theorem keyIs_location_mruList : keyIs "location" "mruList".toList = false := by decide

theorem keyIs_temperature_mruList : keyIs "temperature" "mruList".toList = false := by decide

theorem keyIs_carrier_mruList : keyIs "carrier" "mruList".toList = false := by decide

theorem keyIs_updatedAt_mruList : keyIs "updatedAt" "mruList".toList = false := by decide

theorem keyIs_version_assetID : keyIs "version" "assetID".toList = false := by decide

theorem keyIs_version_location : keyIs "version" "location".toList = false := by decide

theorem keyIs_version_temperature : keyIs "version" "temperature".toList = false := by decide

theorem keyIs_version_carrier : keyIs "version" "carrier".toList = false := by decide

theorem keyIs_version_updatedAt : keyIs "version" "updatedAt".toList = false := by decide

theorem keyIs_assetID_version : keyIs "assetID" "version".toList = false := by decide

theorem keyIs_location_version : keyIs "location" "version".toList = false := by decide

theorem keyIs_temperature_version : keyIs "temperature" "version".toList = false := by decide

theorem keyIs_carrier_version : keyIs "carrier" "version".toList = false := by decide

theorem keyIs_updatedAt_version : keyIs "updatedAt" "version".toList = false := by decide

theorem keyIs_mruList_version : keyIs "mruList" "version".toList = false := by decide

theorem keyIs_version_mruList : keyIs "version" "mruList".toList = false := by decide

theorem firstErr_none_right (e : Option String) : firstErr e none = e := by
  cases e <;> rfl

/-- The text of a `time.Time` is parsed to it. -/
theorem parseTime_text (t : Time) : parseTime t.text = some t := by
  unfold parseTime
  rw [t.canon]
  simp only
  rw [dif_pos ⟨t.plain, t.canon⟩]

/-- The text of a `float64` is converted to it. -/
theorem parseFloat_toNumber (x : Float64) : parseFloat x.toNumber = some x := by
  unfold parseFloat Float64.toNumber
  simp only
  rw [x.canon]
  simp only
  rw [dif_pos ⟨x.wf, x.canon⟩]

theorem decPtrFloat_toNumber (cur : Option Float64) (x : Float64) :
    decPtrFloat cur (JVal.num x.toNumber) = (some x, none) := by
  simp only [decPtrFloat, parseFloat_toNumber]

theorem decPtrString_jstr (cur : Option String) (s : List Char) :
    decPtrString cur (jstr s) = (some (String.mk s), none) := by
  unfold jstr
  split_ifs <;> rfl

theorem jstr_tagged (s : List Char) : (jstr s).tagged := by
  unfold jstr
  cases h : s.any needsEscape with
  | true => simp only [if_true, JVal.tagged, h]
  | false => simp only [Bool.false_eq_true, if_false, JVal.tagged, h]

theorem renderVal_jstr (s : List Char) : renderVal (jstr s) = '\"' :: (escape s ++ ['\"']) := by
  unfold jstr
  split_ifs <;> rw [renderVal]

theorem digit_range {c : Char} (h : c.isDigit = true) : 48 ≤ c.toNat ∧ c.toNat ≤ 57 := by
  simp only [Char.isDigit, Bool.and_eq_true, decide_eq_true_eq] at h
  exact ⟨h.1, h.2⟩

/-- The characters of the text of a timestamp are written without an escape. -/
theorem needsEscape_of_timeChar {c : Char} (h : isTimeChar c = true) : needsEscape c = false := by
  cases hn : needsEscape c with
  | false => rfl
  | true =>
    exfalso
    simp only [needsEscape, Bool.decide_or, Bool.or_eq_true, decide_eq_true_eq] at hn
    simp only [isTimeChar, Bool.decide_or, Bool.or_eq_true, decide_eq_true_eq] at h
    rcases h with h | h | h | h | h | h | h
    · have hd := digit_range h
      rcases hn with hn | hn | hn | hn | hn | hn | hn | hn
      · subst hn; exact absurd hd (by decide)
      · subst hn; exact absurd hd (by decide)
      · omega
      · subst hn; exact absurd hd (by decide)
      · subst hn; exact absurd hd (by decide)
      · subst hn; exact absurd hd (by decide)
      · omega
      · omega
    all_goals (subst h; exact absurd hn (by decide))

theorem any_needsEscape_of_timeChars (l : List Char) (h : l.all isTimeChar = true) :
    l.any needsEscape = false := by
  induction l with
  | nil => rfl
  | cons c l ih =>
    simp only [List.all_cons, Bool.and_eq_true] at h
    rw [List.any_cons, needsEscape_of_timeChar h.1, ih h.2, Bool.false_or]

theorem tagged_str (s : List Char) : (JVal.str s).tagged = (s.any needsEscape = false) := by
  rw [JVal.tagged]

theorem tagged_obj (ms : JMembers) : (JVal.obj ms).tagged = ms.tagged := by rw [JVal.tagged]

theorem tagged_arr (xs : JList) : (JVal.arr xs).tagged = xs.tagged := by rw [JVal.tagged]

theorem tagged_num (n : Number) : (JVal.num n).tagged = True := by simp [JVal.tagged]

theorem tagged_members_nil : JMembers.nil.tagged = True := by rw [JMembers.tagged]

theorem tagged_members_cons (k : List Char) (v : JVal) (tl : JMembers) :
    (JMembers.cons k v tl).tagged = (v.tagged ∧ tl.tagged) := by rw [JMembers.tagged]

theorem tagged_list_nil : JList.nil.tagged = True := by rw [JList.tagged]

theorem tagged_list_cons (v : JVal) (tl : JList) :
    (JList.cons v tl).tagged = (v.tagged ∧ tl.tagged) := by rw [JList.tagged]

theorem encTime_tagged (t : Time) : (encTime t).tagged := by
  rw [encTime, tagged_str]
  exact any_needsEscape_of_timeChars t.text t.plain

theorem decTime_str (cur : Time) (s : List Char) :
    decTime cur (JVal.str s)
      = match parseTime s with
        | some t => (t, none)
        | none => (Time.zero, some typeError) := rfl

theorem decTime_encTime (cur t : Time) : decTime cur (encTime t) = (t, none) := by
  rw [encTime, decTime_str, parseTime_text t]

theorem decPtrTime_encTime (cur : Option Time) (t : Time) :
    decPtrTime cur (encTime t) = (some t, none) := by
  have h := decTime_encTime (cur.getD Time.zero) t
  unfold encTime at h ⊢
  simp only [decPtrTime, h]

theorem String.mk_toList (s : String) : String.mk s.toList = s := rfl

theorem optMember_some (name : String) (x : JVal) (tl : JMembers) :
    optMember name (some x) tl = JMembers.cons name.toList x tl := rfl

theorem optMember_none (name : String) (tl : JMembers) : optMember name none tl = tl := rfl

theorem decGeoMember_latitude (g : Geolocation × Option String) (x : Float64) :
    decGeoMember g "latitude".toList (JVal.num x.toNumber)
      = ({ g.1 with latitude := some x }, g.2) := by
  simp only [decGeoMember, keyIs_self, if_true, decPtrFloat_toNumber, firstErr_none_right]

theorem decGeoMember_longitude (g : Geolocation × Option String) (x : Float64) :
    decGeoMember g "longitude".toList (JVal.num x.toNumber)
      = ({ g.1 with longitude := some x }, g.2) := by
  simp only [decGeoMember, keyIs_self, keyIs_latitude_longitude, if_true, Bool.false_eq_true,
    if_false, decPtrFloat_toNumber, firstErr_none_right]

theorem encGeo_tagged (g : Geolocation) : (encGeo g).tagged := by
  obtain ⟨la, lo⟩ := g
  cases la <;> cases lo <;>
    simp only [encGeo, Option.map_some', Option.map_none', optMember_some, optMember_none,
      tagged_obj, tagged_num, tagged_members_cons, tagged_members_nil, and_self]

theorem decPtrGeo_encGeo (g : Geolocation) : decPtrGeo none (encGeo g) = (some g, none) := by
  obtain ⟨la, lo⟩ := g
  cases la <;> cases lo <;>
    simp only [decPtrGeo, encGeo, Option.map_some', Option.map_none', optMember_some,
      optMember_none, decGeoMembers, decGeoMember_latitude, decGeoMember_longitude,
      Option.getD_none]

theorem decAssetMember_assetID (s : AssetState × Option String) (x : String) :
    decAssetMember s "assetID".toList (jstr x.toList) = ({ s.1 with assetID := some x }, s.2) := by
  simp only [decAssetMember, keyIs_self, if_true, decPtrString_jstr, firstErr_none_right,
    String.mk_toList]

theorem decAssetMember_assetID_str (s : AssetState × Option String) (x : String) :
    decAssetMember s "assetID".toList (JVal.str x.toList)
      = ({ s.1 with assetID := some x }, s.2) := by
  simp only [decAssetMember, keyIs_self, if_true, decPtrString, firstErr_none_right,
    String.mk_toList]

theorem decAssetMember_location (s : AssetState × Option String) (g : Geolocation)
    (h : s.1.location = none) :
    decAssetMember s "location".toList (encGeo g) = ({ s.1 with location := some g }, s.2) := by
  simp only [decAssetMember, keyIs_self, keyIs_assetID_location, if_true, Bool.false_eq_true,
    if_false, h, decPtrGeo_encGeo, firstErr_none_right]

theorem decAssetMember_temperature (s : AssetState × Option String) (x : Float64) :
    decAssetMember s "temperature".toList (JVal.num x.toNumber)
      = ({ s.1 with temperature := some x }, s.2) := by
  simp only [decAssetMember, keyIs_self, keyIs_assetID_temperature, keyIs_location_temperature,
    if_true, Bool.false_eq_true, if_false, decPtrFloat_toNumber, firstErr_none_right]

theorem decAssetMember_carrier (s : AssetState × Option String) (x : String) :
    decAssetMember s "carrier".toList (jstr x.toList) = ({ s.1 with carrier := some x }, s.2) := by
  simp only [decAssetMember, keyIs_self, keyIs_assetID_carrier, keyIs_location_carrier,
    keyIs_temperature_carrier, if_true, Bool.false_eq_true, if_false, decPtrString_jstr,
    firstErr_none_right, String.mk_toList]

theorem decAssetMember_updatedAt (s : AssetState × Option String) (t : Time) :
    decAssetMember s "updatedAt".toList (encTime t) = ({ s.1 with updatedAt := some t }, s.2) := by
  simp only [decAssetMember, keyIs_self, keyIs_assetID_updatedAt, keyIs_location_updatedAt,
    keyIs_temperature_updatedAt, keyIs_carrier_updatedAt, if_true, Bool.false_eq_true, if_false,
    decPtrTime_encTime, firstErr_none_right]

/-- Decoding the value tree of an asset record gives the record back. -/
theorem decAsset_encAsset (s : AssetState) : decAsset (encAsset s) = (s, none) := by
  obtain ⟨a, l, t, c, u⟩ := s
  cases a <;> cases l <;> cases t <;> cases c <;> cases u <;>
    simp only [decAsset, encAsset, Option.map_some', Option.map_none', optMember_some,
      optMember_none, decAssetMembers, decAssetMember_assetID, decAssetMember_temperature,
      decAssetMember_carrier, decAssetMember_updatedAt, AssetState.empty,
      decAssetMember_location]

/-- The strings of the value tree of an asset record are tagged as the parser tags
them. -/
theorem encAsset_tagged (s : AssetState) : (encAsset s).tagged := by
  obtain ⟨a, l, t, c, u⟩ := s
  cases a <;> cases l <;> cases t <;> cases c <;> cases u <;>
    simp only [encAsset, Option.map_some', Option.map_none', optMember_some, optMember_none,
      tagged_obj, tagged_num, tagged_members_cons, tagged_members_nil, and_self, jstr_tagged, encGeo_tagged, encTime_tagged,
      true_and]

theorem decEntryMember_assetID (e : AssetUpdatedAt × Option String) (x : String) :
    decEntryMember e "assetID".toList (jstr x.toList) = ({ e.1 with assetID := some x }, e.2) := by
  simp only [decEntryMember, keyIs_self, if_true, decPtrString_jstr, firstErr_none_right,
    String.mk_toList]

theorem decEntryMember_assetID_str (e : AssetUpdatedAt × Option String) (x : String) :
    decEntryMember e "assetID".toList (JVal.str x.toList)
      = ({ e.1 with assetID := some x }, e.2) := by
  simp only [decEntryMember, keyIs_self, if_true, decPtrString, firstErr_none_right,
    String.mk_toList]

theorem decEntryMember_updatedAt (e : AssetUpdatedAt × Option String) (t : Time) :
    decEntryMember e "updatedAt".toList (encTime t) = ({ e.1 with updatedAt := t }, e.2) := by
  simp only [decEntryMember, keyIs_self, keyIs_assetID_updatedAt, if_true, Bool.false_eq_true,
    if_false, decTime_encTime, firstErr_none_right]

/-- Decoding the value tree of a list entry into a zero entry gives the entry
back. -/
theorem decEntry_encEntry (e : AssetUpdatedAt) :
    decEntry AssetUpdatedAt.empty (encEntry e) = (e, none) := by
  obtain ⟨a, u⟩ := e
  cases a <;>
    simp only [decEntry, encEntry, Option.map_some', Option.map_none', optMember_some,
      optMember_none, decEntryMembers, decEntryMember_assetID, decEntryMember_updatedAt,
      AssetUpdatedAt.empty]

theorem decEntries_encEntries (l : List AssetUpdatedAt) :
    decEntries [] (encEntries l) = (l, none) := by
  induction l with
  | nil => rfl
  | cons e tl ih =>
    simp only [decEntries, encEntries, List.headD_nil, List.tail_nil, decEntry_encEntry, ih,
      firstErr]

theorem encEntry_tagged (e : AssetUpdatedAt) : (encEntry e).tagged := by
  obtain ⟨a, u⟩ := e
  cases a <;>
    simp only [encEntry, Option.map_some', Option.map_none', optMember_some, optMember_none,
      tagged_obj, tagged_num, tagged_members_cons, tagged_members_nil, and_self, jstr_tagged, encTime_tagged, true_and]

theorem encEntries_tagged (l : List AssetUpdatedAt) : (encEntries l).tagged := by
  induction l with
  | nil => simp only [encEntries, tagged_list_nil]
  | cons e tl ih => simp only [encEntries, tagged_list_cons, encEntry_tagged, ih, and_self]

/-- The strings of the value tree of a list are tagged as the parser tags them. -/
theorem encMru_tagged (m : AssetMruList) : (encMru m).tagged := by
  obtain ⟨l⟩ := m
  cases l with
  | nil => simp only [encMru, List.isEmpty_nil, if_true, optMember_none, tagged_obj,
      tagged_members_nil]
  | cons e tl =>
    simp only [encMru, List.isEmpty_cons, Bool.false_eq_true, if_false, optMember_some,
      tagged_obj, tagged_arr, tagged_members_cons, tagged_members_nil, encEntries_tagged,
      and_self]

/-- Decoding the value tree of a list of entries gives the list back. -/
theorem decMru_encMru (m : AssetMruList) : decMru (encMru m) = (m, none) := by
  obtain ⟨l⟩ := m
  cases l with
  | nil => rfl
  | cons e tl =>
    have h := decEntries_encEntries (e :: tl)
    rw [encEntries] at h
    simp only [decMru, encMru, List.isEmpty_cons, Bool.false_eq_true, if_false, optMember_some,
      encEntries, decMruMembers, decMruMember, keyIs_self, if_true, h, firstErr]

theorem String.toList_mk (l : List Char) : (String.mk l).toList = l := rfl

/-- An asset record that was marshalled unmarshals to itself, without error. -/
theorem jsonUnmarshal_marshal_AssetState (s : AssetState) :
    jsonUnmarshalAssetState (jsonMarshalAssetState s).1 = (s, none) := by
  simp only [jsonUnmarshalAssetState, jsonMarshalAssetState, String.toList_mk,
    parseJSON_renderVal _ (encAsset_tagged s), decAsset_encAsset]

/-- A list that was marshalled unmarshals to itself, without error. -/
theorem jsonUnmarshal_marshal_AssetMruList (m : AssetMruList) :
    jsonUnmarshalAssetMruList (jsonMarshalAssetMruList m).1 = (m, none) := by
  simp only [jsonUnmarshalAssetMruList, jsonMarshalAssetMruList, String.toList_mk,
    parseJSON_renderVal _ (encMru_tagged m), decMru_encMru]

/-! ## Theorems: mergePartialState -/

/-- The loop of `mergePartialState`, unrolled over the five fields. -/
theorem mergePartialState_eq (old new : AssetState) :
    (mergePartialState old new).1 =
      { assetID := if new.assetID.isSome then new.assetID else old.assetID
        location := if new.location.isSome then new.location else old.location
        temperature := if new.temperature.isSome then new.temperature else old.temperature
        carrier := if new.carrier.isSome then new.carrier else old.carrier
        updatedAt := if new.updatedAt.isSome then new.updatedAt else old.updatedAt } := by
  obtain ⟨a, l, t, c, u⟩ := new
  simp only [mergePartialState, numField, List.range_succ_eq_map, List.range_zero, List.map_nil,
    List.map_cons, List.foldl_cons, List.foldl_nil, mergeField]
  cases a <;> cases l <;> cases t <;> cases c <;> cases u <;> rfl

/-- The merge never reports an error. -/
theorem mergePartialState_err (old new : AssetState) : (mergePartialState old new).2 = none := rfl

/-- C1. For each of location, temperature and carrier the merged record has the
patch's value when the patch's field is present and the current value when it is
absent; a patch that carries only an identifier and a carrier leaves temperature
and location as they were. -/
theorem merge_field_by_field (current patch : AssetState) :
    (mergePartialState current patch).1.location
        = (if patch.location.isSome then patch.location else current.location)
    ∧ (mergePartialState current patch).1.temperature
        = (if patch.temperature.isSome then patch.temperature else current.temperature)
    ∧ (mergePartialState current patch).1.carrier
        = (if patch.carrier.isSome then patch.carrier else current.carrier)
    ∧ (∀ (id carrier : String),
        (mergePartialState current ⟨some id, none, none, some carrier, none⟩).1.temperature
            = current.temperature
        ∧ (mergePartialState current ⟨some id, none, none, some carrier, none⟩).1.location
            = current.location) := by
  refine ⟨?_, ?_, ?_, ?_⟩ <;> simp [mergePartialState_eq]

/-- C2 (counterexample). A patch whose identifier is present and differs from the
current one: the merged record carries the patch's identifier, not the current
one. -/
theorem merge_assetID_from_patch :
    (mergePartialState ⟨some "A1", none, none, none, none⟩
        ⟨some "B2", none, none, none, none⟩).1.assetID = some "B2"
    ∧ (mergePartialState ⟨some "A1", none, none, none, none⟩
        ⟨some "B2", none, none, none, none⟩).1.assetID
      ≠ (⟨some "A1", none, none, none, none⟩ : AssetState).assetID := by
  decide

/-- C2 (amended). The identifier is merged like every other field: the merged
record has the patch's assetID when it is present and the current one when it is
absent, so the identifier is unchanged exactly when the patch's assetID is absent
or equal to the current one. -/
theorem merge_assetID (current patch : AssetState) :
    (mergePartialState current patch).1.assetID
        = (if patch.assetID.isSome then patch.assetID else current.assetID)
    ∧ ((mergePartialState current patch).1.assetID = current.assetID
        ↔ (patch.assetID = none ∨ patch.assetID = current.assetID)) := by
  rw [mergePartialState_eq]
  cases h : patch.assetID <;> simp [eq_comm]

/-- C3 (counterexample). A stored location with latitude 1 and longitude 2, merged
with a patch whose location carries only latitude 3: the merged location has no
longitude. -/
theorem merge_location_drops_longitude :
    ((mergePartialState
        ⟨some "A1", some ⟨some one, some two⟩, none, none, none⟩
        ⟨some "A1", some ⟨some three, none⟩, none, none, none⟩).1.location.bind
          Geolocation.longitude) = none
    ∧ ((⟨some "A1", some ⟨some one, some two⟩, none, none, none⟩ :
          AssetState).location.bind Geolocation.longitude) = some two := by
  decide

/-- C3 (amended). The merge works on whole fields of the record. A field among
carrier, temperature and location that the patch does not carry keeps its
current value, so a present one stays present; latitude and longitude are kept
when the patch has no location, and when the patch has a location the merged
location is the patch's, coordinate by coordinate, absent ones included. -/
theorem merge_keeps_untouched_fields (current patch : AssetState) :
    (patch.carrier = none → (mergePartialState current patch).1.carrier = current.carrier)
    ∧ (patch.temperature = none →
        (mergePartialState current patch).1.temperature = current.temperature)
    ∧ (patch.location = none →
        (mergePartialState current patch).1.location = current.location
        ∧ (mergePartialState current patch).1.location.bind Geolocation.latitude
            = current.location.bind Geolocation.latitude
        ∧ (mergePartialState current patch).1.location.bind Geolocation.longitude
            = current.location.bind Geolocation.longitude)
    ∧ (∀ g, patch.location = some g →
        (mergePartialState current patch).1.location = some g
        ∧ (mergePartialState current patch).1.location.bind Geolocation.latitude = g.latitude
        ∧ (mergePartialState current patch).1.location.bind Geolocation.longitude
            = g.longitude) := by
  rw [mergePartialState_eq]
  refine ⟨?_, ?_, ?_, ?_⟩
  · intro h; simp [h]
  · intro h; simp [h]
  · intro h; simp [h]
  · intro g h; simp [h]

/-! ## Theorems: helper facts about the operations -/

/-- What a successful validation says about its argument and its result. -/
theorem validateInput_ok {args : List String} {p : AssetState} (h : validateInput args = (p, none)) :
    ∃ j s id, args = [j] ∧ jsonUnmarshalAssetState j = (s, none) ∧ s.assetID = some id
      ∧ TrimSpace id ≠ "" ∧ p = { s with assetID := some (TrimSpace id) } := by
  unfold validateInput at h
  split at h
  · rename_i j
    split at h
    · simp at h
    · rename_i s hs
      split at h
      · rename_i id hid
        dsimp only at h
        split_ifs at h with hk
        · simp at h
        · simp only [Prod.mk.injEq, and_true] at h
          exact ⟨j, s, id, rfl, hs, hid, hk, h.symm⟩
      · simp at h
  · simp at h

theorem validateInput_assetID {args : List String} {p : AssetState}
    (h : validateInput args = (p, none)) : ∃ k, p.assetID = some k ∧ k ≠ "" := by
  obtain ⟨j, s, id, _, _, _, hk, hp⟩ := validateInput_ok h
  exact ⟨TrimSpace id, by rw [hp], hk⟩


/-! ### The ledger stub -/

theorem GetState_PutState_same (stub : Stub) (k v : String) (hp : stub.putFault k = none) :
    (stub.PutState k v).2 = none ∧ (stub.PutState k v).1.world k = some v
      ∧ (stub.PutState k v).1.getFault = stub.getFault
      ∧ (stub.PutState k v).1.putFault = stub.putFault
      ∧ (stub.PutState k v).1.delFault = stub.delFault
      ∧ ∀ k2, k2 ≠ k → (stub.PutState k v).1.world k2 = stub.world k2 := by
  refine ⟨?_, ?_, ?_, ?_, ?_, ?_⟩ <;> simp only [Stub.PutState, hp]
  · simp
  · intro k2 h
    simp [h]

theorem PutState_fault (stub : Stub) (k v e : String) (hp : stub.putFault k = some e) :
    stub.PutState k v = (stub, some e) := by
  simp only [Stub.PutState, hp]


/-! ### The list of recent updates -/

/-- The slice `s[:minInt(len+1, 10)]` of the prepended list is always in range:
it is the first `min (len+1) 10` elements. -/
theorem sliceTo_minInt {α : Type} (e : α) (L : List α) :
    sliceTo (e :: L) (minInt ((L.length : Int) + 1) 10)
      = some ((e :: L).take (min (L.length + 1) 10)) := by
  unfold sliceTo minInt
  have h : (0 : Int) ≤ (if (L.length : Int) + 1 < 10 then (L.length : Int) + 1 else 10)
      ∧ (if (L.length : Int) + 1 < 10 then (L.length : Int) + 1 else 10)
        ≤ ((e :: L).length : Int) := by
    simp only [List.length_cons, Nat.cast_add, Nat.cast_one]
    split_ifs <;> omega
  rw [if_pos h]
  congr 2
  split_ifs with h1
  · have : L.length + 1 ≤ 10 := by omega
    rw [min_eq_left this]
    omega
  · have : 10 ≤ L.length + 1 := by omega
    rw [min_eq_right this]
    rfl

/-- The list step, once the list it starts from is known. -/
theorem updateMruList_eq (stub : Stub) (k : String) (now : Time) (L : List AssetUpdatedAt)
    (hL : loadMruList stub = (⟨L⟩, none)) :
    updateMruList stub k now =
      match stub.PutState MRUKEY
          (jsonMarshalAssetMruList ⟨(newMruEntry k now :: L).take (min (L.length + 1) 10)⟩).1 with
      | (_, some e) => (stub, some ("PUT ledger state failed: " ++ e))
      | (stub2, none) => (stub2, none) := by
  unfold updateMruList
  rw [hL]
  simp only [sliceTo_minInt, jsonMarshalAssetMruList]
  try rfl

/-- A list step that succeeds started from a list that unmarshalled and ended
with a put under `MRUKEY`. -/
theorem updateMruList_ok {stub stub' : Stub} {k : String} {now : Time}
    (h : updateMruList stub k now = (stub', none)) :
    ∃ L, loadMruList stub = (⟨L⟩, none) ∧ stub.putFault MRUKEY = none
      ∧ stub' = (stub.PutState MRUKEY
          (jsonMarshalAssetMruList ⟨(newMruEntry k now :: L).take (min (L.length + 1) 10)⟩).1).1 := by
  cases hL : loadMruList stub with
  | mk m e =>
    obtain ⟨L⟩ := m
    cases e with
    | some e =>
      unfold updateMruList at h
      rw [hL] at h
      simp at h
    | none =>
      rw [updateMruList_eq stub k now L hL] at h
      cases hp : stub.putFault MRUKEY with
      | some e =>
        rw [PutState_fault stub MRUKEY _ e hp] at h
        simp at h
      | none =>
        refine ⟨L, rfl, rfl, ?_⟩
        simp only [Stub.PutState, hp] at h ⊢
        simp only [Prod.mk.injEq, and_true] at h
        exact h.symm

/-- A store that succeeds put the marshalled record under the identifier and
then ran the list step. -/
theorem storeAsset_ok {stub stub' : Stub} {k : String} {r : AssetState} {now2 : Time}
    (h : storeAsset stub k r now2 = (stub', none)) :
    stub.putFault k = none
      ∧ updateMruList (stub.PutState k (jsonMarshalAssetState r).1).1 k now2 = (stub', none) := by
  unfold storeAsset at h
  simp only [jsonMarshalAssetState] at h ⊢
  cases hp : stub.putFault k with
  | some e =>
    rw [PutState_fault stub k _ e hp] at h
    simp at h
  | none =>
    refine ⟨rfl, ?_⟩
    simp only [Stub.PutState, hp] at h ⊢
    exact h

/-- The two branches of `createOrUpdateAsset` after a successful validation. -/
theorem createOrUpdateAsset_eq (stub : Stub) (args : List String) (t1 t2 : Time)
    {p : AssetState} {k : String} (hv : validateInput args = (p, none))
    (hk : p.assetID = some k) :
    createOrUpdateAsset stub args t1 t2 =
      if (stub.GetState k).2.isSome ∨ (stub.GetState k).1.length = 0 then
        storeAsset stub k { p with updatedAt := some t1 } t2
      else
        match jsonUnmarshalAssetState (stub.GetState k).1 with
        | (_, some _) => (stub, some "Unable to unmarshal JSON data from stub")
        | (existing, none) =>
          storeAsset stub k { (mergePartialState existing p).1 with updatedAt := some t1 } t2 := by
  unfold createOrUpdateAsset
  rw [hv]
  simp only [hk]
  split_ifs with h
  · simp only [hk]
  · cases hu : jsonUnmarshalAssetState (stub.GetState k).1 with
    | mk e err =>
      cases err with
      | some x => rfl
      | none => rfl


theorem String.length_eq_zero_iff (s : String) : s.length = 0 ↔ s = "" := by
  obtain ⟨l⟩ := s
  cases l with
  | nil => exact ⟨fun _ => rfl, fun _ => rfl⟩
  | cons c r =>
    constructor
    · intro h; simp [String.length] at h
    · intro h; exact absurd (congrArg String.length h) (by simp [String.length])

/-- What a successful `createOrUpdateAsset` did: it chose the record by what it
read under the identifier, put its text under the identifier, loaded the list
from the ledger after that put, and put the new list under `MRUKEY`. -/
theorem createOrUpdateAsset_ok {stub stub' : Stub} {args : List String} {t1 t2 : Time}
    {p : AssetState} {k : String} (hv : validateInput args = (p, none))
    (hk : p.assetID = some k) (hs : createOrUpdateAsset stub args t1 t2 = (stub', none)) :
    ∃ (r : AssetState) (L : List AssetUpdatedAt),
      ((((stub.GetState k).2.isSome ∨ (stub.GetState k).1.length = 0)
          ∧ r = { p with updatedAt := some t1 })
        ∨ (¬ ((stub.GetState k).2.isSome ∨ (stub.GetState k).1.length = 0)
          ∧ ∃ existing, jsonUnmarshalAssetState (stub.GetState k).1 = (existing, none)
            ∧ r = { (mergePartialState existing p).1 with updatedAt := some t1 }))
      ∧ stub.putFault k = none ∧ stub.putFault MRUKEY = none
      ∧ loadMruList (stub.PutState k (jsonMarshalAssetState r).1).1 = (⟨L⟩, none)
      ∧ stub' = ((stub.PutState k (jsonMarshalAssetState r).1).1.PutState MRUKEY
          (jsonMarshalAssetMruList
            ⟨(newMruEntry k t2 :: L).take (min (L.length + 1) 10)⟩).1).1 := by
  rw [createOrUpdateAsset_eq stub args t1 t2 hv hk] at hs
  have key : ∀ r, storeAsset stub k r t2 = (stub', none) →
      ∃ L, stub.putFault k = none ∧ stub.putFault MRUKEY = none
        ∧ loadMruList (stub.PutState k (jsonMarshalAssetState r).1).1 = (⟨L⟩, none)
        ∧ stub' = ((stub.PutState k (jsonMarshalAssetState r).1).1.PutState MRUKEY
            (jsonMarshalAssetMruList
              ⟨(newMruEntry k t2 :: L).take (min (L.length + 1) 10)⟩).1).1 := by
    intro r hr
    obtain ⟨hp, hu⟩ := storeAsset_ok hr
    obtain ⟨L, hL, hpm, hst⟩ := updateMruList_ok hu
    have hf := (GetState_PutState_same stub k (jsonMarshalAssetState r).1 hp).2.2.2.1
    rw [hf] at hpm
    exact ⟨L, hp, hpm, hL, hst⟩
  split_ifs at hs with h
  · obtain ⟨L, h1, h2, h3, h4⟩ := key _ hs
    exact ⟨_, L, Or.inl ⟨h, rfl⟩, h1, h2, h3, h4⟩
  · cases hu : jsonUnmarshalAssetState (stub.GetState k).1 with
    | mk e err =>
      rw [hu] at hs
      cases err with
      | some x => simp at hs
      | none =>
        obtain ⟨L, h1, h2, h3, h4⟩ := key _ hs
        exact ⟨_, L, Or.inr ⟨h, e, rfl, rfl⟩, h1, h2, h3, h4⟩

/-- The text of a marshalled record is not empty. -/
theorem jsonMarshalAssetState_length (r : AssetState) :
    (jsonMarshalAssetState r).1.length ≠ 0 := by
  simp [jsonMarshalAssetState, encAsset, renderVal, String.length]

/-- After two puts, under keys `k` and `MRUKEY` with `k ≠ MRUKEY`, the ledger holds
the first value under `k`, and reads fail where they failed before. -/
theorem world_after_puts (stub : Stub) (k v w : String) (hne : k ≠ MRUKEY)
    (h1 : stub.putFault k = none) (h2 : stub.putFault MRUKEY = none) :
    ((stub.PutState k v).1.PutState MRUKEY w).1.world k = some v
      ∧ ((stub.PutState k v).1.PutState MRUKEY w).1.world MRUKEY = some w
      ∧ ((stub.PutState k v).1.PutState MRUKEY w).1.getFault = stub.getFault
      ∧ ((stub.PutState k v).1.PutState MRUKEY w).1.putFault = stub.putFault
      ∧ ∀ k2, k2 ≠ k → k2 ≠ MRUKEY →
          ((stub.PutState k v).1.PutState MRUKEY w).1.world k2 = stub.world k2 := by
  simp only [Stub.PutState, h1, h2]
  refine ⟨by simp [hne], by simp, trivial, trivial, ?_⟩
  intro k2 ha hb
  simp [ha, hb]


/-- The fields of the record that a successful call stored, in either branch. -/
theorem stored_fields {p existing r : AssetState} {k : String} {t1 : Time}
    (hk : p.assetID = some k)
    (hr : r = { p with updatedAt := some t1 }
      ∨ r = { (mergePartialState existing p).1 with updatedAt := some t1 }) :
    r.assetID = some k ∧ r.updatedAt = some t1
      ∧ (∀ g, p.location = some g → r.location = some g)
      ∧ (∀ x, p.temperature = some x → r.temperature = some x)
      ∧ (∀ c, p.carrier = some c → r.carrier = some c) := by
  rcases hr with hr | hr
  · subst hr
    exact ⟨hk, rfl, fun _ h => h, fun _ h => h, fun _ h => h⟩
  · subst hr
    rw [mergePartialState_eq]
    refine ⟨by simp [hk], rfl, ?_, ?_, ?_⟩ <;> intro x hx <;> simp [hx]

/-- After a successful call with an identifier other than `MRUKEY`, the ledger
holds the text of the stored record under the identifier; other keys but
`MRUKEY` are untouched and the faults are as before. -/
theorem ledger_after_call {stub stub' : Stub} {args : List String} {t1 t2 : Time}
    {p : AssetState} {k : String} (hv : validateInput args = (p, none))
    (hk : p.assetID = some k) (hne : k ≠ MRUKEY)
    (hs : createOrUpdateAsset stub args t1 t2 = (stub', none)) :
    ∃ r, stub'.world k = some (jsonMarshalAssetState r).1
      ∧ r.assetID = some k ∧ r.updatedAt = some t1
      ∧ (∀ g, p.location = some g → r.location = some g)
      ∧ (∀ x, p.temperature = some x → r.temperature = some x)
      ∧ (∀ c, p.carrier = some c → r.carrier = some c)
      ∧ stub'.getFault = stub.getFault
      ∧ (∀ k2, k2 ≠ k → k2 ≠ MRUKEY → stub'.world k2 = stub.world k2) := by
  obtain ⟨r, L, hbr, hp1, hp2, _, hst⟩ := createOrUpdateAsset_ok hv hk hs
  obtain ⟨w1, _, w3, _, w5⟩ := world_after_puts stub k (jsonMarshalAssetState r).1
    (jsonMarshalAssetMruList ⟨(newMruEntry k t2 :: L).take (min (L.length + 1) 10)⟩).1 hne hp1 hp2
  rw [← hst] at w1 w3 w5
  have hf : ∃ existing, r = { p with updatedAt := some t1 }
      ∨ r = { (mergePartialState existing p).1 with updatedAt := some t1 } := by
    rcases hbr with ⟨_, h⟩ | ⟨_, e, _, h⟩
    · exact ⟨p, Or.inl h⟩
    · exact ⟨e, Or.inr h⟩
  obtain ⟨existing, hf⟩ := hf
  obtain ⟨f1, f2, f3, f4, f5⟩ := stored_fields hk hf
  exact ⟨r, w1, f1, f2, f3, f4, f5, w3, w5⟩

theorem createAsset_eq (stub : Stub) (args : List String) (t1 t2 : Time) :
    createAsset stub args t1 t2 = createOrUpdateAsset stub args t1 t2 := rfl

theorem updateAsset_eq (stub : Stub) (args : List String) (t1 t2 : Time) :
    updateAsset stub args t1 t2 = createOrUpdateAsset stub args t1 t2 := rfl

/-! ## Theorems: createOrUpdateAsset and readAsset -/

/-- C4 (counterexample). On an empty ledger, creating the asset
`{"assetID":"_MruListKey","temperature":20.0}` succeeds, and reading it back
succeeds with the stored list of recent updates: the record read has no
temperature, while the patch had temperature 20.0. -/
theorem read_after_create_of_list_key :
    (validateInput mruKeyArg).2 = none
    ∧ (validateInput mruKeyArg).1.temperature = some twenty
    ∧ (createAsset emptyStub mruKeyArg timeA timeB).2 = none
    ∧ readAsset (createAsset emptyStub mruKeyArg timeA timeB).1 mruKeyArg
        = ("\x7b\"mruList\":[\x7b\"assetID\":\"_MruListKey\",\"updatedAt\":\"2016-05-01T12:00:01Z\"\x7d]\x7d",
            none)
    ∧ (jsonUnmarshalAssetState (readAsset (createAsset emptyStub mruKeyArg timeA timeB).1
        mruKeyArg).1).1.temperature = none := by
  refine ⟨by decide, by decide, by decide, by decide, by decide⟩

/-- C4 (amended). For every ledger and every argument that validateInput accepts
with an identifier other than `_MruListKey`, on a ledger whose read of that
identifier reports no error: after createAsset or updateAsset succeeds, readAsset
with the same argument succeeds, and the bytes it returns unmarshal to a record
whose location, temperature and carrier are the patch's wherever the patch
carries them. -/
theorem write_then_read (stub stub' : Stub) (args : List String) (t1 t2 : Time)
    (p : AssetState) (k : String) (hv : validateInput args = (p, none))
    (hk : p.assetID = some k) (hne : k ≠ MRUKEY) (hget : stub.getFault k = none)
    (hs : createAsset stub args t1 t2 = (stub', none)
      ∨ updateAsset stub args t1 t2 = (stub', none)) :
    ∃ bytes r, readAsset stub' args = (bytes, none)
      ∧ jsonUnmarshalAssetState bytes = (r, none)
      ∧ (∀ g, p.location = some g → r.location = some g)
      ∧ (∀ x, p.temperature = some x → r.temperature = some x)
      ∧ (∀ c, p.carrier = some c → r.carrier = some c) := by
  have hs2 : createOrUpdateAsset stub args t1 t2 = (stub', none) := by
    rcases hs with h | h
    · rw [← createAsset_eq]; exact h
    · rw [← updateAsset_eq]; exact h
  obtain ⟨r, hw, _, _, f3, f4, f5, hg, _⟩ := ledger_after_call hv hk hne hs2
  refine ⟨(jsonMarshalAssetState r).1, r, ?_, jsonUnmarshal_marshal_AssetState r, f3, f4, f5⟩
  have hget2 : stub'.getFault k = none := by rw [hg]; exact hget
  have hlen := jsonMarshalAssetState_length r
  unfold readAsset
  rw [hv]
  simp only [hk, Stub.GetState, hget2, hw, Option.getD_some, Option.isSome_none,
    Bool.false_eq_true, false_or, hlen, if_false, jsonUnmarshal_marshal_AssetState]

/-- C4 (witness). The amended statement at the argument
`{"assetID":"A1","temperature":20.0}` on an empty ledger, and the example of the
specification: create that asset, update it with `{"assetID":"A1","carrier":"X"}`,
read it: temperature 20 and carrier X. -/
theorem write_then_read_witness :
    (∃ bytes r, readAsset (createAsset emptyStub a1TempArg timeA timeB).1 a1TempArg = (bytes, none)
      ∧ jsonUnmarshalAssetState bytes = (r, none)
      ∧ (∀ g, (none : Option Geolocation) = some g → r.location = some g)
      ∧ (∀ x, some twenty = some x → r.temperature = some x)
      ∧ (∀ c, (none : Option String) = some c → r.carrier = some c))
    ∧ (updateAsset (createAsset emptyStub a1TempArg timeA timeB).1 a1CarrierArg timeB timeA).2
        = none
    ∧ readAsset (updateAsset (createAsset emptyStub a1TempArg timeA timeB).1 a1CarrierArg
          timeB timeA).1 (idArg "A1")
        = ("\x7b\"assetID\":\"A1\",\"temperature\":20,\"carrier\":\"X\",\"updatedAt\":\"2016-05-01T12:00:01Z\"\x7d",
            none)
    ∧ (jsonUnmarshalAssetState (readAsset (updateAsset (createAsset emptyStub a1TempArg timeA
          timeB).1 a1CarrierArg timeB timeA).1 (idArg "A1")).1).1
        = ⟨some "A1", none, some twenty, some "X", some timeB⟩ :=
  ⟨write_then_read emptyStub (createAsset emptyStub a1TempArg timeA timeB).1 a1TempArg timeA timeB
      ⟨some "A1", none, some twenty, none, none⟩ "A1" (by decide) rfl (by decide) rfl
      (Or.inl (Prod.ext rfl (by decide))),
    by decide, by decide!, by decide!⟩

theorem GetState_absent (stub : Stub) (k : String)
    (h : stub.getFault k ≠ none ∨ stub.world k = none ∨ stub.world k = some "") :
    (stub.GetState k).2.isSome ∨ (stub.GetState k).1.length = 0 := by
  unfold Stub.GetState
  cases hf : stub.getFault k with
  | some e => left; rfl
  | none =>
    right
    rcases h with h | h | h
    · exact absurd hf h
    · simp [h]
    · simp [h]

theorem GetState_present (stub : Stub) (k bytes : String) (hf : stub.getFault k = none)
    (hw : stub.world k = some bytes) (hb : bytes ≠ "") :
    stub.GetState k = (bytes, none)
      ∧ ¬ ((stub.GetState k).2.isSome ∨ (stub.GetState k).1.length = 0) := by
  have h : stub.GetState k = (bytes, none) := by simp [Stub.GetState, hf, hw]
  refine ⟨h, ?_⟩
  rw [h]
  simp only [Option.isSome_none, Bool.false_eq_true, false_or]
  intro hl
  exact hb ((String.length_eq_zero_iff bytes).1 hl)

/-- C5 (counterexample). The ledger holds under `A1` the text of a record with a
temperature, which unmarshals, and its read of `A1` reports an error. The call
with the patch `{"assetID":"A1","carrier":"X"}` succeeds and writes the patch,
with the clock reading, not the merge of the patch into the stored record. -/
theorem read_error_writes_patch :
    unreadableStub.world "A1" = some "\x7b\"assetID\":\"A1\",\"temperature\":20\x7d"
    ∧ jsonUnmarshalAssetState "\x7b\"assetID\":\"A1\",\"temperature\":20\x7d"
        = (⟨some "A1", none, some twenty, none, none⟩, none)
    ∧ validateInput a1CarrierArg = (⟨some "A1", none, none, some "X", none⟩, none)
    ∧ (createOrUpdateAsset unreadableStub a1CarrierArg timeA timeB).2 = none
    ∧ (createOrUpdateAsset unreadableStub a1CarrierArg timeA timeB).1.world "A1"
        = some (jsonMarshalAssetState ⟨some "A1", none, none, some "X", some timeA⟩).1
    ∧ (createOrUpdateAsset unreadableStub a1CarrierArg timeA timeB).1.world "A1"
        ≠ some (jsonMarshalAssetState
            { (mergePartialState ⟨some "A1", none, some twenty, none, none⟩
                ⟨some "A1", none, none, some "X", none⟩).1 with updatedAt := some timeA }).1 := by
  refine ⟨by decide, by decide, by decide, by decide, by decide, by decide⟩

/-- C5 (amended). For an argument that validateInput accepts with identifier `k`:
when the read of `k` reports an error or the ledger holds no value or an empty
one under `k`, the record handed to the store is the validated patch; when the
read of `k` reports no error and gives the text of a record `existing`, it is
`mergePartialState(existing, patch)`; in both cases with `updatedAt` replaced by
the clock reading `now1`. The store marshals that record and puts the text under
`k` before it goes on to the list. -/
theorem record_written (stub : Stub) (args : List String) (now1 now2 : Time)
    (patch : AssetState) (k : String) (hv : validateInput args = (patch, none))
    (hk : patch.assetID = some k) :
    ((stub.getFault k ≠ none ∨ stub.world k = none ∨ stub.world k = some "") →
      createOrUpdateAsset stub args now1 now2
        = storeAsset stub k { patch with updatedAt := some now1 } now2)
    ∧ (∀ bytes existing, stub.getFault k = none → stub.world k = some bytes → bytes ≠ "" →
        jsonUnmarshalAssetState bytes = (existing, none) →
      createOrUpdateAsset stub args now1 now2
        = storeAsset stub k
            { (mergePartialState existing patch).1 with updatedAt := some now1 } now2)
    ∧ (∀ r : AssetState, stub.putFault k = none →
        storeAsset stub k r now2
          = updateMruList (stub.PutState k (jsonMarshalAssetState r).1).1 k now2
        ∧ (stub.PutState k (jsonMarshalAssetState r).1).1.world k
          = some (jsonMarshalAssetState r).1
        ∧ jsonUnmarshalAssetState (jsonMarshalAssetState r).1 = (r, none)) := by
  refine ⟨?_, ?_, ?_⟩
  · intro h
    rw [createOrUpdateAsset_eq stub args now1 now2 hv hk, if_pos (GetState_absent stub k h)]
  · intro bytes existing hf hw hb hu
    obtain ⟨hg, hn⟩ := GetState_present stub k bytes hf hw hb
    rw [createOrUpdateAsset_eq stub args now1 now2 hv hk, if_neg hn, hg]
    simp only [hu]
  · intro r hp
    refine ⟨?_, (GetState_PutState_same stub k _ hp).2.1, jsonUnmarshal_marshal_AssetState r⟩
    simp only [storeAsset, jsonMarshalAssetState, Stub.PutState, hp]

/-- C5 (witness). Creating `{"assetID":"A1","temperature":20.0}` on an empty
ledger. -/
theorem record_written_witness :
    validateInput a1TempArg = (⟨some "A1", none, some twenty, none, none⟩, none)
    ∧ createOrUpdateAsset emptyStub a1TempArg timeA timeB
        = storeAsset emptyStub "A1" ⟨some "A1", none, some twenty, none, some timeA⟩ timeB
    ∧ (storeAsset emptyStub "A1" ⟨some "A1", none, some twenty, none, some timeA⟩ timeB).1.world "A1"
        = some "\x7b\"assetID\":\"A1\",\"temperature\":20,\"updatedAt\":\"2016-05-01T12:00:00Z\"\x7d" :=
  ⟨by decide,
    (record_written emptyStub a1TempArg timeA timeB ⟨some "A1", none, some twenty, none, none⟩
      "A1" (by decide) rfl).1 (Or.inr (Or.inl rfl)),
    by decide⟩

/-- C6. The `updatedAt` of the record handed to the store is the clock reading
`now1` that the call was given, in the create and in the update branch, and two
accepted arguments whose validated patches differ at most in `updatedAt` make the
call return the same result and leave the same ledger. -/
theorem updatedAt_from_clock (stub : Stub) (args args2 : List String) (now1 now2 : Time)
    (p p2 : AssetState) (k : String) (hv : validateInput args = (p, none))
    (hv2 : validateInput args2 = (p2, none)) (hk : p.assetID = some k)
    (hsame : { p2 with updatedAt := none } = { p with updatedAt := none }) :
    createOrUpdateAsset stub args2 now1 now2 = createOrUpdateAsset stub args now1 now2
    ∧ (createOrUpdateAsset stub args now1 now2
          = (stub, some "Unable to unmarshal JSON data from stub")
      ∨ ∃ r, r.updatedAt = some now1
          ∧ createOrUpdateAsset stub args now1 now2 = storeAsset stub k r now2
          ∧ (r = { p with updatedAt := some now1 }
            ∨ ∃ existing, r = { (mergePartialState existing p).1 with updatedAt := some now1 })) := by
  have hk2 : p2.assetID = some k := by
    have := congrArg AssetState.assetID hsame
    simp only at this
    rw [this, hk]
  have e1 : ({ p2 with updatedAt := some now1 } : AssetState) = { p with updatedAt := some now1 } := by
    have h := congrArg (fun s : AssetState => ({ s with updatedAt := some now1 } : AssetState)) hsame
    simpa using h
  have e2 : ∀ existing, ({ (mergePartialState existing p2).1 with updatedAt := some now1 } : AssetState)
      = { (mergePartialState existing p).1 with updatedAt := some now1 } := by
    intro existing
    have h1 := congrArg AssetState.assetID hsame
    have h2 := congrArg AssetState.location hsame
    have h3 := congrArg AssetState.temperature hsame
    have h4 := congrArg AssetState.carrier hsame
    simp only at h1 h2 h3 h4
    rw [mergePartialState_eq, mergePartialState_eq]
    simp only [h1, h2, h3, h4]
  constructor
  · rw [createOrUpdateAsset_eq stub args now1 now2 hv hk,
      createOrUpdateAsset_eq stub args2 now1 now2 hv2 hk2, e1]
    simp only [e2]
  · rw [createOrUpdateAsset_eq stub args now1 now2 hv hk]
    split_ifs with h
    · exact Or.inr ⟨_, rfl, rfl, Or.inl rfl⟩
    · cases hu : jsonUnmarshalAssetState (stub.GetState k).1 with
      | mk e err =>
        cases err with
        | some x => exact Or.inl rfl
        | none => exact Or.inr ⟨_, rfl, rfl, Or.inr ⟨e, rfl⟩⟩

/-- C6 (witness). The patch `{"assetID":"A1","updatedAt":"1999-01-01T00:00:00Z"}`
and the patch `{"assetID":"A1"}` on an empty ledger: the same outcome, and the
record stored carries the clock reading, not the patch's timestamp. -/
theorem updatedAt_from_clock_witness :
    validateInput (idArg "A1") = (⟨some "A1", none, none, none, none⟩, none)
    ∧ validateInput a1StampArg = (⟨some "A1", none, none, none, some time1999⟩, none)
    ∧ (createOrUpdateAsset emptyStub a1StampArg timeA timeB
        = createOrUpdateAsset emptyStub (idArg "A1") timeA timeB
      ∧ (createOrUpdateAsset emptyStub (idArg "A1") timeA timeB
            = (emptyStub, some "Unable to unmarshal JSON data from stub")
        ∨ ∃ r, r.updatedAt = some timeA
            ∧ createOrUpdateAsset emptyStub (idArg "A1") timeA timeB
              = storeAsset emptyStub "A1" r timeB
            ∧ (r = { (⟨some "A1", none, none, none, none⟩ : AssetState) with
                  updatedAt := some timeA }
              ∨ ∃ existing, r = { (mergePartialState existing
                  ⟨some "A1", none, none, none, none⟩).1 with updatedAt := some timeA })))
    ∧ (createOrUpdateAsset emptyStub a1StampArg timeA timeB).1.world "A1"
        = some "\x7b\"assetID\":\"A1\",\"updatedAt\":\"2016-05-01T12:00:00Z\"\x7d" :=
  ⟨by decide, by decide,
    updatedAt_from_clock emptyStub (idArg "A1") a1StampArg timeA timeB
      ⟨some "A1", none, none, none, none⟩ ⟨some "A1", none, none, none, some time1999⟩ "A1"
      (by decide) (by decide) rfl rfl,
    by decide⟩

/-- C7 (counterexample). On an empty ledger, createAsset with the validated
identifier `_MruListKey` succeeds, and the value stored under that key afterwards
is the list of recent updates: unmarshalled as an asset record it has no
assetID and no updatedAt. -/
theorem stored_value_of_list_key :
    (validateInput mruKeyArg).2 = none
    ∧ (validateInput mruKeyArg).1.assetID = some "_MruListKey"
    ∧ (createAsset emptyStub mruKeyArg timeA timeB).2 = none
    ∧ (createAsset emptyStub mruKeyArg timeA timeB).1.world "_MruListKey"
        = some "\x7b\"mruList\":[\x7b\"assetID\":\"_MruListKey\",\"updatedAt\":\"2016-05-01T12:00:01Z\"\x7d]\x7d"
    ∧ jsonUnmarshalAssetState
        "\x7b\"mruList\":[\x7b\"assetID\":\"_MruListKey\",\"updatedAt\":\"2016-05-01T12:00:01Z\"\x7d]\x7d"
        = (⟨none, none, none, none, none⟩, none) := by
  refine ⟨by decide, by decide, by decide, by decide, by decide⟩

/-! ## Theorems: the entry text and the list step -/

/-- A string without quote, backslash and control characters is read back as
written. -/
theorem bodyEscaped_safe (l rest : List Char)
    (h : ∀ c ∈ l, c ≠ '\"' ∧ c ≠ '\\' ∧ 32 ≤ c.toNat) :
    bodyEscaped (l ++ '\"' :: rest) = false := by
  induction l with
  | nil => simp [bodyEscaped]
  | cons c l ih =>
    obtain ⟨h1, h2, _⟩ := h c (by simp)
    have ih2 := ih (fun d hd => h d (by simp [hd]))
    rw [List.cons_append, bodyEscaped, if_neg h1, if_neg h2, ih2]

theorem parseStrBody_safe (l rest : List Char)
    (h : ∀ c ∈ l, c ≠ '\"' ∧ c ≠ '\\' ∧ 32 ≤ c.toNat) :
    parseStrBody 0 (l ++ '\"' :: rest) = some (l, rest) := by
  induction l with
  | nil => simp [parseStrBody]
  | cons c l ih =>
    obtain ⟨h1, h2, h3⟩ := h c (by simp)
    have h4 : ¬ c.toNat < 32 := by omega
    have ih2 := ih (fun d hd => h d (by simp [hd]))
    simp [parseStrBody, h1, h2, h4, ih2, consChar]

theorem String.toList_append (a b : String) : (a ++ b).toList = a.toList ++ b.toList := by
  obtain ⟨a⟩ := a
  obtain ⟨b⟩ := b
  rfl

/-- An object whose first member is a string member and is the last one. -/
theorem parseValue_one_string_member (f : Nat) (key val r : List Char)
    (hk : parseStrBody 0 r = some (key, ':' :: '\"' :: (val ++ ['\"', '}'])))
    (hv : parseStrBody 0 (val ++ ['\"', '}']) = some (val, ['}']))
    (hb : bodyEscaped (val ++ ['\"', '}']) = false) :
    parseValue (f + 3) ('{' :: '\"' :: r)
      = some (JVal.obj (JMembers.cons key (JVal.str val) JMembers.nil), []) := by
  have w2 : isWs '\"' = false := by decide
  have w3 : isWs ':' = false := by decide
  have w4 : isWs '}' = false := by decide
  have e3 : parseValue (f + 1) ('\"' :: (val ++ ['\"', '}'])) = some (JVal.str val, ['}']) := by
    simp [parseValue, hv, hb]
  have e2 : parseMembers (f + 2) ('\"' :: r)
      = some (JMembers.cons key (JVal.str val) JMembers.nil, []) := by
    rw [parseMembers]
    simp only [if_true, hk, skipWs_cons _ w3, skipWs_cons _ w2, e3, skipWs_cons _ w4]
    simp
  rw [parseValue]
  simp [skipWs_cons _ w2, e2]

/-- The text `{"assetID":"<id>"}` parses to an object with that one member, when
the identifier has no quote, backslash or control character. -/
theorem parseJSON_idText (aid : String) (h : jsonSafe aid) :
    parseJSON ("\x7b\"assetID\":\"" ++ aid ++ "\"\x7d").toList
      = some (JVal.obj (JMembers.cons "assetID".toList (JVal.str aid.toList) JMembers.nil)) := by
  have hs := parseStrBody_safe aid.toList ['}'] h
  have hk : parseStrBody 0 ("assetID".toList ++ '\"' :: ':' :: '\"' :: (aid.toList ++ ['\"', '}']))
      = some ("assetID".toList, ':' :: '\"' :: (aid.toList ++ ['\"', '}'])) :=
    parseStrBody_safe _ _ (by decide)
  have htext : ("\x7b\"assetID\":\"" ++ aid ++ "\"\x7d").toList
      = '{' :: '\"' :: ("assetID".toList ++ '\"' :: ':' :: '\"' :: (aid.toList ++ ['\"', '}'])) := by
    rw [String.toList_append, String.toList_append]
    rfl
  have h7 : ("assetID".toList).length = 7 := rfl
  have hlen : ("\x7b\"assetID\":\"" ++ aid ++ "\"\x7d").toList.length + 1
      = (aid.toList.length + 12) + 3 := by
    rw [htext]
    simp only [List.length_cons, List.length_append, List.length_nil, h7]
    omega
  have w1 : isWs '{' = false := by decide
  unfold parseJSON
  rw [hlen, htext, skipWs_cons _ w1,
    parseValue_one_string_member _ _ _ _ hk hs (bodyEscaped_safe aid.toList ['}'] h)]
  rfl

/-- For an identifier that the text carries unchanged, the entry built from
`{"assetID":"<id>"}` has that identifier. -/
theorem newMruEntry_safe (aid : String) (now : Time) (h : jsonSafe aid) :
    newMruEntry aid now = ⟨some aid, now⟩ := by
  unfold newMruEntry jsonUnmarshalAssetUpdatedAt
  simp only [parseJSON_idText aid h, decEntry, decEntryMembers, decEntryMember_assetID_str,
    AssetUpdatedAt.empty]

/-- The argument `{"assetID":"<id>"}` is accepted with that identifier, when the
identifier is not blank, has no surrounding white space and no quote, backslash
or control character. -/
theorem validateInput_idArg (aid : String) (h : jsonSafe aid) (ht : TrimSpace aid = aid)
    (hne : aid ≠ "") :
    validateInput (idArg aid) = (⟨some aid, none, none, none, none⟩, none) := by
  have hu : jsonUnmarshalAssetState ("\x7b\"assetID\":\"" ++ aid ++ "\"\x7d")
      = (⟨some aid, none, none, none, none⟩, none) := by
    unfold jsonUnmarshalAssetState
    simp only [parseJSON_idText aid h, decAsset, decAssetMembers, decAssetMember_assetID_str,
      AssetState.empty]
  unfold validateInput idArg
  simp only [hu, ht, hne, if_false]

/-- A put under a key other than `MRUKEY` does not change the list that is
loaded. -/
theorem loadMruList_PutState_other (stub : Stub) (k v : String) (hne : k ≠ MRUKEY) :
    loadMruList (stub.PutState k v).1 = loadMruList stub := by
  have hne2 : MRUKEY ≠ k := fun h => hne h.symm
  unfold loadMruList Stub.GetState Stub.PutState
  cases hp : stub.putFault k with
  | some e => rfl
  | none => simp only [hne2, if_false]

/-- The text of a marshalled list is not empty. -/
theorem jsonMarshalAssetMruList_length (m : AssetMruList) :
    (jsonMarshalAssetMruList m).1.length ≠ 0 := by
  simp [jsonMarshalAssetMruList, encMru, renderVal, String.length]

/-- After a put of a marshalled list under `MRUKEY`, on a ledger whose read of
`MRUKEY` reports no error, that list is the one loaded. -/
theorem loadMruList_PutState_list (stub : Stub) (m : AssetMruList)
    (hg : stub.getFault MRUKEY = none) (hp : stub.putFault MRUKEY = none) :
    loadMruList (stub.PutState MRUKEY (jsonMarshalAssetMruList m).1).1 = (m, none) := by
  have hlen := jsonMarshalAssetMruList_length m
  unfold loadMruList Stub.GetState Stub.PutState
  simp only [hp, hg, if_true, Option.getD_some, Option.isSome_none, Bool.false_eq_true, false_or,
    hlen, if_false, jsonUnmarshal_marshal_AssetMruList]

theorem take_prepend {α : Type} (e : α) (L : List α) :
    (e :: L).take (min (L.length + 1) 10) = e :: L.take (min L.length 9) := by
  have h : min (L.length + 1) 10 = min L.length 9 + 1 := by omega
  rw [h, List.take_succ_cons]

theorem take_ten_prepend {α : Type} (e : α) (L : List α) :
    (e :: L).take (min (L.length + 1) 10) = (e :: L).take 10 := by
  by_cases h : L.length + 1 ≤ 10
  · rw [min_eq_left h, List.take_of_length_le (by simp), List.take_of_length_le (by simp; omega)]
  · rw [min_eq_right (by omega)]

/-- One successful call with an identifier that is not `MRUKEY` and that the entry
text carries unchanged, on a ledger whose read of `MRUKEY` reports no error: the
list loaded afterwards is the entry for the call before the list loaded before,
cut to ten. -/
theorem loadMruList_after_call {stub stub' : Stub} {args : List String} {t1 t2 : Time}
    {p : AssetState} {k : String} {L : List AssetUpdatedAt}
    (hv : validateInput args = (p, none)) (hk : p.assetID = some k) (hne : k ≠ MRUKEY)
    (hsafe : jsonSafe k) (hg : stub.getFault MRUKEY = none)
    (hL : loadMruList stub = (⟨L⟩, none))
    (hs : createOrUpdateAsset stub args t1 t2 = (stub', none)) :
    stub'.getFault MRUKEY = none
      ∧ loadMruList stub' = (⟨((⟨some k, t2⟩ : AssetUpdatedAt) :: L).take 10⟩, none) := by
  obtain ⟨r, L2, _, hp1, hp2, hL2, hst⟩ := createOrUpdateAsset_ok hv hk hs
  rw [loadMruList_PutState_other stub k _ hne, hL] at hL2
  have hLL : L2 = L := by
    simp only [Prod.mk.injEq, and_true] at hL2
    exact (congrArg AssetMruList.list hL2).symm
  subst hLL
  obtain ⟨_, _, hgf, hpf, _, _⟩ := GetState_PutState_same stub k (jsonMarshalAssetState r).1 hp1
  have hg1 : (stub.PutState k (jsonMarshalAssetState r).1).1.getFault MRUKEY = none := by
    rw [hgf]; exact hg
  have hp3 : (stub.PutState k (jsonMarshalAssetState r).1).1.putFault MRUKEY = none := by
    rw [hpf]; exact hp2
  rw [newMruEntry_safe k t2 hsafe, take_ten_prepend] at hst
  constructor
  · rw [hst, (GetState_PutState_same _ MRUKEY _ hp3).2.2.1]; exact hg1
  · rw [hst]
    exact loadMruList_PutState_list _ _ hg1 hp3

/-- The list loaded after a sequence of successful calls. -/
theorem loadMruList_after_calls (calls : List (List String × Time × Time)) :
    ∀ (stub final : Stub) (L : List AssetUpdatedAt), stub.getFault MRUKEY = none →
      loadMruList stub = (⟨L⟩, none) →
      (∀ c ∈ calls, ∃ p k, validateInput c.1 = (p, none) ∧ p.assetID = some k ∧ k ≠ MRUKEY
        ∧ jsonSafe k) →
      runCalls stub calls = (final, none) →
      loadMruList final
        = (⟨calls.foldl (fun acc c => ((⟨callID c, c.2.2⟩ : AssetUpdatedAt) :: acc).take 10) L⟩,
            none) := by
  induction calls with
  | nil =>
    intro stub final L _ hL _ hrun
    simp only [runCalls, Prod.mk.injEq, and_true] at hrun
    subst hrun
    exact hL
  | cons c rest ih =>
    intro stub final L hg hL hvalid hrun
    obtain ⟨args, t1, t2⟩ := c
    obtain ⟨p, k, hv, hk, hne, hsafe⟩ := hvalid (args, t1, t2) (by simp)
    have hv2 : validateInput args = (p, none) := hv
    simp only [runCalls] at hrun
    cases hc : createOrUpdateAsset stub args t1 t2 with
    | mk s1 e1 =>
      rw [hc] at hrun
      cases e1 with
      | some e => simp at hrun
      | none =>
        simp only at hrun
        obtain ⟨hg1, hL1⟩ := loadMruList_after_call hv2 hk hne hsafe hg hL hc
        have hid : callID (args, t1, t2) = some k := by
          unfold callID
          rw [hv2]
          exact hk
        have := ih s1 final _ hg1 hL1 (fun c hc => hvalid c (by simp [hc])) hrun
        rw [this]
        simp only [List.foldl_cons, hid]

theorem foldl_take_ten {α β : Type} (f : β → α) (calls : List β) :
    ∀ L : List α, L.length ≤ 10 →
      calls.foldl (fun acc c => (f c :: acc).take 10) L
        = ((calls.map f).reverse ++ L).take 10 := by
  induction calls with
  | nil =>
    intro L hL
    simp only [List.foldl_nil, List.map_nil, List.reverse_nil, List.nil_append]
    rw [List.take_of_length_le hL]
  | cons c rest ih =>
    intro L _
    rw [List.foldl_cons, ih _ (by rw [List.length_take]; omega)]
    simp only [List.map_cons, List.reverse_cons, List.append_assoc, List.singleton_append]
    rw [List.take_append_eq_append_take, List.take_append_eq_append_take, List.take_take]
    congr 2
    omega

theorem PutState_ok (stub : Stub) (k v : String) (h : stub.putFault k = none) :
    stub.PutState k v = ((stub.PutState k v).1, none) :=
  Prod.ext rfl (GetState_PutState_same stub k v h).1

/-- A value read from a ledger whose read of the key reports no error. -/
theorem GetState_of_world (stub : Stub) (k v : String) (hw : stub.world k = some v) :
    (stub.GetState k).2.isSome ∨ (stub.GetState k).1 = v := by
  unfold Stub.GetState
  cases stub.getFault k with
  | some e => left; rfl
  | none => right; simp [hw]

theorem GetState_congr (s1 s2 : Stub) (k : String) (hg : s1.getFault = s2.getFault)
    (hw : s1.world k = s2.world k) : s1.GetState k = s2.GetState k := by
  unfold Stub.GetState
  rw [hg, hw]

/-- On a healthy ledger the store of a record under a key other than `MRUKEY`
succeeds and leaves a healthy ledger. -/
theorem storeAsset_healthy (stub : Stub) (k : String) (r : AssetState) (now2 : Time)
    (hh : healthy stub) (hne : k ≠ MRUKEY) :
    ∃ stub', storeAsset stub k r now2 = (stub', none) ∧ healthy stub' := by
  obtain ⟨hp, hg, hl, hrec⟩ := hh
  obtain ⟨_, hw1, hg1, hp1, _, hfr1⟩ :=
    GetState_PutState_same stub k (jsonMarshalAssetState r).1 (hp k)
  have hL : ∃ L, loadMruList (stub.PutState k (jsonMarshalAssetState r).1).1 = (⟨L⟩, none) := by
    rw [loadMruList_PutState_other stub k _ hne]
    cases hx : loadMruList stub with
    | mk m e =>
      rw [hx] at hl
      simp only at hl
      subst hl
      exact ⟨m.list, rfl⟩
  obtain ⟨L, hL⟩ := hL
  have h1 : storeAsset stub k r now2
      = updateMruList (stub.PutState k (jsonMarshalAssetState r).1).1 k now2 := by
    simp only [storeAsset, jsonMarshalAssetState, Stub.PutState, hp k]
  generalize (stub.PutState k (jsonMarshalAssetState r).1).1 = s1 at hw1 hg1 hp1 hfr1 hL h1
  have hpm : s1.putFault MRUKEY = none := by rw [hp1]; exact hp MRUKEY
  have hgm : s1.getFault MRUKEY = none := by rw [hg1]; exact hg
  have h2 := updateMruList_eq s1 k now2 L hL
  have hload := loadMruList_PutState_list s1
    ⟨(newMruEntry k now2 :: L).take (min (L.length + 1) 10)⟩ hgm hpm
  obtain ⟨_, _, hg2, hp2, _, hfr2⟩ := GetState_PutState_same s1 MRUKEY
    (jsonMarshalAssetMruList ⟨(newMruEntry k now2 :: L).take (min (L.length + 1) 10)⟩).1 hpm
  rw [PutState_ok s1 MRUKEY _ hpm] at h2
  simp only at h2
  generalize (s1.PutState MRUKEY
    (jsonMarshalAssetMruList ⟨(newMruEntry k now2 :: L).take (min (L.length + 1) 10)⟩).1).1 = s2
    at h2 hload hg2 hp2 hfr2
  refine ⟨s2, by rw [h1, h2], ?_, ?_, ?_, ?_⟩
  · intro key; rw [hp2, hp1]; exact hp key
  · rw [hg2, hg1]; exact hg
  · rw [hload]
  · intro k2 hk2
    by_cases hkk : k2 = k
    · subst hkk
      have hw : s2.world k2 = some (jsonMarshalAssetState r).1 := by rw [hfr2 k2 hk2, hw1]
      rcases GetState_of_world s2 k2 _ hw with h | h
      · exact Or.inl h
      · right; right
        rw [h, jsonUnmarshal_marshal_AssetState]
    · have hc : s2.GetState k2 = stub.GetState k2 :=
        GetState_congr s2 stub k2 (by rw [hg2, hg1]) (by rw [hfr2 k2 hk2, hfr1 k2 hkk])
      rw [hc]
      exact hrec k2 hk2

/-- On a healthy ledger a call with an accepted identifier other than `MRUKEY`
succeeds and leaves a healthy ledger. -/
theorem createOrUpdateAsset_healthy (stub : Stub) (args : List String) (t1 t2 : Time)
    {p : AssetState} {k : String} (hv : validateInput args = (p, none))
    (hk : p.assetID = some k) (hne : k ≠ MRUKEY) (hh : healthy stub) :
    ∃ stub', createOrUpdateAsset stub args t1 t2 = (stub', none) ∧ healthy stub' := by
  rw [createOrUpdateAsset_eq stub args t1 t2 hv hk]
  split_ifs with h
  · exact storeAsset_healthy stub k _ t2 hh hne
  · cases hu : jsonUnmarshalAssetState (stub.GetState k).1 with
    | mk e err =>
      cases err with
      | some x =>
        rcases hh.2.2.2 k hne with h1 | h1 | h1
        · exact absurd (Or.inl h1) h
        · exact absurd (Or.inr h1) h
        · rw [hu] at h1; simp at h1
      | none => exact storeAsset_healthy stub k _ t2 hh hne

/-- On a healthy ledger a sequence of calls with accepted identifiers other than
`MRUKEY` succeeds. -/
theorem runCalls_healthy (calls : List (List String × Time × Time)) :
    ∀ stub : Stub, healthy stub →
      (∀ c ∈ calls, ∃ p k, validateInput c.1 = (p, none) ∧ p.assetID = some k ∧ k ≠ MRUKEY
        ∧ jsonSafe k) →
      (runCalls stub calls).2 = none := by
  induction calls with
  | nil => intro stub _ _; rfl
  | cons c rest ih =>
    intro stub hh hvalid
    obtain ⟨args, t1, t2⟩ := c
    obtain ⟨p, k, hv, hk, hne, _⟩ := hvalid (args, t1, t2) (by simp)
    obtain ⟨s1, hs1, hh1⟩ := createOrUpdateAsset_healthy stub args t1 t2 hv hk hne hh
    simp only [runCalls, hs1]
    exact ih s1 hh1 (fun c hc => hvalid c (by simp [hc]))

theorem pair_of_snd_none {α β : Type} (x : α × Option β) (h : x.2 = none) : x = (x.1, none) := by
  obtain ⟨a, b⟩ := x
  simp only at h
  rw [h]

theorem healthy_emptyStub : healthy emptyStub := by
  refine ⟨fun _ => rfl, rfl, rfl, fun k _ => Or.inr (Or.inl rfl)⟩

/-- The calls `idCalls ids` are accepted with their identifiers when these are
not blank, have no surrounding white space, no quote, backslash or control
character, and are not `MRUKEY`. -/
theorem idCalls_valid (ids : List String)
    (h : ∀ aid ∈ ids, jsonSafe aid ∧ TrimSpace aid = aid ∧ aid ≠ "" ∧ aid ≠ MRUKEY) :
    (∀ c ∈ idCalls ids, ∃ p k, validateInput c.1 = (p, none) ∧ p.assetID = some k ∧ k ≠ MRUKEY
        ∧ jsonSafe k)
    ∧ (idCalls ids).map callID = ids.map some := by
  constructor
  · intro c hc
    unfold idCalls at hc
    obtain ⟨aid, hmem, rfl⟩ := List.mem_map.1 hc
    obtain ⟨h1, h2, h3, h4⟩ := h aid hmem
    exact ⟨_, aid, validateInput_idArg aid h1 h2 h3, rfl, h4, h1⟩
  · unfold idCalls
    rw [List.map_map]
    apply List.map_congr_left
    intro aid hmem
    obtain ⟨h1, h2, h3, _⟩ := h aid hmem
    simp only [Function.comp, callID, validateInput_idArg aid h1 h2 h3]

/-! ## Theorems: the stored records and the list, call by call -/

theorem decMru_encAsset (r : AssetState) : decMru (encAsset r) = (⟨[]⟩, none) := by
  obtain ⟨a, l, t, c, u⟩ := r
  cases a <;> cases l <;> cases t <;> cases c <;> cases u <;>
    simp only [encAsset, optMember, Option.map, decMru, decMruMembers, decMruMember,
      keyIs_mruList_assetID, keyIs_mruList_location, keyIs_mruList_temperature,
      keyIs_mruList_carrier, keyIs_mruList_updatedAt, Bool.false_eq_true, if_false]

/-- The text of a record, read as a list, is the empty list. -/
theorem loadMruList_of_record (stub : Stub) (r : AssetState)
    (hp : stub.putFault MRUKEY = none) :
    loadMruList (stub.PutState MRUKEY (jsonMarshalAssetState r).1).1 = (⟨[]⟩, none) := by
  have hlen := jsonMarshalAssetState_length r
  have hu : jsonUnmarshalAssetMruList (jsonMarshalAssetState r).1 = (⟨[]⟩, none) := by
    simp only [jsonUnmarshalAssetMruList, jsonMarshalAssetState, String.toList_mk,
      parseJSON_renderVal _ (encAsset_tagged r), decMru_encAsset]
  unfold loadMruList Stub.GetState Stub.PutState
  simp only [hp]
  cases hg : stub.getFault MRUKEY with
  | some e => simp
  | none =>
    simp only [if_true, Option.getD_some, Option.isSome_none, Bool.false_eq_true, false_or,
      hlen, if_false, hu]

/-- A successful call had an accepted argument. -/
theorem createOrUpdateAsset_accepted {stub stub' : Stub} {args : List String} {t1 t2 : Time}
    (hs : createOrUpdateAsset stub args t1 t2 = (stub', none)) :
    ∃ p k, validateInput args = (p, none) ∧ p.assetID = some k ∧ k ≠ "" := by
  cases hv : validateInput args with
  | mk p e =>
    cases e with
    | some x =>
      unfold createOrUpdateAsset at hs
      rw [hv] at hs
      simp at hs
    | none =>
      obtain ⟨k, hk, hne⟩ := validateInput_assetID hv
      exact ⟨p, k, rfl, hk, hne⟩

/-- Over a sequence of successful calls with identifiers other than `MRUKEY`, a
key other than `MRUKEY` keeps its value or comes to hold a record of that key,
and a key that holds a record of that key goes on holding one. -/
theorem runCalls_records (calls : List (List String × Time × Time)) :
    ∀ stub final : Stub, (∀ c ∈ calls, callID c ≠ some MRUKEY) →
      runCalls stub calls = (final, none) →
      ∀ key, key ≠ MRUKEY →
        (final.world key = stub.world key ∨ holdsRecordOf final key)
        ∧ (holdsRecordOf stub key → holdsRecordOf final key) := by
  induction calls with
  | nil =>
    intro stub final _ hrun key _
    simp only [runCalls, Prod.mk.injEq, and_true] at hrun
    subst hrun
    exact ⟨Or.inl rfl, fun h => h⟩
  | cons c rest ih =>
    intro stub final hids hrun key hkey
    obtain ⟨args, t1, t2⟩ := c
    simp only [runCalls] at hrun
    cases hc : createOrUpdateAsset stub args t1 t2 with
    | mk s1 e1 =>
      rw [hc] at hrun
      cases e1 with
      | some e => simp at hrun
      | none =>
        simp only at hrun
        obtain ⟨p, k, hv, hk, _⟩ := createOrUpdateAsset_accepted hc
        have hne : k ≠ MRUKEY := by
          intro h
          apply hids (args, t1, t2) (by simp)
          unfold callID
          rw [hv, ← h]
          exact hk
        obtain ⟨r, hw, f1, f2, _, _, _, _, hfr⟩ := ledger_after_call hv hk hne hc
        obtain ⟨ih1, ih2⟩ := ih s1 final (fun c hc => hids c (by simp [hc])) hrun key hkey
        have hrec : holdsRecordOf s1 k :=
          ⟨_, r, hw, jsonUnmarshal_marshal_AssetState r, f1, by rw [f2]; rfl⟩
        by_cases hkk : key = k
        · subst hkk
          exact ⟨Or.inr (ih2 hrec), fun _ => ih2 hrec⟩
        · have hsame : s1.world key = stub.world key := hfr key hkk hkey
          refine ⟨?_, ?_⟩
          · rcases ih1 with h | h
            · exact Or.inl (by rw [h, hsame])
            · exact Or.inr h
          · rintro ⟨b, r0, h1, h2, h3, h4⟩
            exact ih2 ⟨b, r0, by rw [hsame]; exact h1, h2, h3, h4⟩

/-- C7 (amended). After every successful createAsset or updateAsset call whose
validated identifier `k` is not `_MruListKey`, the value stored under `k` is the
text of an asset record whose assetID is `k`, not empty, and whose updatedAt is
set (to the clock reading of the call), and the values under all keys other than
`k` and `_MruListKey` are as before. Over every further sequence of successful
calls with identifiers other than `_MruListKey` the key `k` goes on holding a
record whose assetID is `k`, and every key other than `_MruListKey` either holds
the value it had before the first call or holds a record whose assetID is that
key and whose updatedAt is set. -/
theorem stored_record_invariant (stub stub' : Stub) (args : List String) (t1 t2 : Time)
    (p : AssetState) (k : String) (hv : validateInput args = (p, none))
    (hk : p.assetID = some k) (hne : k ≠ MRUKEY)
    (hs : createAsset stub args t1 t2 = (stub', none)
      ∨ updateAsset stub args t1 t2 = (stub', none)) :
    k ≠ ""
    ∧ (∃ bytes r, stub'.world k = some bytes ∧ jsonUnmarshalAssetState bytes = (r, none)
        ∧ r.assetID = some k ∧ r.updatedAt = some t1)
    ∧ (∀ k2, k2 ≠ k → k2 ≠ MRUKEY → stub'.world k2 = stub.world k2)
    ∧ (∀ (calls : List (List String × Time × Time)) (final : Stub),
        (∀ c ∈ calls, callID c ≠ some MRUKEY) → runCalls stub' calls = (final, none) →
        holdsRecordOf final k
        ∧ ∀ key, key ≠ MRUKEY → final.world key = stub.world key ∨ holdsRecordOf final key) := by
  have hs2 : createOrUpdateAsset stub args t1 t2 = (stub', none) := by
    rcases hs with h | h
    · rw [← createAsset_eq]; exact h
    · rw [← updateAsset_eq]; exact h
  obtain ⟨r, hw, f1, f2, _, _, _, _, hfr⟩ := ledger_after_call hv hk hne hs2
  obtain ⟨k0, hk0, hne0⟩ := validateInput_assetID hv
  have hkk : k0 = k := by rw [hk] at hk0; exact (Option.some.inj hk0).symm
  subst hkk
  have hrec : holdsRecordOf stub' k0 :=
    ⟨_, r, hw, jsonUnmarshal_marshal_AssetState r, f1, by rw [f2]; rfl⟩
  refine ⟨hne0, ⟨_, r, hw, jsonUnmarshal_marshal_AssetState r, f1, f2⟩, hfr, ?_⟩
  intro calls final hids hrun
  refine ⟨(runCalls_records calls stub' final hids hrun k0 hne).2 hrec, ?_⟩
  intro key hkey
  by_cases hkk : key = k0
  · subst hkk
    exact Or.inr ((runCalls_records calls stub' final hids hrun key hne).2 hrec)
  · rcases (runCalls_records calls stub' final hids hrun key hkey).1 with h | h
    · exact Or.inl (by rw [h, hfr key hkk hkey])
    · exact Or.inr h

/-- C7 (witness). On the ledger after a successful Init, the creation of
`{"assetID":"A1","carrier":"X"}`; then the calls for `A1` and `B2`: the version
record under `ContractStateKey` is as Init left it and the records under `A1`
and `B2` carry their keys. -/
theorem stored_record_invariant_witness :
    validateInput a1CarrierArg = (⟨some "A1", none, none, some "X", none⟩, none)
    ∧ (createAsset (Init emptyStub "init" versionArg).1 a1CarrierArg timeA timeB).2 = none
    ∧ ("A1" ≠ ""
      ∧ (∃ bytes r, (createAsset (Init emptyStub "init" versionArg).1 a1CarrierArg timeA
            timeB).1.world "A1" = some bytes
          ∧ jsonUnmarshalAssetState bytes = (r, none)
          ∧ r.assetID = some "A1" ∧ r.updatedAt = some timeA)
      ∧ (∀ k2, k2 ≠ "A1" → k2 ≠ MRUKEY →
          (createAsset (Init emptyStub "init" versionArg).1 a1CarrierArg timeA timeB).1.world k2
            = (Init emptyStub "init" versionArg).1.world k2)
      ∧ (∀ (calls : List (List String × Time × Time)) (final : Stub),
          (∀ c ∈ calls, callID c ≠ some MRUKEY) →
          runCalls (createAsset (Init emptyStub "init" versionArg).1 a1CarrierArg timeA timeB).1
            calls = (final, none) →
          holdsRecordOf final "A1"
          ∧ ∀ key, key ≠ MRUKEY →
              final.world key = (Init emptyStub "init" versionArg).1.world key
              ∨ holdsRecordOf final key))
    ∧ (∀ c ∈ idCalls ["A1", "B2"], callID c ≠ some MRUKEY)
    ∧ (runCalls (createAsset (Init emptyStub "init" versionArg).1 a1CarrierArg timeA timeB).1
        (idCalls ["A1", "B2"])).2 = none
    ∧ (runCalls (createAsset (Init emptyStub "init" versionArg).1 a1CarrierArg timeA timeB).1
        (idCalls ["A1", "B2"])).1.world "A1"
        = some "\x7b\"assetID\":\"A1\",\"carrier\":\"X\",\"updatedAt\":\"2016-05-01T12:00:00Z\"\x7d"
    ∧ (runCalls (createAsset (Init emptyStub "init" versionArg).1 a1CarrierArg timeA timeB).1
        (idCalls ["A1", "B2"])).1.world "ContractStateKey" = some "\x7b\"version\":\"1.0\"\x7d" :=
  ⟨by decide, by decide,
    stored_record_invariant (Init emptyStub "init" versionArg).1
      (createAsset (Init emptyStub "init" versionArg).1 a1CarrierArg timeA timeB).1 a1CarrierArg
      timeA timeB ⟨some "A1", none, none, some "X", none⟩ "A1" (by decide) rfl (by decide)
      (Or.inl (pair_of_snd_none _ (by decide))),
    by decide, by decide!, by decide!, by decide!⟩

/-- C8 (counterexample). The ledger after the creation of `A1` holds the list
with the entry of `A1`. A successful call with the identifier `_MruListKey`
writes a list with its own entry only, not the first two elements of the new
entry before the stored list. On a ledger that holds a list with an entry of
`B2` and whose read of the list reports an error, a successful call for `A1`
writes a list with the entry of `A1` only. -/
theorem list_step_of_list_key :
    (loadMruList (createAsset emptyStub (idArg "A1") timeA timeA).1).1.list
        = [⟨some "A1", timeA⟩]
    ∧ (validateInput (idArg "_MruListKey")).1.assetID = some "_MruListKey"
    ∧ (createOrUpdateAsset (createAsset emptyStub (idArg "A1") timeA timeA).1
        (idArg "_MruListKey") timeB timeB).2 = none
    ∧ (createOrUpdateAsset (createAsset emptyStub (idArg "A1") timeA timeA).1
        (idArg "_MruListKey") timeB timeB).1.world "_MruListKey"
        = some ("\x7b\"mruList\":[\x7b\"assetID\":\"_MruListKey\","
            ++ "\"updatedAt\":\"2016-05-01T12:00:01Z\"\x7d]\x7d")
    ∧ (jsonUnmarshalAssetMruList ("\x7b\"mruList\":[\x7b\"assetID\":\"_MruListKey\","
            ++ "\"updatedAt\":\"2016-05-01T12:00:01Z\"\x7d]\x7d")).1.list
        = [⟨some "_MruListKey", timeB⟩]
    ∧ [(⟨some "_MruListKey", timeB⟩ : AssetUpdatedAt)]
        ≠ ((⟨some "_MruListKey", timeB⟩ : AssetUpdatedAt) :: [⟨some "A1", timeA⟩]).take
            (min (1 + 1) 10)
    ∧ (jsonUnmarshalAssetMruList ((unreadableListStub.world "_MruListKey").getD "")).1.list
        = [⟨some "B2", time1999⟩]
    ∧ (createOrUpdateAsset unreadableListStub (idArg "A1") timeA timeB).2 = none
    ∧ (jsonUnmarshalAssetMruList (((createOrUpdateAsset unreadableListStub (idArg "A1") timeA
        timeB).1.world "_MruListKey").getD "")).1.list = [⟨some "A1", timeB⟩] := by
  refine ⟨by decide, by decide, by decide, by decide, by decide, by decide, by decide, by decide,
    by decide⟩

/-- C8 (amended). For an identifier `k` other than `_MruListKey`, with `L` the
list that the read of `_MruListKey` gives (the stored list when the value is
read without error, is not empty and unmarshals; the empty list on a read error
and on a missing or empty value): the list written by a successful
createOrUpdateAsset is the first `min(len(L)+1, 10)` elements of
`newEntry :: L`, that is the new entry followed by a beginning of `L`, and it is
what the stored text unmarshals to. The new entry carries the second clock
reading, and the identifier `k` when `k` has no quote, backslash or control
character. -/
theorem recency_index_step (stub stub' : Stub) (args : List String) (now1 now2 : Time)
    (p : AssetState) (k : String) (hv : validateInput args = (p, none))
    (hk : p.assetID = some k) (hne : k ≠ MRUKEY)
    (hs : createOrUpdateAsset stub args now1 now2 = (stub', none)) :
    ∃ L : List AssetUpdatedAt,
      loadMruList stub = (⟨L⟩, none)
      ∧ ((stub.GetState MRUKEY).2.isSome ∨ (stub.GetState MRUKEY).1.length = 0 → L = [])
      ∧ (∀ bytes, stub.getFault MRUKEY = none → stub.world MRUKEY = some bytes → bytes ≠ "" →
          jsonUnmarshalAssetMruList bytes = (⟨L⟩, none))
      ∧ stub'.world MRUKEY = some (jsonMarshalAssetMruList
          ⟨(newMruEntry k now2 :: L).take (min (L.length + 1) 10)⟩).1
      ∧ (jsonUnmarshalAssetMruList (jsonMarshalAssetMruList
          ⟨(newMruEntry k now2 :: L).take (min (L.length + 1) 10)⟩).1).1.list
          = (newMruEntry k now2 :: L).take (min (L.length + 1) 10)
      ∧ (newMruEntry k now2 :: L).take (min (L.length + 1) 10)
          = newMruEntry k now2 :: L.take (min L.length 9)
      ∧ L.take (min L.length 9) <+: L
      ∧ (newMruEntry k now2).updatedAt = now2
      ∧ (jsonSafe k → newMruEntry k now2 = ⟨some k, now2⟩) := by
  obtain ⟨r, L, _, hp1, hp2, hL, hst⟩ := createOrUpdateAsset_ok hv hk hs
  rw [loadMruList_PutState_other stub k (jsonMarshalAssetState r).1 hne] at hL
  refine ⟨L, hL, ?_, ?_, ?_, ?_, take_prepend _ _, List.take_prefix _ _, rfl,
    newMruEntry_safe k now2⟩
  · intro h
    unfold loadMruList at hL
    rw [if_pos h] at hL
    simp only [Prod.mk.injEq, and_true] at hL
    exact (congrArg AssetMruList.list hL).symm
  · intro bytes hf hw hb
    obtain ⟨hg, hn⟩ := GetState_present stub MRUKEY bytes hf hw hb
    unfold loadMruList at hL
    rw [if_neg hn, hg] at hL
    exact hL
  · rw [hst]
    have hp3 : (stub.PutState k (jsonMarshalAssetState r).1).1.putFault MRUKEY = none := by
      rw [(GetState_PutState_same stub k _ hp1).2.2.2.1]; exact hp2
    exact (GetState_PutState_same _ MRUKEY _ hp3).2.1
  · rw [jsonUnmarshal_marshal_AssetMruList]

/-- C8 (witness). The update `{"assetID":"A1","carrier":"X"}` after the creation of
`A1` on an empty ledger: the list has the new entry before the old one. -/
theorem recency_index_step_witness :
    validateInput a1CarrierArg = (⟨some "A1", none, none, some "X", none⟩, none)
    ∧ (createOrUpdateAsset (createAsset emptyStub (idArg "A1") timeA timeA).1 a1CarrierArg timeB
          timeB).2 = none
    ∧ (∃ L : List AssetUpdatedAt,
        loadMruList (createAsset emptyStub (idArg "A1") timeA timeA).1 = (⟨L⟩, none)
        ∧ (((createAsset emptyStub (idArg "A1") timeA timeA).1.GetState MRUKEY).2.isSome
            ∨ ((createAsset emptyStub (idArg "A1") timeA timeA).1.GetState MRUKEY).1.length = 0 →
            L = [])
        ∧ (∀ bytes, (createAsset emptyStub (idArg "A1") timeA timeA).1.getFault MRUKEY = none →
            (createAsset emptyStub (idArg "A1") timeA timeA).1.world MRUKEY = some bytes →
            bytes ≠ "" → jsonUnmarshalAssetMruList bytes = (⟨L⟩, none))
        ∧ (createOrUpdateAsset (createAsset emptyStub (idArg "A1") timeA timeA).1 a1CarrierArg timeB
            timeB).1.world MRUKEY = some (jsonMarshalAssetMruList
              ⟨(newMruEntry "A1" timeB :: L).take (min (L.length + 1) 10)⟩).1
        ∧ (jsonUnmarshalAssetMruList (jsonMarshalAssetMruList
            ⟨(newMruEntry "A1" timeB :: L).take (min (L.length + 1) 10)⟩).1).1.list
            = (newMruEntry "A1" timeB :: L).take (min (L.length + 1) 10)
        ∧ (newMruEntry "A1" timeB :: L).take (min (L.length + 1) 10)
            = newMruEntry "A1" timeB :: L.take (min L.length 9)
        ∧ L.take (min L.length 9) <+: L
        ∧ (newMruEntry "A1" timeB).updatedAt = timeB
        ∧ (jsonSafe "A1" → newMruEntry "A1" timeB = ⟨some "A1", timeB⟩))
    ∧ (jsonUnmarshalAssetMruList (((createOrUpdateAsset
          (createAsset emptyStub (idArg "A1") timeA timeA).1 a1CarrierArg timeB timeB).1.world
            MRUKEY).getD "")).1.list
        = [⟨some "A1", timeB⟩, ⟨some "A1", timeA⟩] :=
  ⟨by decide, by decide,
    recency_index_step (createAsset emptyStub (idArg "A1") timeA timeA).1
      (createOrUpdateAsset (createAsset emptyStub (idArg "A1") timeA timeA).1 a1CarrierArg timeB
        timeB).1 a1CarrierArg timeB timeB ⟨some "A1", none, none, some "X", none⟩ "A1"
      (by decide) rfl (by decide) (pair_of_snd_none _ (by decide)),
    by decide⟩

/-- No error text of a put is the text of a run-time panic. -/
theorem put_error_ne_panic (e : String) : "PUT ledger state failed: " ++ e ≠ panicText := by
  intro h
  have h2 := congrArg String.toList h
  rw [String.toList_append] at h2
  have h3 := congrArg List.head? h2
  have h4 : ("PUT ledger state failed: ".toList ++ e.toList).head? = some 'P' := rfl
  have h5 : panicText.toList.head? = some 'p' := rfl
  rw [h4, h5] at h3
  exact absurd h3 (by decide)

/-- The list step never ends in a run-time panic. -/
theorem updateMruList_no_panic (stub : Stub) (k : String) (now : Time) :
    (updateMruList stub k now).2 ≠ some panicText := by
  cases hl : loadMruList stub with
  | mk m e =>
    cases e with
    | some x =>
      unfold updateMruList
      rw [hl]
      intro h
      have h2 : some "Unable to unmarshal JSON data for mruList" = some panicText := h
      exact absurd h2 (by decide)
    | none =>
      obtain ⟨L⟩ := m
      rw [updateMruList_eq stub k now L hl]
      cases hp : stub.putFault MRUKEY with
      | some x =>
        rw [PutState_fault stub MRUKEY _ x hp]
        intro h
        exact put_error_ne_panic x (Option.some.inj h)
      | none =>
        rw [PutState_ok stub MRUKEY _ hp]
        simp

/-- The store never ends in a run-time panic. -/
theorem storeAsset_no_panic (stub : Stub) (k : String) (r : AssetState) (now2 : Time) :
    (storeAsset stub k r now2).2 ≠ some panicText := by
  cases hp : stub.putFault k with
  | some x =>
    simp only [storeAsset, jsonMarshalAssetState, PutState_fault stub k _ x hp]
    intro h
    exact put_error_ne_panic x (Option.some.inj h)
  | none =>
    have hs : storeAsset stub k r now2
        = updateMruList (stub.PutState k (jsonMarshalAssetState r).1).1 k now2 := by
      simp only [storeAsset, jsonMarshalAssetState, Stub.PutState, hp]
    rw [hs]
    exact updateMruList_no_panic _ k now2

/-- C9 (counterexample). The ledger after the creation of `A1` holds a list of one
entry. A successful call with the identifier `_MruListKey` writes a list of one
entry, not of `min(1+1, 10) = 2`. -/
theorem index_length_of_list_key :
    (loadMruList (createAsset emptyStub (idArg "A1") timeA timeB).1).1.list.length = 1
    ∧ (createOrUpdateAsset (createAsset emptyStub (idArg "A1") timeA timeB).1
        (idArg "_MruListKey") timeA timeB).2 = none
    ∧ (jsonUnmarshalAssetMruList (((createOrUpdateAsset
        (createAsset emptyStub (idArg "A1") timeA timeB).1 (idArg "_MruListKey") timeA
          timeB).1.world "_MruListKey").getD "")).1.list.length = 1
    ∧ (1 : Nat) ≠ min (1 + 1) 10 := by
  refine ⟨by decide, by decide, by decide, by decide⟩

/-- C9 (amended). For every length `n` the slice bound `minInt(n+1, 10)` lies
between 0 and the length `n+1` of the prepended list, the slice has
`min(n+1, 10)` elements, at most ten, and no call ends in a run-time panic. A
successful createOrUpdateAsset writes under `_MruListKey` the text of a list of
at most ten entries; for an identifier other than `_MruListKey` its length is
`min(n+1, 10)` with `n` the length of the list that the read of `_MruListKey`
gave (any `n`, also above ten); for the identifier `_MruListKey` it is 1. -/
theorem index_at_most_ten (stub stub' : Stub) (args : List String) (now1 now2 : Time)
    (hs : createOrUpdateAsset stub args now1 now2 = (stub', none)) :
    (∀ (e : AssetUpdatedAt) (L : List AssetUpdatedAt),
      0 ≤ minInt ((L.length : Int) + 1) 10
      ∧ minInt ((L.length : Int) + 1) 10 ≤ ((e :: L).length : Int)
      ∧ ∃ newList, sliceTo (e :: L) (minInt ((L.length : Int) + 1) 10) = some newList
          ∧ newList.length = min (L.length + 1) 10 ∧ newList.length ≤ 10)
    ∧ (∀ (s : Stub) (a : List String) (t1 t2 : Time),
        (createOrUpdateAsset s a t1 t2).2 ≠ some panicText)
    ∧ ∃ (k : String) (newList : List AssetUpdatedAt),
        (validateInput args).1.assetID = some k
        ∧ stub'.world MRUKEY = some (jsonMarshalAssetMruList ⟨newList⟩).1
        ∧ (jsonUnmarshalAssetMruList (jsonMarshalAssetMruList ⟨newList⟩).1).1.list = newList
        ∧ newList.length ≤ 10
        ∧ (k ≠ MRUKEY → newList.length = min ((loadMruList stub).1.list.length + 1) 10)
        ∧ (k = MRUKEY → newList.length = 1) := by
  refine ⟨?_, ?_, ?_⟩
  · intro e L
    refine ⟨?_, ?_, _, sliceTo_minInt e L, ?_, ?_⟩
    · unfold minInt
      split_ifs <;> omega
    · unfold minInt
      simp only [List.length_cons, Nat.cast_add, Nat.cast_one]
      split_ifs <;> omega
    · rw [List.length_take, List.length_cons]; omega
    · rw [List.length_take, List.length_cons]; omega
  · intro s a t1 t2
    cases hv : validateInput a with
    | mk p e =>
      cases e with
      | some x =>
        have hx : x ≠ panicText := by
          unfold validateInput at hv
          split at hv
          · split at hv
            · simp only [Prod.mk.injEq, Option.some.injEq] at hv
              rw [← hv.2]; decide
            · split at hv
              · dsimp only at hv
                split_ifs at hv
                · simp only [Prod.mk.injEq, Option.some.injEq] at hv
                  rw [← hv.2]; decide
                · simp at hv
              · simp only [Prod.mk.injEq, Option.some.injEq] at hv
                rw [← hv.2]; decide
          · simp only [Prod.mk.injEq, Option.some.injEq] at hv
            rw [← hv.2]; decide
        unfold createOrUpdateAsset
        rw [hv]
        intro h
        exact hx (Option.some.inj h)
      | none =>
        obtain ⟨k, hk, _⟩ := validateInput_assetID hv
        rw [createOrUpdateAsset_eq s a t1 t2 hv hk]
        split_ifs with hc
        · exact storeAsset_no_panic s k _ t2
        · cases hu : jsonUnmarshalAssetState (s.GetState k).1 with
          | mk r e =>
            cases e with
            | some x =>
              intro h
              have h2 : some "Unable to unmarshal JSON data from stub" = some panicText := h
              exact absurd h2 (by decide)
            | none => exact storeAsset_no_panic s k _ t2
  · obtain ⟨p, k, hv, hk, _⟩ := createOrUpdateAsset_accepted hs
    obtain ⟨r, L, _, hp1, hp2, hL, hst⟩ := createOrUpdateAsset_ok hv hk hs
    have hp3 : (stub.PutState k (jsonMarshalAssetState r).1).1.putFault MRUKEY = none := by
      rw [(GetState_PutState_same stub k _ hp1).2.2.2.1]; exact hp2
    refine ⟨k, (newMruEntry k now2 :: L).take (min (L.length + 1) 10), by rw [hv]; exact hk,
      ?_, ?_, ?_, ?_, ?_⟩
    · rw [hst]
      exact (GetState_PutState_same _ MRUKEY _ hp3).2.1
    · rw [jsonUnmarshal_marshal_AssetMruList]
    · rw [List.length_take, List.length_cons]; omega
    · intro hne
      rw [loadMruList_PutState_other stub k _ hne] at hL
      rw [hL, List.length_take, List.length_cons]
      show min (min (L.length + 1) 10) (L.length + 1) = min (L.length + 1) 10
      omega
    · intro he
      subst he
      rw [loadMruList_of_record stub r hp1] at hL
      simp only [Prod.mk.injEq, and_true] at hL
      have hLL : L = [] := (congrArg AssetMruList.list hL).symm
      subst hLL
      rfl

/-- C9 (witness). The update of `A1` after its creation on an empty ledger: the
list had one entry and has two. -/
theorem index_at_most_ten_witness :
    (createOrUpdateAsset (createAsset emptyStub (idArg "A1") timeA timeB).1 a1CarrierArg timeA
        timeB).2 = none
    ∧ (loadMruList (createAsset emptyStub (idArg "A1") timeA timeB).1).1.list.length = 1
    ∧ (jsonUnmarshalAssetMruList (((createOrUpdateAsset
        (createAsset emptyStub (idArg "A1") timeA timeB).1 a1CarrierArg timeA
          timeB).1.world "_MruListKey").getD "")).1.list.length = 2
    ∧ ∃ (k : String) (newList : List AssetUpdatedAt),
        (validateInput a1CarrierArg).1.assetID = some k
        ∧ (createOrUpdateAsset (createAsset emptyStub (idArg "A1") timeA timeB).1 a1CarrierArg
            timeA timeB).1.world MRUKEY = some (jsonMarshalAssetMruList ⟨newList⟩).1
        ∧ (jsonUnmarshalAssetMruList (jsonMarshalAssetMruList ⟨newList⟩).1).1.list = newList
        ∧ newList.length ≤ 10
        ∧ (k ≠ MRUKEY → newList.length
            = min ((loadMruList (createAsset emptyStub (idArg "A1") timeA timeB).1).1.list.length
                + 1) 10)
        ∧ (k = MRUKEY → newList.length = 1) :=
  ⟨by decide, by decide, by decide!,
    (index_at_most_ten (createAsset emptyStub (idArg "A1") timeA timeB).1
      (createOrUpdateAsset (createAsset emptyStub (idArg "A1") timeA timeB).1 a1CarrierArg timeA
        timeB).1 a1CarrierArg timeA timeB (pair_of_snd_none _ (by decide))).2.2⟩

/-! ## Theorems: sequences of calls -/

/-- C10 (counterexample). From an empty ledger, two successful calls with the
valid identifiers `A1` and `_MruListKey`: the stored list holds the single
identifier `_MruListKey`, not the two identifiers newest first. -/
theorem index_after_list_key_call :
    (runCalls emptyStub (idCalls ["A1", "_MruListKey"])).2 = none
    ∧ (idCalls ["A1", "_MruListKey"]).map callID = [some "A1", some "_MruListKey"]
    ∧ (loadMruList (runCalls emptyStub (idCalls ["A1", "_MruListKey"])).1).1.list.map
        AssetUpdatedAt.assetID = [some "_MruListKey"]
    ∧ (loadMruList (runCalls emptyStub (idCalls ["A1", "_MruListKey"])).1).1.list.map
        AssetUpdatedAt.assetID
      ≠ (((idCalls ["A1", "_MruListKey"]).map callID).reverse).take (min 2 10) := by
  refine ⟨by decide, by decide, by decide, by decide⟩

/-- C10 (amended). Starting from a ledger with no list of recent updates whose
read of `_MruListKey` reports no error, after a sequence of successful
create/update calls whose validated identifiers are not `_MruListKey` and contain
no double quote, backslash or control character, the identifiers in the stored
list are the first `min(n, 10)` elements of the reversed sequence of
identifiers: most recent first, in invocation order, repeated identifiers kept. -/
theorem index_after_calls (stub final : Stub) (calls : List (List String × Time × Time))
    (h0 : stub.GetState MRUKEY = ("", none))
    (hvalid : ∀ c ∈ calls, ∃ p k, validateInput c.1 = (p, none) ∧ p.assetID = some k
      ∧ k ≠ MRUKEY ∧ jsonSafe k)
    (hrun : runCalls stub calls = (final, none)) :
    (loadMruList final).2 = none
    ∧ (loadMruList final).1.list.map AssetUpdatedAt.assetID
      = ((calls.map callID).reverse).take (min calls.length 10) := by
  have hg : stub.getFault MRUKEY = none := by
    unfold Stub.GetState at h0
    cases hf : stub.getFault MRUKEY with
    | none => rfl
    | some e => rw [hf] at h0; simp at h0
  have hL : loadMruList stub = (⟨[]⟩, none) := by
    unfold loadMruList
    rw [h0]
    rfl
  have h := loadMruList_after_calls calls stub final [] hg hL hvalid hrun
  rw [h]
  refine ⟨rfl, ?_⟩
  simp only
  rw [foldl_take_ten (fun c : List String × Time × Time => (⟨callID c, c.2.2⟩ : AssetUpdatedAt))
    calls [] (by simp)]
  rw [List.append_nil, List.map_take, List.map_reverse, List.map_map]
  have hc : (AssetUpdatedAt.assetID ∘ fun c : List String × Time × Time =>
      (⟨callID c, c.2.2⟩ : AssetUpdatedAt)) = callID := rfl
  rw [hc]
  have hlen : ((calls.map callID).reverse).length = calls.length := by simp
  by_cases hle : calls.length ≤ 10
  · rw [min_eq_left hle, List.take_of_length_le (by omega), List.take_of_length_le (by omega)]
  · rw [min_eq_right (by omega)]

/-- C10 (witness). Fifteen updates to the fifteen distinct identifiers `A1` to
`A15` on an empty ledger all succeed and leave the last ten identifiers, newest
first. -/
theorem index_after_calls_witness :
    (runCalls emptyStub (idCalls ids15)).2 = none
    ∧ (idCalls ids15).map callID = ids15.map some
    ∧ (loadMruList (runCalls emptyStub (idCalls ids15)).1).2 = none
    ∧ (loadMruList (runCalls emptyStub (idCalls ids15)).1).1.list.map AssetUpdatedAt.assetID
      = [some "A15", some "A14", some "A13", some "A12", some "A11", some "A10", some "A9",
          some "A8", some "A7", some "A6"] :=
  have hids : ∀ aid ∈ ids15, jsonSafe aid ∧ TrimSpace aid = aid ∧ aid ≠ "" ∧ aid ≠ MRUKEY := by
    decide
  have hrun : (runCalls emptyStub (idCalls ids15)).2 = none :=
    runCalls_healthy (idCalls ids15) emptyStub healthy_emptyStub (idCalls_valid ids15 hids).1
  have h := index_after_calls emptyStub (runCalls emptyStub (idCalls ids15)).1 (idCalls ids15)
    rfl (idCalls_valid ids15 hids).1 (pair_of_snd_none _ hrun)
  ⟨hrun, (idCalls_valid ids15 hids).2, h.1,
    h.2.trans (by rw [(idCalls_valid ids15 hids).2]; decide)⟩

/-! ## Theorems: the entry of the list -/

/-- C11 (the code at the failing input). The argument `{"assetID":"a\"b"}` is
accepted with the identifier `a"b`; the entry text `{"assetID":"a"b"}` does not
parse, the error is dropped, and the entry that a successful call prepends has
no assetID. For the accepted identifier `a\b` the entry carries another
identifier, `a` followed by a backspace. -/
theorem entry_of_quoted_identifier :
    (validateInput quoteArg).2 = none
    ∧ (validateInput quoteArg).1.assetID = some "a\"b"
    ∧ (jsonUnmarshalAssetUpdatedAt "\x7b\"assetID\":\"a\"b\"\x7d").2 = some syntaxError
    ∧ (newMruEntry "a\"b" timeB).assetID = none
    ∧ (createOrUpdateAsset emptyStub quoteArg timeA timeB).2 = none
    ∧ (loadMruList (createOrUpdateAsset emptyStub quoteArg timeA timeB).1).1.list
        = [⟨none, timeB⟩]
    ∧ (validateInput backslashArg).1.assetID = some "a\\b"
    ∧ (newMruEntry "a\\b" timeB).assetID = some (String.mk ['a', Char.ofNat 8]) := by
  refine ⟨by decide, by decide, by decide, by decide, by decide, by decide, by decide, by decide⟩

/-- C12 (counterexample). A call whose two clock readings differ: the record
stored has the first reading as updatedAt, the entry prepended to the list has
the second. -/
theorem entry_timestamp_differs :
    (createOrUpdateAsset emptyStub (idArg "A1") timeA timeB).2 = none
    ∧ (createOrUpdateAsset emptyStub (idArg "A1") timeA timeB).1.world "A1"
        = some "\x7b\"assetID\":\"A1\",\"updatedAt\":\"2016-05-01T12:00:00Z\"\x7d"
    ∧ (jsonUnmarshalAssetState
        "\x7b\"assetID\":\"A1\",\"updatedAt\":\"2016-05-01T12:00:00Z\"\x7d").1.updatedAt
        = some timeA
    ∧ (loadMruList (createOrUpdateAsset emptyStub (idArg "A1") timeA timeB).1).1.list
        = [⟨some "A1", timeB⟩]
    ∧ timeB ≠ timeA := by
  refine ⟨by decide, by decide, by decide, by decide, by decide⟩

/-- C12 (amended). For every successful createOrUpdateAsset call the record put
under the identifier has the first clock reading of the call as updatedAt and
the entry prepended to the list has the second; the two timestamps are equal
exactly when the two readings are. -/
theorem entry_timestamp (stub stub' : Stub) (args : List String) (now1 now2 : Time)
    (p : AssetState) (k : String) (hv : validateInput args = (p, none))
    (hk : p.assetID = some k) (hs : createOrUpdateAsset stub args now1 now2 = (stub', none)) :
    ∃ (r : AssetState) (L : List AssetUpdatedAt),
      stub' = ((stub.PutState k (jsonMarshalAssetState r).1).1.PutState MRUKEY
          (jsonMarshalAssetMruList ⟨newMruEntry k now2 :: L.take (min L.length 9)⟩).1).1
      ∧ r.updatedAt = some now1
      ∧ (newMruEntry k now2).updatedAt = now2
      ∧ (r.updatedAt = some (newMruEntry k now2).updatedAt ↔ now1 = now2) := by
  obtain ⟨r, L, hbr, _, _, _, hst⟩ := createOrUpdateAsset_ok hv hk hs
  have hf : ∃ existing, r = { p with updatedAt := some now1 }
      ∨ r = { (mergePartialState existing p).1 with updatedAt := some now1 } := by
    rcases hbr with ⟨_, h⟩ | ⟨_, e, _, h⟩
    · exact ⟨p, Or.inl h⟩
    · exact ⟨e, Or.inr h⟩
  obtain ⟨existing, hf⟩ := hf
  obtain ⟨_, f2, _⟩ := stored_fields hk hf
  rw [take_prepend] at hst
  refine ⟨r, L, hst, f2, rfl, ?_⟩
  rw [f2]
  show some now1 = some now2 ↔ now1 = now2
  exact ⟨fun h => Option.some.inj h, fun h => by rw [h]⟩

/-- C12 (witness). The call `{"assetID":"A1"}` on an empty ledger with the clock
readings `timeA` and `timeB`. -/
theorem entry_timestamp_witness :
    validateInput (idArg "A1") = (⟨some "A1", none, none, none, none⟩, none)
    ∧ (createOrUpdateAsset emptyStub (idArg "A1") timeA timeB).2 = none
    ∧ ∃ (r : AssetState) (L : List AssetUpdatedAt),
      (createOrUpdateAsset emptyStub (idArg "A1") timeA timeB).1
        = ((emptyStub.PutState "A1" (jsonMarshalAssetState r).1).1.PutState MRUKEY
          (jsonMarshalAssetMruList ⟨newMruEntry "A1" timeB :: L.take (min L.length 9)⟩).1).1
      ∧ r.updatedAt = some timeA
      ∧ (newMruEntry "A1" timeB).updatedAt = timeB
      ∧ (r.updatedAt = some (newMruEntry "A1" timeB).updatedAt ↔ timeA = timeB) :=
  ⟨by decide, by decide,
    entry_timestamp emptyStub (createOrUpdateAsset emptyStub (idArg "A1") timeA timeB).1
      (idArg "A1") timeA timeB ⟨some "A1", none, none, none, none⟩ "A1" (by decide) rfl
      (pair_of_snd_none _ (by decide))⟩

/-! ## Theorems: validateInput -/

/-- What `dropSpace` drops is white space, and what it leaves does not start with
white space. -/
theorem dropSpace_spec (l : List Char) :
    ∃ pre, l = pre ++ dropSpace l ∧ pre.all isSpace = true
      ∧ ∀ c ∈ (dropSpace l).head?, isSpace c = false := by
  induction l with
  | nil => exact ⟨[], rfl, rfl, by simp [dropSpace]⟩
  | cons a l ih =>
    by_cases ha : isSpace a = true
    · obtain ⟨pre, h1, h2, h3⟩ := ih
      refine ⟨a :: pre, ?_, ?_, ?_⟩
      · simp only [dropSpace, ha, if_true, List.cons_append]
        rw [← h1]
      · simp only [List.all_cons, ha, h2, Bool.and_self]
      · simpa only [dropSpace, ha, if_true] using h3
    · refine ⟨[], ?_, rfl, ?_⟩
      · simp only [dropSpace, ha, List.nil_append, Bool.false_eq_true, if_false]
      · simp only [dropSpace, ha, Bool.false_eq_true, if_false, List.head?_cons,
          Option.mem_def, Option.some.injEq]
        intro c hc
        subst hc
        simpa using ha

/-- `TrimSpace` removes a run of white space at each end and leaves a string that
neither starts nor ends with white space. -/
theorem TrimSpace_spec (s : String) :
    (∃ pre post, s.toList = pre ++ (TrimSpace s).toList ++ post
      ∧ pre.all isSpace = true ∧ post.all isSpace = true)
    ∧ (∀ c ∈ (TrimSpace s).toList.head?, isSpace c = false)
    ∧ (∀ c ∈ (TrimSpace s).toList.getLast?, isSpace c = false) := by
  obtain ⟨pre, h1, h2, h3⟩ := dropSpace_spec s.toList
  obtain ⟨pre2, k1, k2, k3⟩ := dropSpace_spec (dropSpace s.toList).reverse
  have ht : (TrimSpace s).toList = (dropSpace (dropSpace s.toList).reverse).reverse := rfl
  have hd : dropSpace s.toList = (TrimSpace s).toList ++ pre2.reverse := by
    rw [ht]
    have := congrArg List.reverse k1
    rw [List.reverse_reverse, List.reverse_append] at this
    exact this
  refine ⟨⟨pre, pre2.reverse, ?_, h2, ?_⟩, ?_, ?_⟩
  · rw [List.append_assoc, ← hd]; exact h1
  · rw [List.all_reverse]; exact k2
  · intro c hc
    apply h3 c
    rw [hd]
    cases hx : (TrimSpace s).toList with
    | nil => rw [hx] at hc; simp at hc
    | cons a r =>
      rw [hx] at hc
      simpa using hc
  · intro c hc
    apply k3 c
    rw [ht, List.getLast?_reverse] at hc
    exact hc

/-- C13. validateInput succeeds exactly when it is given one argument that
unmarshals without error into a record whose assetID is present and not empty
after trimming; whenever it fails, the record it returns is the empty record. -/
theorem validateInput_succeeds_iff (args : List String) :
    ((validateInput args).2 = none ↔
      ∃ j, args = [j] ∧ (jsonUnmarshalAssetState j).2 = none
        ∧ ∃ id, (jsonUnmarshalAssetState j).1.assetID = some id ∧ TrimSpace id ≠ "")
    ∧ ((validateInput args).2 ≠ none → (validateInput args).1 = AssetState.empty)
    ∧ (args.length ≠ 1 → validateInput args = (AssetState.empty,
        some "Incorrect number of arguments. Expecting a JSON strings with mandatory assetID"))
    ∧ (∀ j, (jsonUnmarshalAssetState j).2 ≠ none →
        validateInput [j] = (AssetState.empty, some "Unable to unmarshal input JSON data"))
    ∧ (∀ j, (jsonUnmarshalAssetState j).2 = none → (jsonUnmarshalAssetState j).1.assetID = none →
        validateInput [j]
          = (AssetState.empty, some "Asset id is mandatory in the input JSON data"))
    ∧ (∀ j id, (jsonUnmarshalAssetState j).2 = none →
        (jsonUnmarshalAssetState j).1.assetID = some id → TrimSpace id = "" →
        validateInput [j] = (AssetState.empty, some "AssetID not passed")) := by
  have one : ∀ j, validateInput [j] =
      match jsonUnmarshalAssetState j with
      | (_, some _) => (AssetState.empty, some "Unable to unmarshal input JSON data")
      | (stateIn, none) =>
        match stateIn.assetID with
        | some id =>
          if TrimSpace id = "" then (AssetState.empty, some "AssetID not passed")
          else ({ stateIn with assetID := some (TrimSpace id) }, none)
        | none => (AssetState.empty, some "Asset id is mandatory in the input JSON data") := by
    intro j; rfl
  have many : args.length ≠ 1 → validateInput args = (AssetState.empty,
      some "Incorrect number of arguments. Expecting a JSON strings with mandatory assetID") := by
    intro h
    match args, h with
    | [], _ => rfl
    | [_], h => exact absurd rfl h
    | _ :: _ :: _, _ => rfl
  refine ⟨⟨?_, ?_⟩, ?_, many, ?_, ?_, ?_⟩
  · intro h
    have hp : validateInput args = ((validateInput args).1, none) := pair_of_snd_none _ h
    obtain ⟨j, s, id, ha, hs, hid, hk, _⟩ := validateInput_ok hp
    exact ⟨j, ha, by rw [hs], id, by rw [hs]; exact hid, hk⟩
  · rintro ⟨j, rfl, hj, id, hid, hk⟩
    rw [one]
    cases hu : jsonUnmarshalAssetState j with
    | mk s e =>
      rw [hu] at hj hid
      simp only at hj hid
      subst hj
      simp only [hid, hk, if_false]
  · intro h
    by_cases hl : args.length = 1
    · match args, hl with
      | [j], _ =>
        rw [one] at h ⊢
        cases hu : jsonUnmarshalAssetState j with
        | mk s e =>
          rw [hu] at h
          cases e with
          | some x => rfl
          | none =>
            simp only at h ⊢
            cases hid : s.assetID with
            | none => rfl
            | some id =>
              rw [hid] at h
              simp only at h ⊢
              by_cases hk : TrimSpace id = ""
              · simp only [hk, if_true]
              · simp only [hk, if_false] at h
                exact absurd rfl h
    · rw [many hl]
  · intro j hj
    rw [one]
    cases hu : jsonUnmarshalAssetState j with
    | mk s e =>
      rw [hu] at hj
      cases e with
      | some x => rfl
      | none => exact absurd rfl hj
  · intro j hj hid
    rw [one]
    cases hu : jsonUnmarshalAssetState j with
    | mk s e =>
      rw [hu] at hj hid
      simp only at hj hid
      subst hj
      simp only [hid]
  · intro j id hj hid hk
    rw [one]
    cases hu : jsonUnmarshalAssetState j with
    | mk s e =>
      rw [hu] at hj hid
      simp only at hj hid
      subst hj
      simp only [hid, hk, if_true]

/-- C14. On success validateInput returns the unmarshalled record with assetID
replaced by its trimmed form, which is not empty and neither starts nor ends
with white space (it is the identifier without a run of white space at each
end); location, temperature, carrier and updatedAt are returned as they were
unmarshalled. -/
theorem validateInput_result (args : List String) (p : AssetState)
    (h : validateInput args = (p, none)) :
    ∃ j s id, args = [j] ∧ jsonUnmarshalAssetState j = (s, none) ∧ s.assetID = some id
      ∧ p.assetID = some (TrimSpace id) ∧ TrimSpace id ≠ ""
      ∧ (∀ c ∈ (TrimSpace id).toList.head?, isSpace c = false)
      ∧ (∀ c ∈ (TrimSpace id).toList.getLast?, isSpace c = false)
      ∧ (∃ pre post, id.toList = pre ++ (TrimSpace id).toList ++ post
          ∧ pre.all isSpace = true ∧ post.all isSpace = true)
      ∧ p.location = s.location ∧ p.temperature = s.temperature ∧ p.carrier = s.carrier
      ∧ p.updatedAt = s.updatedAt := by
  obtain ⟨j, s, id, ha, hs, hid, hk, hp⟩ := validateInput_ok h
  obtain ⟨t1, t2, t3⟩ := TrimSpace_spec id
  subst hp
  exact ⟨j, s, id, ha, hs, hid, rfl, hk, t2, t3, t1, rfl, rfl, rfl, rfl⟩

/-- C14 (witness). The argument `{"assetID":" A1 ","carrier":"X"}` is accepted with
the identifier `A1` and the carrier as given. -/
theorem validateInput_result_witness :
    validateInput paddedArg = (⟨some "A1", none, none, some "X", none⟩, none)
    ∧ ∃ j s id, paddedArg = [j] ∧ jsonUnmarshalAssetState j = (s, none) ∧ s.assetID = some id
      ∧ (⟨some "A1", none, none, some "X", none⟩ : AssetState).assetID = some (TrimSpace id)
      ∧ TrimSpace id ≠ ""
      ∧ (∀ c ∈ (TrimSpace id).toList.head?, isSpace c = false)
      ∧ (∀ c ∈ (TrimSpace id).toList.getLast?, isSpace c = false)
      ∧ (∃ pre post, id.toList = pre ++ (TrimSpace id).toList ++ post
          ∧ pre.all isSpace = true ∧ post.all isSpace = true)
      ∧ (⟨some "A1", none, none, some "X", none⟩ : AssetState).location = s.location
      ∧ (⟨some "A1", none, none, some "X", none⟩ : AssetState).temperature = s.temperature
      ∧ (⟨some "A1", none, none, some "X", none⟩ : AssetState).carrier = s.carrier
      ∧ (⟨some "A1", none, none, some "X", none⟩ : AssetState).updatedAt = s.updatedAt :=
  ⟨by decide, validateInput_result paddedArg ⟨some "A1", none, none, some "X", none⟩ (by decide)⟩

/-! ## Theorems: the errors of the operations -/

theorem validateInput_count (args : List String) (h : args.length ≠ 1) :
    validateInput args = (AssetState.empty,
      some "Incorrect number of arguments. Expecting a JSON strings with mandatory assetID") := by
  match args, h with
  | [], _ => rfl
  | [_], h => exact absurd rfl h
  | _ :: _ :: _, _ => rfl

/-- C15 (the code at the failing input). With no argument the validator reports
the argument-count error, and createAsset, updateAsset and deleteAsset return
it; readAsset returns `Asset does not exist!` instead, the text it also returns
for a malformed payload and for a missing identifier. -/
theorem readAsset_hides_count_error :
    (validateInput []).2
        = some "Incorrect number of arguments. Expecting a JSON strings with mandatory assetID"
    ∧ (createAsset emptyStub [] timeA timeB).2 = (validateInput []).2
    ∧ (updateAsset emptyStub [] timeA timeB).2 = (validateInput []).2
    ∧ (deleteAsset emptyStub []).2 = (validateInput []).2
    ∧ readAsset emptyStub [] = ("", some "Asset does not exist!")
    ∧ (readAsset emptyStub []).2 ≠ (validateInput []).2
    ∧ (readAsset emptyStub ["a", "b"]).2 ≠ (validateInput ["a", "b"]).2
    ∧ (validateInput ["not json"]).2 = some "Unable to unmarshal input JSON data"
    ∧ readAsset emptyStub ["not json"] = readAsset emptyStub []
    ∧ (validateInput ["\x7b\x7d"]).2 = some "Asset id is mandatory in the input JSON data"
    ∧ readAsset emptyStub ["\x7b\x7d"] = readAsset emptyStub [] := by
  refine ⟨by decide, by decide, by decide, by decide, by decide, by decide, by decide, by decide,
    by decide, by decide, by decide⟩

/-- Whenever they do not receive exactly one argument, createAsset,
updateAsset and deleteAsset fail with the validator's argument-count error and
leave the ledger as it was, and that error differs from the malformed-payload,
missing-identifier and not-found errors; readAsset fails as well, with the text
`Asset does not exist!` that it gives for every rejected argument. -/
theorem argument_count_error (stub : Stub) (args : List String) (now1 now2 : Time)
    (h : args.length ≠ 1) :
    createAsset stub args now1 now2 = (stub,
      some "Incorrect number of arguments. Expecting a JSON strings with mandatory assetID")
    ∧ updateAsset stub args now1 now2 = (stub,
      some "Incorrect number of arguments. Expecting a JSON strings with mandatory assetID")
    ∧ deleteAsset stub args = (stub,
      some "Incorrect number of arguments. Expecting a JSON strings with mandatory assetID")
    ∧ readAsset stub args = ("", some "Asset does not exist!")
    ∧ "Incorrect number of arguments. Expecting a JSON strings with mandatory assetID"
        ≠ "Unable to unmarshal input JSON data"
    ∧ "Incorrect number of arguments. Expecting a JSON strings with mandatory assetID"
        ≠ "AssetID not passed"
    ∧ "Incorrect number of arguments. Expecting a JSON strings with mandatory assetID"
        ≠ "Asset id is mandatory in the input JSON data"
    ∧ "Incorrect number of arguments. Expecting a JSON strings with mandatory assetID"
        ≠ "Unable to get asset state from ledger"
    ∧ "Incorrect number of arguments. Expecting a JSON strings with mandatory assetID"
        ≠ "Asset does not exist!" := by
  have hv := validateInput_count args h
  refine ⟨?_, ?_, ?_, ?_, by decide, by decide, by decide, by decide, by decide⟩
  · rw [createAsset_eq]; unfold createOrUpdateAsset; rw [hv]
  · rw [updateAsset_eq]; unfold createOrUpdateAsset; rw [hv]
  · unfold deleteAsset; rw [hv]
  · unfold readAsset; rw [hv]

/-! ## Theorems: readAsset -/

/-- The cases of `readAsset` after a successful validation. -/
theorem readAsset_eq (stub : Stub) (args : List String) {p : AssetState} {k : String}
    (hv : validateInput args = (p, none)) (hk : p.assetID = some k) :
    readAsset stub args =
      if (stub.GetState k).2.isSome ∨ (stub.GetState k).1.length = 0 then
        ("", some "Unable to get asset state from ledger")
      else
        match jsonUnmarshalAssetState (stub.GetState k).1 with
        | (_, some _) => ("", some "Unable to unmarshal state data obtained from ledger")
        | (_, none) => ((stub.GetState k).1, none) := by
  unfold readAsset
  rw [hv]
  simp only [hk]

/-- C16. Whenever readAsset succeeds, its result is exactly the value that the
ledger holds under the validated (trimmed) identifier, and that value is not
empty and unmarshals as an asset record. For an accepted argument readAsset
fails when the read reports an error or the value is missing or empty, fails
when the value does not unmarshal, and otherwise returns the value as stored.
The operation only reads: its embedding takes the ledger and returns bytes and
an error, no ledger. -/
theorem readAsset_verbatim (stub : Stub) (args : List String) :
    (∀ bytes, readAsset stub args = (bytes, none) →
      ∃ p k, validateInput args = (p, none) ∧ p.assetID = some k
        ∧ stub.getFault k = none ∧ stub.world k = some bytes ∧ bytes ≠ ""
        ∧ (jsonUnmarshalAssetState bytes).2 = none)
    ∧ (∀ p k, validateInput args = (p, none) → p.assetID = some k →
        ((stub.getFault k ≠ none ∨ stub.world k = none ∨ stub.world k = some "") →
          readAsset stub args = ("", some "Unable to get asset state from ledger"))
        ∧ (∀ bytes, stub.getFault k = none → stub.world k = some bytes → bytes ≠ "" →
            (jsonUnmarshalAssetState bytes).2 ≠ none →
            readAsset stub args
              = ("", some "Unable to unmarshal state data obtained from ledger"))
        ∧ (∀ bytes, stub.getFault k = none → stub.world k = some bytes → bytes ≠ "" →
            (jsonUnmarshalAssetState bytes).2 = none →
            readAsset stub args = (bytes, none))) := by
  constructor
  · intro bytes h
    cases hv : validateInput args with
    | mk p e =>
      cases e with
      | some x =>
        unfold readAsset at h
        rw [hv] at h
        simp at h
      | none =>
        obtain ⟨k, hk, _⟩ := validateInput_assetID hv
        rw [readAsset_eq stub args hv hk] at h
        refine ⟨p, k, rfl, hk, ?_⟩
        split_ifs at h with hc
        · simp at h
        · cases hu : jsonUnmarshalAssetState (stub.GetState k).1 with
          | mk s e =>
            rw [hu] at h
            cases e with
            | some x => simp at h
            | none =>
              simp only [Prod.mk.injEq, and_true] at h
              have hg : stub.getFault k = none := by
                cases hf : stub.getFault k with
                | none => rfl
                | some x =>
                  exact absurd (Or.inl (by simp [Stub.GetState, hf])) hc
              have hb : (stub.world k).getD "" = bytes := by
                simpa [Stub.GetState, hg] using h
              have hne : bytes ≠ "" := by
                intro he
                apply hc
                right
                rw [h, he]
                rfl
              refine ⟨hg, ?_, hne, ?_⟩
              · cases hw : stub.world k with
                | none => rw [hw] at hb; exact absurd hb.symm hne
                | some b => rw [hw] at hb; simpa using hb
              · rw [← h, hu]
  · intro p k hv hk
    rw [readAsset_eq stub args hv hk]
    refine ⟨?_, ?_, ?_⟩
    · intro h
      rw [if_pos (GetState_absent stub k h)]
    · intro bytes hf hw hb hu
      obtain ⟨hg, hn⟩ := GetState_present stub k bytes hf hw hb
      rw [if_neg hn, hg]
      cases hx : jsonUnmarshalAssetState bytes with
      | mk s e =>
        rw [hx] at hu
        cases e with
        | some x => rfl
        | none => exact absurd rfl hu
    · intro bytes hf hw hb hu
      obtain ⟨hg, hn⟩ := GetState_present stub k bytes hf hw hb
      rw [if_neg hn, hg]
      cases hx : jsonUnmarshalAssetState bytes with
      | mk s e =>
        rw [hx] at hu
        simp only at hu
        subst hu
        rfl

/-! ## Theorems: what the operations leave untouched -/

/-- The list step changes the ledger under `MRUKEY` only. -/
theorem updateMruList_frame (stub : Stub) (k : String) (now : Time) (k2 : String)
    (h : k2 ≠ MRUKEY) : (updateMruList stub k now).1.world k2 = stub.world k2 := by
  cases hl : loadMruList stub with
  | mk m e =>
    cases e with
    | some x => unfold updateMruList; rw [hl]
    | none =>
      obtain ⟨L⟩ := m
      rw [updateMruList_eq stub k now L hl]
      cases hp : stub.putFault MRUKEY with
      | some x => rw [PutState_fault stub MRUKEY _ x hp]
      | none =>
        rw [PutState_ok stub MRUKEY _ hp]
        exact (GetState_PutState_same stub MRUKEY _ hp).2.2.2.2.2 k2 h

/-- The store changes the ledger under the identifier and `MRUKEY` only. -/
theorem storeAsset_frame (stub : Stub) (k : String) (r : AssetState) (now2 : Time)
    (k2 : String) (h1 : k2 ≠ k) (h2 : k2 ≠ MRUKEY) :
    (storeAsset stub k r now2).1.world k2 = stub.world k2 := by
  cases hp : stub.putFault k with
  | some x =>
    simp only [storeAsset, jsonMarshalAssetState, PutState_fault stub k _ x hp]
  | none =>
    have hs : storeAsset stub k r now2
        = updateMruList (stub.PutState k (jsonMarshalAssetState r).1).1 k now2 := by
      simp only [storeAsset, jsonMarshalAssetState, Stub.PutState, hp]
    rw [hs, updateMruList_frame _ k now2 k2 h2]
    exact (GetState_PutState_same stub k _ hp).2.2.2.2.2 k2 h1

/-- A createOrUpdateAsset call, successful or not, changes the ledger under the
identifier it validates and under `MRUKEY` only. -/
theorem createOrUpdateAsset_frame (stub : Stub) (args : List String) (t1 t2 : Time)
    (k2 : String) (h1 : (validateInput args).1.assetID ≠ some k2) (h2 : k2 ≠ MRUKEY) :
    (createOrUpdateAsset stub args t1 t2).1.world k2 = stub.world k2 := by
  cases hv : validateInput args with
  | mk p e =>
    cases e with
    | some x => unfold createOrUpdateAsset; rw [hv]
    | none =>
      obtain ⟨k, hk, _⟩ := validateInput_assetID hv
      have hne : k2 ≠ k := by
        intro h
        apply h1
        rw [hv, h]
        exact hk
      rw [createOrUpdateAsset_eq stub args t1 t2 hv hk]
      split_ifs with hc
      · exact storeAsset_frame stub k _ t2 k2 hne h2
      · cases hu : jsonUnmarshalAssetState (stub.GetState k).1 with
        | mk s e =>
          cases e with
          | some x => rfl
          | none => exact storeAsset_frame stub k _ t2 k2 hne h2

/-- The cases of `deleteAsset` after a successful validation. -/
theorem deleteAsset_eq (stub : Stub) (args : List String) {p : AssetState} {k : String}
    (hv : validateInput args = (p, none)) (hk : p.assetID = some k) :
    deleteAsset stub args =
      match stub.delFault k with
      | some e => (stub, some ("DELSTATE failed! : " ++ e))
      | none => ({ stub with world := fun k2 => if k2 = k then none else stub.world k2 }, none) := by
  unfold deleteAsset
  rw [hv]
  simp only [hk, Stub.DelState]
  cases stub.delFault k with
  | some e => rfl
  | none => rfl

/-- A deleteAsset call leaves every value as it was or removes it, and leaves the
values under keys other than the identifier as they were. -/
theorem deleteAsset_frame (stub : Stub) (args : List String) (k2 : String) :
    ((deleteAsset stub args).1.world k2 = stub.world k2
      ∨ (deleteAsset stub args).1.world k2 = none)
    ∧ ((validateInput args).1.assetID ≠ some k2 →
        (deleteAsset stub args).1.world k2 = stub.world k2) := by
  cases hv : validateInput args with
  | mk p e =>
    cases e with
    | some x =>
      have : deleteAsset stub args = (stub, some x) := by unfold deleteAsset; rw [hv]
      rw [this]
      exact ⟨Or.inl rfl, fun _ => rfl⟩
    | none =>
      obtain ⟨k, hk, _⟩ := validateInput_assetID hv
      rw [deleteAsset_eq stub args hv hk]
      cases hd : stub.delFault k with
      | some x => exact ⟨Or.inl rfl, fun _ => rfl⟩
      | none =>
        simp only
        by_cases hkk : k2 = k
        · refine ⟨Or.inr (by simp [hkk]), ?_⟩
          intro hne
          exact absurd (by rw [hkk]; exact hk) hne
        · exact ⟨Or.inl (by simp [hkk]), fun _ => by simp [hkk]⟩

/-- An Init call changes the ledger under `CONTRACTSTATEKEY` only. -/
theorem Init_frame (stub : Stub) (f : String) (args : List String) (k2 : String)
    (h : k2 ≠ CONTRACTSTATEKEY) : (Init stub f args).1.world k2 = stub.world k2 := by
  unfold Init
  split
  · split
    · rfl
    · split_ifs
      · rfl
      · simp only [jsonMarshalContractState]
        cases hp : stub.putFault CONTRACTSTATEKEY with
        | some x => rw [PutState_fault stub CONTRACTSTATEKEY _ x hp]
        | none =>
          rw [PutState_ok stub CONTRACTSTATEKEY _ hp]
          exact (GetState_PutState_same stub CONTRACTSTATEKEY _ hp).2.2.2.2.2 k2 h
  · rfl

/-- A key that holds nothing, is neither of the two fixed keys and is not the
identifier of any createAsset or updateAsset call of a sequence holds nothing
after the sequence. -/
theorem runOps_world_none (k : String) (h1 : k ≠ MRUKEY) (h2 : k ≠ CONTRACTSTATEKEY)
    (ops : List Op) :
    ∀ stub : Stub, stub.world k = none → (∀ op ∈ ops, op.assetID ≠ some k) →
      (runOps stub ops).world k = none := by
  induction ops with
  | nil => intro stub h _; exact h
  | cons op rest ih =>
    intro stub h hn
    have hop := hn op (by simp)
    have hstep : (applyOp stub op).world k = none := by
      cases op with
      | init f args => rw [applyOp, Init_frame stub f args k h2]; exact h
      | create args t1 t2 =>
        rw [applyOp, createAsset_eq, createOrUpdateAsset_frame stub args t1 t2 k hop h1]
        exact h
      | update args t1 t2 =>
        rw [applyOp, updateAsset_eq, createOrUpdateAsset_frame stub args t1 t2 k hop h1]
        exact h
      | delete args =>
        rw [applyOp]
        rcases (deleteAsset_frame stub args k).1 with h3 | h3
        · rw [h3]; exact h
        · exact h3
    exact ih (applyOp stub op) hstep (fun o ho => hn o (by simp [ho]))

/-! ## Theorems: reads after other operations -/

/-- C17 (counterexample). From the empty ledger, one createAsset call for `A1`:
`_MruListKey` was never the identifier of a call, and readAsset on it succeeds
with the list. From the empty ledger, one Init call: readAsset on
`ContractStateKey` succeeds with the version record. -/
theorem read_of_fixed_keys :
    (∀ op ∈ [Op.create (idArg "A1") timeA timeB], op.assetID ≠ some "_MruListKey")
    ∧ readAsset (runOps emptyStub [Op.create (idArg "A1") timeA timeB]) (idArg "_MruListKey")
        = ("\x7b\"mruList\":[\x7b\"assetID\":\"A1\",\"updatedAt\":\"2016-05-01T12:00:01Z\"\x7d]\x7d",
            none)
    ∧ (∀ op ∈ [Op.init "init" versionArg], op.assetID ≠ some "ContractStateKey")
    ∧ readAsset (runOps emptyStub [Op.init "init" versionArg]) (idArg "ContractStateKey")
        = ("\x7b\"version\":\"1.0\"\x7d", none) := by
  refine ⟨by decide, by decide, by decide, by decide⟩

/-- C17 (amended). For every ledger reached from an empty ledger through Init,
createAsset, updateAsset and deleteAsset calls, successful or not, and every
accepted identifier other than `_MruListKey` and `ContractStateKey` that was
never the identifier of a createAsset or updateAsset call, readAsset on that
identifier fails: the ledger holds nothing under it. -/
theorem read_never_created (stub : Stub) (ops : List Op) (args : List String)
    (p : AssetState) (k : String) (h0 : ∀ key, stub.world key = none)
    (hv : validateInput args = (p, none)) (hk : p.assetID = some k)
    (h1 : k ≠ MRUKEY) (h2 : k ≠ CONTRACTSTATEKEY)
    (hnever : ∀ op ∈ ops, op.assetID ≠ some k) :
    (runOps stub ops).world k = none
    ∧ readAsset (runOps stub ops) args = ("", some "Unable to get asset state from ledger") := by
  have hw := runOps_world_none k h1 h2 ops stub (h0 k) hnever
  refine ⟨hw, ?_⟩
  rw [readAsset_eq _ args hv hk, if_pos (GetState_absent _ k (Or.inr (Or.inl hw)))]

/-- C17 (witness). After the creation and the deletion of `A1` and an Init call on
the empty ledger, readAsset on the identifier `B2` fails. -/
theorem read_never_created_witness :
    (∀ key, emptyStub.world key = none)
    ∧ validateInput (idArg "B2") = (⟨some "B2", none, none, none, none⟩, none)
    ∧ (∀ op ∈ [Op.create (idArg "A1") timeA timeB, Op.init "init" versionArg,
          Op.delete (idArg "A1")], op.assetID ≠ some "B2")
    ∧ (runOps emptyStub [Op.create (idArg "A1") timeA timeB, Op.init "init" versionArg,
          Op.delete (idArg "A1")]).world "B2" = none
    ∧ readAsset (runOps emptyStub [Op.create (idArg "A1") timeA timeB, Op.init "init" versionArg,
          Op.delete (idArg "A1")]) (idArg "B2")
        = ("", some "Unable to get asset state from ledger") :=
  ⟨fun _ => rfl, by decide, by decide,
    read_never_created emptyStub [Op.create (idArg "A1") timeA timeB, Op.init "init" versionArg,
      Op.delete (idArg "A1")] (idArg "B2") ⟨some "B2", none, none, none, none⟩ "B2"
      (fun _ => rfl) (by decide) rfl (by decide) (by decide) (by decide)⟩

/-! ## Theorems: deleteAsset -/

/-- C18 (counterexample). After the creation of `A1` on the empty ledger the list
is stored under `_MruListKey`; deleteAsset with the accepted identifier
`_MruListKey` succeeds and removes it. -/
theorem delete_of_list_key :
    (validateInput (idArg "_MruListKey")).2 = none
    ∧ (validateInput (idArg "_MruListKey")).1.assetID = some "_MruListKey"
    ∧ (createAsset emptyStub (idArg "A1") timeA timeB).1.world "_MruListKey"
        = some "\x7b\"mruList\":[\x7b\"assetID\":\"A1\",\"updatedAt\":\"2016-05-01T12:00:01Z\"\x7d]\x7d"
    ∧ (deleteAsset (createAsset emptyStub (idArg "A1") timeA timeB).1 (idArg "_MruListKey")).2
        = none
    ∧ (deleteAsset (createAsset emptyStub (idArg "A1") timeA timeB).1
        (idArg "_MruListKey")).1.world "_MruListKey" = none := by
  refine ⟨by decide, by decide, by decide, by decide, by decide⟩

/-- C18 (amended). For every ledger and every argument that validateInput accepts
with an identifier other than `_MruListKey`, the value stored under
`_MruListKey` is the same after deleteAsset as before, whether the delete
succeeds or fails, and so is the list that is loaded from it: the entries of a
deleted asset stay in the list. -/
theorem delete_keeps_index (stub : Stub) (args : List String) (p : AssetState) (k : String)
    (hv : validateInput args = (p, none)) (hk : p.assetID = some k) (hne : k ≠ MRUKEY) :
    (deleteAsset stub args).1.world MRUKEY = stub.world MRUKEY
    ∧ loadMruList (deleteAsset stub args).1 = loadMruList stub := by
  have hne2 : MRUKEY ≠ k := fun h => hne h.symm
  rw [deleteAsset_eq stub args hv hk]
  cases hd : stub.delFault k with
  | some x => exact ⟨rfl, rfl⟩
  | none =>
    refine ⟨by simp only [hne2, if_false], ?_⟩
    unfold loadMruList Stub.GetState
    simp only [hne2, if_false]

/-- C18 (witness). The creation and then the deletion of `A1` on the empty ledger:
the list still holds the entry of `A1`. -/
theorem delete_keeps_index_witness :
    validateInput (idArg "A1") = (⟨some "A1", none, none, none, none⟩, none)
    ∧ (deleteAsset (createAsset emptyStub (idArg "A1") timeA timeB).1 (idArg "A1")).2 = none
    ∧ ((deleteAsset (createAsset emptyStub (idArg "A1") timeA timeB).1 (idArg "A1")).1.world MRUKEY
        = (createAsset emptyStub (idArg "A1") timeA timeB).1.world MRUKEY
      ∧ loadMruList (deleteAsset (createAsset emptyStub (idArg "A1") timeA timeB).1
          (idArg "A1")).1 = loadMruList (createAsset emptyStub (idArg "A1") timeA timeB).1)
    ∧ (loadMruList (deleteAsset (createAsset emptyStub (idArg "A1") timeA timeB).1
          (idArg "A1")).1).1.list = [⟨some "A1", timeB⟩] :=
  ⟨by decide, by decide,
    delete_keeps_index (createAsset emptyStub (idArg "A1") timeA timeB).1 (idArg "A1")
      ⟨some "A1", none, none, none, none⟩ "A1" (by decide) rfl (by decide),
    by decide⟩

/-- C19. If deleteAsset succeeds, then the argument was accepted, the ledger holds
nothing under its identifier afterwards, readAsset with the same argument fails
on the resulting ledger, and the values under all other keys are unchanged. -/
theorem delete_then_read (stub stub' : Stub) (args : List String)
    (hs : deleteAsset stub args = (stub', none)) :
    readAsset stub' args = ("", some "Unable to get asset state from ledger")
    ∧ ∃ p k, validateInput args = (p, none) ∧ p.assetID = some k ∧ stub'.world k = none
        ∧ ∀ k2, k2 ≠ k → stub'.world k2 = stub.world k2 := by
  cases hv : validateInput args with
  | mk p e =>
    cases e with
    | some x =>
      unfold deleteAsset at hs
      rw [hv] at hs
      simp at hs
    | none =>
      obtain ⟨k, hk, _⟩ := validateInput_assetID hv
      rw [deleteAsset_eq stub args hv hk] at hs
      cases hd : stub.delFault k with
      | some x => rw [hd] at hs; simp at hs
      | none =>
        rw [hd] at hs
        simp only [Prod.mk.injEq, and_true] at hs
        subst hs
        have hw : ({ stub with world := fun k2 => if k2 = k then none else stub.world k2 } :
            Stub).world k = none := by simp
        refine ⟨?_, p, k, rfl, hk, hw, ?_⟩
        · rw [readAsset_eq _ args hv hk, if_pos (GetState_absent _ k (Or.inr (Or.inl hw)))]
        · intro k2 hk2
          simp [hk2]

/-- C19 (witness). The creation and then the deletion of `A1` on the empty ledger:
the delete succeeds and the read that follows fails. -/
theorem delete_then_read_witness :
    (readAsset (createAsset emptyStub (idArg "A1") timeA timeB).1 (idArg "A1")).2 = none
    ∧ (deleteAsset (createAsset emptyStub (idArg "A1") timeA timeB).1 (idArg "A1")).2 = none
    ∧ (readAsset (deleteAsset (createAsset emptyStub (idArg "A1") timeA timeB).1
          (idArg "A1")).1 (idArg "A1") = ("", some "Unable to get asset state from ledger")
      ∧ ∃ p k, validateInput (idArg "A1") = (p, none) ∧ p.assetID = some k
          ∧ (deleteAsset (createAsset emptyStub (idArg "A1") timeA timeB).1
              (idArg "A1")).1.world k = none
          ∧ ∀ k2, k2 ≠ k →
              (deleteAsset (createAsset emptyStub (idArg "A1") timeA timeB).1
                (idArg "A1")).1.world k2
              = (createAsset emptyStub (idArg "A1") timeA timeB).1.world k2) :=
  ⟨by decide, by decide,
    delete_then_read (createAsset emptyStub (idArg "A1") timeA timeB).1
      (deleteAsset (createAsset emptyStub (idArg "A1") timeA timeB).1 (idArg "A1")).1
      (idArg "A1") (pair_of_snd_none _ (by decide))⟩

/-! ## Theorems: Init -/

/-- The text of the version record of the contract. -/
theorem jsonMarshalContractState_version :
    (jsonMarshalContractState ⟨MYVERSION⟩).1 = "\x7b\"version\":\"1.0\"\x7d" := by
  decide

/-- The cases of `Init` with one argument. -/
theorem Init_one (stub : Stub) (f : String) (j : String) :
    Init stub f [j] =
      match jsonUnmarshalContractState j with
      | (_, some e) => (stub, some ("Version argument unmarshal failed: " ++ e))
      | (stateArg, none) =>
        if stateArg.version ≠ MYVERSION then
          (stub, some ("Contract version " ++ MYVERSION ++ " must match version argument: "
            ++ stateArg.version))
        else
          match stub.putFault CONTRACTSTATEKEY with
          | some e => (stub, some ("Contract state failed PUT to ledger: " ++ e))
          | none => ((stub.PutState CONTRACTSTATEKEY (jsonMarshalContractState stateArg).1).1,
              none) := by
  unfold Init
  simp only
  cases hu : jsonUnmarshalContractState j with
  | mk c e =>
    cases e with
    | some x => rfl
    | none =>
      simp only
      split_ifs with hver
      · rfl
      · simp only [jsonMarshalContractState]
        cases hp : stub.putFault CONTRACTSTATEKEY with
        | some x => rw [PutState_fault stub CONTRACTSTATEKEY _ x hp]
        | none => rw [PutState_ok stub CONTRACTSTATEKEY _ hp]

/-- C20. Init succeeds exactly when it is given one argument that unmarshals
without error into a contract state whose version is `1.0` and the put under
`ContractStateKey` reports no error; it then stores the version record
`{"version":"1.0"}` under `ContractStateKey` and changes no other key. For
every other version, the absent one included, and for every number of
arguments other than one it fails, and whenever it fails the ledger is
unchanged. With the argument `{}` and with `{"version":"2.0"}` it fails with
the version error; with `{"version":"1.0"}` it succeeds when the put reports
no error. -/
theorem Init_gated_on_version (stub : Stub) (f : String) (args : List String) :
    ((Init stub f args).2 = none ↔
      ∃ j, args = [j] ∧ (jsonUnmarshalContractState j).2 = none
        ∧ (jsonUnmarshalContractState j).1.version = MYVERSION
        ∧ stub.putFault CONTRACTSTATEKEY = none)
    ∧ ((Init stub f args).2 = none →
        (Init stub f args).1.world CONTRACTSTATEKEY = some "\x7b\"version\":\"1.0\"\x7d"
        ∧ ∀ k2, k2 ≠ CONTRACTSTATEKEY → (Init stub f args).1.world k2 = stub.world k2)
    ∧ (∀ j, args = [j] → (jsonUnmarshalContractState j).2 = none →
        (jsonUnmarshalContractState j).1.version ≠ MYVERSION →
        Init stub f args = (stub, some ("Contract version " ++ MYVERSION
          ++ " must match version argument: " ++ (jsonUnmarshalContractState j).1.version)))
    ∧ (args.length ≠ 1 → Init stub f args
        = (stub, some "init expects one argument, a JSON string with tagged version string"))
    ∧ ((Init stub f args).2 ≠ none → (Init stub f args).1 = stub)
    ∧ (jsonUnmarshalContractState "\x7b\x7d" = (⟨""⟩, none)
      ∧ Init stub f ["\x7b\x7d"]
        = (stub, some "Contract version 1.0 must match version argument: "))
    ∧ Init stub f otherVersionArg
        = (stub, some "Contract version 1.0 must match version argument: 2.0")
    ∧ (stub.putFault CONTRACTSTATEKEY = none → (Init stub f versionArg).2 = none) := by
  have many : args.length ≠ 1 → Init stub f args
      = (stub, some "init expects one argument, a JSON string with tagged version string") := by
    intro h
    match args, h with
    | [], _ => rfl
    | [_], h => exact absurd rfl h
    | _ :: _ :: _, _ => rfl
  have one : ∀ j, args = [j] →
      ((Init stub f args).2 = none ↔
        ((jsonUnmarshalContractState j).2 = none
          ∧ (jsonUnmarshalContractState j).1.version = MYVERSION
          ∧ stub.putFault CONTRACTSTATEKEY = none))
      ∧ ((Init stub f args).2 = none →
          (Init stub f args).1 = (stub.PutState CONTRACTSTATEKEY
            (jsonMarshalContractState ⟨MYVERSION⟩).1).1)
      ∧ ((Init stub f args).2 ≠ none → (Init stub f args).1 = stub)
      ∧ ((jsonUnmarshalContractState j).2 = none →
          (jsonUnmarshalContractState j).1.version ≠ MYVERSION →
          Init stub f args = (stub, some ("Contract version " ++ MYVERSION
            ++ " must match version argument: " ++ (jsonUnmarshalContractState j).1.version))) := by
    intro j hj
    subst hj
    rw [Init_one]
    cases hu : jsonUnmarshalContractState j with
    | mk c e =>
      cases e with
      | some x => simp
      | none =>
        by_cases hver : c.version = MYVERSION
        · obtain ⟨v⟩ := c
          simp only at hver
          subst hver
          cases hp : stub.putFault CONTRACTSTATEKEY with
          | some x => simp
          | none => simp
        · simp [hver]
  have empty : jsonUnmarshalContractState "\x7b\x7d" = (⟨""⟩, none) := by decide
  have other : jsonUnmarshalContractState "\x7b\"version\":\"2.0\"\x7d" = (⟨"2.0"⟩, none) := by
    decide
  have same : jsonUnmarshalContractState "\x7b\"version\":\"1.0\"\x7d" = (⟨"1.0"⟩, none) := by
    decide
  refine ⟨⟨?_, ?_⟩, ?_, ?_, many, ?_, ⟨empty, by rw [Init_one, empty]; rfl⟩,
    by unfold otherVersionArg; rw [Init_one, other]; rfl,
    fun hp => by unfold versionArg; rw [Init_one, same]; simp [MYVERSION, hp]⟩
  · intro h
    by_cases hl : args.length = 1
    · match args, hl with
      | [j], _ =>
        obtain ⟨h1, h2, h3⟩ := ((one j rfl).1).1 h
        exact ⟨j, rfl, h1, h2, h3⟩
    · rw [many hl] at h
      simp at h
  · rintro ⟨j, hj, h1, h2, h3⟩
    exact ((one j hj).1).2 ⟨h1, h2, h3⟩
  · intro h
    by_cases hl : args.length = 1
    · match args, hl with
      | [j], _ =>
        have hp := (((one j rfl).1).1 h).2.2
        rw [(one j rfl).2.1 h]
        obtain ⟨_, hw, _, _, _, hfr⟩ := GetState_PutState_same stub CONTRACTSTATEKEY
          (jsonMarshalContractState ⟨MYVERSION⟩).1 hp
        refine ⟨?_, hfr⟩
        rw [hw, jsonMarshalContractState_version]
    · rw [many hl] at h
      simp at h
  · intro j hj h1 h2
    exact (one j hj).2.2.2 h1 h2
  · intro h
    by_cases hl : args.length = 1
    · match args, hl with
      | [j], _ => exact (one j rfl).2.2.1 h
    · rw [many hl]

/-! ## Theorems: sequences of merges -/

/-- Unfolding of `mergeAll` at the first patch. -/
theorem mergeAll_cons (first q : AssetState) (ps : List AssetState) :
    mergeAll first (q :: ps) = mergeAll (mergePartialState first q).1 ps := rfl

/-- The location after the merges is absent exactly when it is absent in the
first record and in every patch. -/
theorem mergeAll_location (patches : List AssetState) :
    ∀ first, (mergeAll first patches).location = none
      ↔ ∀ p ∈ first :: patches, p.location = none := by
  induction patches with
  | nil => intro first; simp [mergeAll]
  | cons q ps ih =>
    intro first
    rw [mergeAll_cons, ih, mergePartialState_eq]
    cases hq : q.location <;> simp [hq]

/-- The temperature after the merges is absent exactly when it is absent in the
first record and in every patch. -/
theorem mergeAll_temperature (patches : List AssetState) :
    ∀ first, (mergeAll first patches).temperature = none
      ↔ ∀ p ∈ first :: patches, p.temperature = none := by
  induction patches with
  | nil => intro first; simp [mergeAll]
  | cons q ps ih =>
    intro first
    rw [mergeAll_cons, ih, mergePartialState_eq]
    cases hq : q.temperature <;> simp [hq]

/-- The carrier after the merges is absent exactly when it is absent in the first
record and in every patch. -/
theorem mergeAll_carrier (patches : List AssetState) :
    ∀ first, (mergeAll first patches).carrier = none
      ↔ ∀ p ∈ first :: patches, p.carrier = none := by
  induction patches with
  | nil => intro first; simp [mergeAll]
  | cons q ps ih =>
    intro first
    rw [mergeAll_cons, ih, mergePartialState_eq]
    cases hq : q.carrier <;> simp [hq]

/-- C21. For every first patch and every list of further patches merged into it
in order with mergePartialState, each of location, temperature and carrier that
is absent in every patch of the sequence is absent in the final record; the
field is present in the final record only if some patch carries it. -/
theorem merge_never_resurrects (first : AssetState) (patches : List AssetState) :
    ((∀ p ∈ first :: patches, p.location = none) → (mergeAll first patches).location = none)
    ∧ ((∀ p ∈ first :: patches, p.temperature = none) →
        (mergeAll first patches).temperature = none)
    ∧ ((∀ p ∈ first :: patches, p.carrier = none) → (mergeAll first patches).carrier = none)
    ∧ ((mergeAll first patches).location ≠ none → ∃ p ∈ first :: patches, p.location ≠ none)
    ∧ ((mergeAll first patches).temperature ≠ none →
        ∃ p ∈ first :: patches, p.temperature ≠ none)
    ∧ ((mergeAll first patches).carrier ≠ none → ∃ p ∈ first :: patches, p.carrier ≠ none)
    ∧ (mergeAll ⟨some "A1", none, none, some "X", none⟩
          [⟨some "A1", none, none, some "Y", none⟩, ⟨some "A1", none, none, none, none⟩]
        = ⟨some "A1", none, none, some "Y", none⟩) := by
  refine ⟨(mergeAll_location patches first).2, (mergeAll_temperature patches first).2,
    (mergeAll_carrier patches first).2, ?_, ?_, ?_, by decide⟩
  · intro h
    by_contra hc
    push_neg at hc
    exact h ((mergeAll_location patches first).2 hc)
  · intro h
    by_contra hc
    push_neg at hc
    exact h ((mergeAll_temperature patches first).2 hc)
  · intro h
    by_contra hc
    push_neg at hc
    exact h ((mergeAll_carrier patches first).2 hc)

/-! ## Theorems: the errors of createOrUpdateAsset -/

/-- The store succeeds only when neither put reports an error. -/
theorem storeAsset_puts (stub : Stub) (k : String) (r : AssetState) (now2 : Time)
    (h : (storeAsset stub k r now2).2 = none) :
    stub.putFault k = none ∧ stub.putFault MRUKEY = none := by
  obtain ⟨hp, hu⟩ := storeAsset_ok (pair_of_snd_none _ h)
  obtain ⟨_, _, hpm, _⟩ := updateMruList_ok hu
  rw [(GetState_PutState_same stub k (jsonMarshalAssetState r).1 hp).2.2.2.1] at hpm
  exact ⟨hp, hpm⟩

/-- For an identifier other than `MRUKEY` the store succeeds exactly when neither
put reports an error and the list that the ledger holds can be loaded. -/
theorem storeAsset_succeeds_iff (stub : Stub) (k : String) (r : AssetState) (now2 : Time)
    (hne : k ≠ MRUKEY) :
    (storeAsset stub k r now2).2 = none
      ↔ stub.putFault k = none ∧ (loadMruList stub).2 = none ∧ stub.putFault MRUKEY = none := by
  constructor
  · intro h
    obtain ⟨hp, hpm⟩ := storeAsset_puts stub k r now2 h
    obtain ⟨_, hu⟩ := storeAsset_ok (pair_of_snd_none _ h)
    obtain ⟨L, hL, _, _⟩ := updateMruList_ok hu
    rw [loadMruList_PutState_other stub k _ hne] at hL
    exact ⟨hp, by rw [hL], hpm⟩
  · rintro ⟨hp, hl, hpm⟩
    have hs : storeAsset stub k r now2
        = updateMruList (stub.PutState k (jsonMarshalAssetState r).1).1 k now2 := by
      simp only [storeAsset, jsonMarshalAssetState, Stub.PutState, hp]
    have hL : loadMruList (stub.PutState k (jsonMarshalAssetState r).1).1
        = (⟨(loadMruList stub).1.list⟩, none) := by
      rw [loadMruList_PutState_other stub k _ hne]
      exact pair_of_snd_none _ hl
    have hpm1 : (stub.PutState k (jsonMarshalAssetState r).1).1.putFault MRUKEY = none := by
      rw [(GetState_PutState_same stub k (jsonMarshalAssetState r).1 hp).2.2.2.1]
      exact hpm
    rw [hs, updateMruList_eq _ k now2 _ hL, PutState_ok _ MRUKEY _ hpm1]

/-- For the identifier `MRUKEY` the store succeeds exactly when the put under
`MRUKEY` reports no error: the list is read after the record was put under its
key, and the text of a record reads as the empty list. -/
theorem storeAsset_list_key_iff (stub : Stub) (r : AssetState) (now2 : Time) :
    (storeAsset stub MRUKEY r now2).2 = none ↔ stub.putFault MRUKEY = none := by
  constructor
  · intro h
    exact (storeAsset_puts stub MRUKEY r now2 h).1
  · intro hp
    have hs : storeAsset stub MRUKEY r now2
        = updateMruList (stub.PutState MRUKEY (jsonMarshalAssetState r).1).1 MRUKEY now2 := by
      simp only [storeAsset, jsonMarshalAssetState, Stub.PutState, hp]
    have hpm1 : (stub.PutState MRUKEY (jsonMarshalAssetState r).1).1.putFault MRUKEY = none := by
      rw [(GetState_PutState_same stub MRUKEY (jsonMarshalAssetState r).1 hp).2.2.2.1]
      exact hp
    rw [hs, updateMruList_eq _ MRUKEY now2 _ (loadMruList_of_record stub r hp),
      PutState_ok _ MRUKEY _ hpm1]

/-- C22 (counterexample). A ledger holds a record of `A1` with a temperature and
its read of `A1` reports an error: createOrUpdateAsset with a carrier for `A1`
succeeds and the record under `A1` has no temperature afterwards. A ledger
holds a list with an entry of `B2` and its read of the list reports an error:
createOrUpdateAsset for `A1` succeeds and the list afterwards has the entry of
`A1` only. -/
theorem get_error_not_reported :
    unreadableStub.GetState "A1" = ("", some "ledger unavailable")
    ∧ unreadableStub.world "A1" = some "\x7b\"assetID\":\"A1\",\"temperature\":20\x7d"
    ∧ (createOrUpdateAsset unreadableStub a1CarrierArg timeA timeB).2 = none
    ∧ (createOrUpdateAsset unreadableStub a1CarrierArg timeA timeB).1.world "A1"
        = some "\x7b\"assetID\":\"A1\",\"carrier\":\"X\",\"updatedAt\":\"2016-05-01T12:00:00Z\"\x7d"
    ∧ unreadableListStub.GetState "_MruListKey" = ("", some "ledger unavailable")
    ∧ (createOrUpdateAsset unreadableListStub (idArg "A1") timeA timeB).2 = none
    ∧ (createOrUpdateAsset unreadableListStub (idArg "A1") timeA timeB).1.world "_MruListKey"
        = some "\x7b\"mruList\":[\x7b\"assetID\":\"A1\",\"updatedAt\":\"2016-05-01T12:00:01Z\"\x7d]\x7d"
    := by
  refine ⟨by decide, by decide, by decide, by decide, by decide, by decide, by decide⟩

/-- C22 (amended). For an argument that validateInput accepts with identifier `k`:
a stored record that is read without error, is not empty and does not
unmarshal makes createOrUpdateAsset fail and leave the ledger as it was; an
error reported by the put of the record or by the put of the list makes it
fail; for `k` other than `_MruListKey`, a stored list that is read without
error, is not empty and does not unmarshal makes it fail. An error reported by
the read of the record is taken as the create scenario, like a missing or empty
value. For `k` other than `_MruListKey` the call succeeds exactly when the
record is unreadable, missing, empty or unmarshals, the list is unreadable,
missing, empty or unmarshals, and neither put reports an error. For `k` equal
to `_MruListKey` the list is read after the record was put under that key, the
stored list is not unmarshalled, and the call succeeds exactly when the record
is unreadable, missing, empty or unmarshals and the put reports no error. -/
theorem errors_reported (stub : Stub) (args : List String) (now1 now2 : Time)
    (p : AssetState) (k : String) (hv : validateInput args = (p, none))
    (hk : p.assetID = some k) :
    ((stub.GetState k).2 = none → (stub.GetState k).1 ≠ "" →
        (jsonUnmarshalAssetState (stub.GetState k).1).2 ≠ none →
        createOrUpdateAsset stub args now1 now2
          = (stub, some "Unable to unmarshal JSON data from stub"))
    ∧ ((stub.putFault k ≠ none ∨ stub.putFault MRUKEY ≠ none) →
        (createOrUpdateAsset stub args now1 now2).2 ≠ none)
    ∧ (k ≠ MRUKEY → (stub.GetState MRUKEY).2 = none → (stub.GetState MRUKEY).1 ≠ "" →
        (jsonUnmarshalAssetMruList (stub.GetState MRUKEY).1).2 ≠ none →
        (createOrUpdateAsset stub args now1 now2).2 ≠ none)
    ∧ (∀ e, stub.getFault k = some e →
        createOrUpdateAsset stub args now1 now2
          = storeAsset stub k { p with updatedAt := some now1 } now2)
    ∧ (k ≠ MRUKEY →
        ((createOrUpdateAsset stub args now1 now2).2 = none ↔
          ((stub.GetState k).2.isSome ∨ (stub.GetState k).1.length = 0
              ∨ (jsonUnmarshalAssetState (stub.GetState k).1).2 = none)
          ∧ ((stub.GetState MRUKEY).2.isSome ∨ (stub.GetState MRUKEY).1.length = 0
              ∨ (jsonUnmarshalAssetMruList (stub.GetState MRUKEY).1).2 = none)
          ∧ stub.putFault k = none ∧ stub.putFault MRUKEY = none))
    ∧ (k = MRUKEY →
        ((createOrUpdateAsset stub args now1 now2).2 = none ↔
          ((stub.GetState k).2.isSome ∨ (stub.GetState k).1.length = 0
              ∨ (jsonUnmarshalAssetState (stub.GetState k).1).2 = none)
          ∧ stub.putFault MRUKEY = none)) := by
  have hload : (loadMruList stub).2 = none ↔
      ((stub.GetState MRUKEY).2.isSome ∨ (stub.GetState MRUKEY).1.length = 0
        ∨ (jsonUnmarshalAssetMruList (stub.GetState MRUKEY).1).2 = none) := by
    unfold loadMruList
    simp only
    split_ifs with h
    · rcases h with h | h
      · exact ⟨fun _ => Or.inl h, fun _ => rfl⟩
      · exact ⟨fun _ => Or.inr (Or.inl h), fun _ => rfl⟩
    · constructor
      · intro hc
        exact Or.inr (Or.inr hc)
      · rintro (h1 | h1 | h1)
        · exact absurd (Or.inl h1) h
        · exact absurd (Or.inr h1) h
        · exact h1
  have hgen : ∀ (ok : Prop), (∀ r, (storeAsset stub k r now2).2 = none ↔ ok) →
      ((createOrUpdateAsset stub args now1 now2).2 = none ↔
        ((stub.GetState k).2.isSome ∨ (stub.GetState k).1.length = 0
            ∨ (jsonUnmarshalAssetState (stub.GetState k).1).2 = none) ∧ ok) := by
    intro ok hok
    rw [createOrUpdateAsset_eq stub args now1 now2 hv hk]
    split_ifs with hc
    · rw [hok]
      constructor
      · intro h
        refine ⟨?_, h⟩
        rcases hc with hc | hc
        · exact Or.inl hc
        · exact Or.inr (Or.inl hc)
      · rintro ⟨_, h⟩
        exact h
    · cases hu : jsonUnmarshalAssetState (stub.GetState k).1 with
      | mk s e =>
        cases e with
        | some x =>
          constructor
          · intro h
            simp at h
          · rintro ⟨h1 | h1 | h1, _⟩
            · exact absurd (Or.inl h1) hc
            · exact absurd (Or.inr h1) hc
            · simp at h1
        | none =>
          simp only
          rw [hok]
          constructor
          · intro h
            exact ⟨Or.inr (Or.inr trivial), h⟩
          · rintro ⟨_, h⟩
            exact h
  have hiff : k ≠ MRUKEY →
      ((createOrUpdateAsset stub args now1 now2).2 = none ↔
        ((stub.GetState k).2.isSome ∨ (stub.GetState k).1.length = 0
            ∨ (jsonUnmarshalAssetState (stub.GetState k).1).2 = none)
        ∧ ((stub.GetState MRUKEY).2.isSome ∨ (stub.GetState MRUKEY).1.length = 0
            ∨ (jsonUnmarshalAssetMruList (stub.GetState MRUKEY).1).2 = none)
        ∧ stub.putFault k = none ∧ stub.putFault MRUKEY = none) := by
    intro hne
    rw [hgen (stub.putFault k = none ∧ (loadMruList stub).2 = none ∧ stub.putFault MRUKEY = none)
      (fun r => storeAsset_succeeds_iff stub k r now2 hne), hload]
    constructor
    · rintro ⟨h0, h1, h2, h3⟩
      exact ⟨h0, h2, h1, h3⟩
    · rintro ⟨h0, h2, h1, h3⟩
      exact ⟨h0, h1, h2, h3⟩
  refine ⟨?_, ?_, ?_, ?_, hiff, ?_⟩
  · intro h1 h2 h3
    have hn : ¬ ((stub.GetState k).2.isSome ∨ (stub.GetState k).1.length = 0) := by
      rintro (h | h)
      · rw [h1] at h
        simp at h
      · exact h2 ((String.length_eq_zero_iff _).1 h)
    rw [createOrUpdateAsset_eq stub args now1 now2 hv hk, if_neg hn]
    cases hu : jsonUnmarshalAssetState (stub.GetState k).1 with
    | mk s e =>
      rw [hu] at h3
      cases e with
      | some x => rfl
      | none => exact absurd rfl h3
  · intro h hs
    obtain ⟨_, _, _, hp1, hp2, _, _⟩ := createOrUpdateAsset_ok hv hk (pair_of_snd_none _ hs)
    rcases h with h | h
    · exact h hp1
    · exact h hp2
  · intro hne h1 h2 h3 hs
    have hl := ((hiff hne).1 hs).2.1
    rcases hl with hl | hl | hl
    · rw [h1] at hl
      simp at hl
    · exact h2 ((String.length_eq_zero_iff _).1 hl)
    · exact h3 hl
  · intro e he
    rw [createOrUpdateAsset_eq stub args now1 now2 hv hk,
      if_pos (GetState_absent stub k (Or.inl (by rw [he]; simp)))]
  · intro he
    subst he
    exact hgen (stub.putFault MRUKEY = none) (fun r => storeAsset_list_key_iff stub r now2)

/-- C22 (witness). The ledger whose value under `A1` does not unmarshal and the
ledger whose list does not unmarshal, with the argument `{"assetID":"A1"}`: the
call fails. The ledger whose value under `_MruListKey` unmarshals as a record
and not as a list, with the identifier `_MruListKey`: the call succeeds. -/
theorem errors_reported_witness :
    validateInput (idArg "A1") = (⟨some "A1", none, none, none, none⟩, none)
    ∧ (brokenRecordStub.GetState "A1").2 = none
    ∧ (brokenRecordStub.GetState "A1").1 ≠ ""
    ∧ (jsonUnmarshalAssetState (brokenRecordStub.GetState "A1").1).2 ≠ none
    ∧ createOrUpdateAsset brokenRecordStub (idArg "A1") timeA timeB
        = (brokenRecordStub, some "Unable to unmarshal JSON data from stub")
    ∧ (createOrUpdateAsset brokenListStub (idArg "A1") timeA timeB).2 ≠ none
    ∧ (jsonUnmarshalAssetMruList ((oddListStub.world "_MruListKey").getD "")).2 ≠ none
    ∧ (createOrUpdateAsset oddListStub (idArg "_MruListKey") timeA timeB).2 = none :=
  ⟨by decide, by decide, by decide, by decide,
    (errors_reported brokenRecordStub (idArg "A1") timeA timeB
      ⟨some "A1", none, none, none, none⟩ "A1" (by decide) rfl).1
      (by decide) (by decide) (by decide),
    (errors_reported brokenListStub (idArg "A1") timeA timeB
      ⟨some "A1", none, none, none, none⟩ "A1" (by decide) rfl).2.2.1
      (by decide) (by decide) (by decide) (by decide),
    by decide,
    ((errors_reported oddListStub (idArg "_MruListKey") timeA timeB
      ⟨some "_MruListKey", none, none, none, none⟩ "_MruListKey" (by decide) rfl).2.2.2.2.2
      rfl).2 ⟨by decide, by decide⟩⟩

/-! ## Theorems: the two writes of createOrUpdateAsset -/

/-- C23. On the ledger whose value under `_MruListKey` is the text `not a list`,
which is read without error, is not empty and does not unmarshal as a list, the
accepted argument `{"assetID":"A1"}` makes createOrUpdateAsset return an error
after it has put the record under `A1`: the ledger held nothing under `A1`
before the call and holds the new record after it, and the value under
`_MruListKey` is as before. -/
theorem write_not_atomic :
    validateInput (idArg "A1") = (⟨some "A1", none, none, none, none⟩, none)
    ∧ brokenListStub.GetState "_MruListKey" = ("not a list", none)
    ∧ (jsonUnmarshalAssetMruList "not a list").2 = some syntaxError
    ∧ (createOrUpdateAsset brokenListStub (idArg "A1") timeA timeB).2
        = some "Unable to unmarshal JSON data for mruList"
    ∧ brokenListStub.world "A1" = none
    ∧ (createOrUpdateAsset brokenListStub (idArg "A1") timeA timeB).1.world "A1"
        = some "\x7b\"assetID\":\"A1\",\"updatedAt\":\"2016-05-01T12:00:00Z\"\x7d"
    ∧ (createOrUpdateAsset brokenListStub (idArg "A1") timeA timeB).1.world "A1"
        ≠ brokenListStub.world "A1"
    ∧ (createOrUpdateAsset brokenListStub (idArg "A1") timeA timeB).1.world "_MruListKey"
        = some "not a list" := by
  refine ⟨by decide, by decide, by decide, by decide, by decide, by decide, by decide, by decide⟩

/-! ## Theorems: calls that write nothing -/

/-- C24 (counterexample). The ledger holds under `A1` the text `not a record`,
which is not empty and does not unmarshal, and its read of `A1` reports an
error. The call for `A1` succeeds and writes the record under `A1`. -/
theorem unparsable_record_overwritten :
    unreadableBrokenStub.world "A1" = some "not a record"
    ∧ (jsonUnmarshalAssetState "not a record").2 = some syntaxError
    ∧ validateInput (idArg "A1") = (⟨some "A1", none, none, none, none⟩, none)
    ∧ (createOrUpdateAsset unreadableBrokenStub (idArg "A1") timeA timeB).2 = none
    ∧ (createOrUpdateAsset unreadableBrokenStub (idArg "A1") timeA timeB).1.world "A1"
        = some "\x7b\"assetID\":\"A1\",\"updatedAt\":\"2016-05-01T12:00:00Z\"\x7d"
    ∧ (createOrUpdateAsset unreadableBrokenStub (idArg "A1") timeA timeB).1.world "_MruListKey"
        = some "\x7b\"mruList\":[\x7b\"assetID\":\"A1\",\"updatedAt\":\"2016-05-01T12:00:01Z\"\x7d]\x7d"
    := by
  refine ⟨by decide, by decide, by decide, by decide, by decide, by decide⟩

/-- C24 (amended). For every ledger and every argument list that validateInput
rejects, createAsset, updateAsset and deleteAsset return the error of the
validation and the ledger as it was. For an accepted argument whose stored
record is read without error, is not empty and does not unmarshal,
createOrUpdateAsset fails and returns the ledger as it was. The ledger whose value under `A1` is
`not a record` is an instance. -/
theorem rejected_changes_nothing (stub : Stub) (args : List String) (now1 now2 : Time) :
    (∀ e, (validateInput args).2 = some e →
      createAsset stub args now1 now2 = (stub, some e)
      ∧ updateAsset stub args now1 now2 = (stub, some e)
      ∧ deleteAsset stub args = (stub, some e))
    ∧ (∀ p k bytes, validateInput args = (p, none) → p.assetID = some k →
        stub.GetState k = (bytes, none) → bytes ≠ "" →
        (jsonUnmarshalAssetState bytes).2 ≠ none →
        createOrUpdateAsset stub args now1 now2
          = (stub, some "Unable to unmarshal JSON data from stub"))
    ∧ ((validateInput []).2 ≠ none ∧ (validateInput ["not json"]).2 ≠ none
      ∧ (validateInput ["\x7b\x7d"]).2 ≠ none ∧ (validateInput (idArg " ")).2 ≠ none)
    ∧ (brokenRecordStub.GetState "A1" = ("not a record", none)
      ∧ (jsonUnmarshalAssetState "not a record").2 ≠ none
      ∧ (createOrUpdateAsset brokenRecordStub (idArg "A1") timeA timeB).2
          = some "Unable to unmarshal JSON data from stub"
      ∧ (createOrUpdateAsset brokenRecordStub (idArg "A1") timeA timeB).1.world "A1"
          = some "not a record"
      ∧ (createOrUpdateAsset brokenRecordStub (idArg "A1") timeA timeB).1.world "_MruListKey"
          = none) := by
  refine ⟨?_, ?_, ⟨by decide, by decide, by decide, by decide⟩,
    ⟨by decide, by decide, by decide, by decide, by decide⟩⟩
  · intro e he
    have hv : validateInput args = ((validateInput args).1, some e) := Prod.ext rfl he
    refine ⟨?_, ?_, ?_⟩
    · rw [createAsset_eq]; unfold createOrUpdateAsset; rw [hv]
    · rw [updateAsset_eq]; unfold createOrUpdateAsset; rw [hv]
    · unfold deleteAsset; rw [hv]
  · intro p k bytes hv hk hg hb hu
    have hn : ¬ ((stub.GetState k).2.isSome ∨ (stub.GetState k).1.length = 0) := by
      rw [hg]
      rintro (h | h)
      · simp at h
      · exact hb ((String.length_eq_zero_iff _).1 h)
    rw [createOrUpdateAsset_eq stub args now1 now2 hv hk, if_neg hn, hg]
    cases hx : jsonUnmarshalAssetState bytes with
    | mk s e =>
      rw [hx] at hu
      cases e with
      | some x => rfl
      | none => exact absurd rfl hu

/-! ## Theorems: createAsset and updateAsset -/

/-- C25 (counterexample). The identifier `A1` has a record with a temperature on
the ledger, and the read of `A1` reports an error. createAsset with a carrier
for `A1`, called through Invoke, succeeds and replaces the record: the record
under `A1` afterwards has the carrier and no temperature. -/
theorem create_replaces_unread_record :
    (jsonUnmarshalAssetState ((unreadableStub.world "A1").getD "")).1.temperature = some twenty
    ∧ (Invoke unreadableStub "createAsset" a1CarrierArg timeA timeB).2 = none
    ∧ jsonUnmarshalAssetState (((Invoke unreadableStub "createAsset" a1CarrierArg timeA
        timeB).1.world "A1").getD "")
        = (⟨some "A1", none, none, some "X", some timeA⟩, none)
    ∧ (jsonUnmarshalAssetState (((Invoke unreadableStub "createAsset" a1CarrierArg timeA
        timeB).1.world "A1").getD "")).1.temperature = none := by
  refine ⟨by decide, by decide, by decide, by decide⟩

/-- C25 (amended). createAsset and updateAsset give the same error and the same ledger for
every ledger, argument list and clock, also when they are reached through
Invoke. createAsset for an identifier whose stored record is read without error
and unmarshals stores the merge of the patch into that record; updateAsset for an
identifier under which the read reports an error, nothing or an empty value
stores the patch. On the ledger after the creation of `A1` with a temperature,
createAsset of `A1` with a carrier succeeds and the record has both; on the
empty ledger updateAsset of `A1` succeeds and stores the record. -/
theorem create_is_update (stub : Stub) (args : List String) (now1 now2 : Time) :
    createAsset stub args now1 now2 = updateAsset stub args now1 now2
    ∧ Invoke stub "createAsset" args now1 now2 = Invoke stub "updateAsset" args now1 now2
    ∧ Invoke stub "createAsset" args now1 now2 = createOrUpdateAsset stub args now1 now2
    ∧ (∀ p k bytes existing, validateInput args = (p, none) → p.assetID = some k →
        stub.getFault k = none → stub.world k = some bytes → bytes ≠ "" →
        jsonUnmarshalAssetState bytes = (existing, none) →
        createAsset stub args now1 now2
          = storeAsset stub k
              { (mergePartialState existing p).1 with updatedAt := some now1 } now2)
    ∧ (∀ p k, validateInput args = (p, none) → p.assetID = some k →
        (stub.getFault k ≠ none ∨ stub.world k = none ∨ stub.world k = some "") →
        updateAsset stub args now1 now2
          = storeAsset stub k { p with updatedAt := some now1 } now2)
    ∧ ((createAsset (createAsset emptyStub a1TempArg timeA timeB).1 a1CarrierArg timeB timeB).2
          = none
      ∧ (createAsset (createAsset emptyStub a1TempArg timeA timeB).1 a1CarrierArg timeB
          timeB).1.world "A1"
          = some ("\x7b\"assetID\":\"A1\",\"temperature\":20,\"carrier\":\"X\","
              ++ "\"updatedAt\":\"2016-05-01T12:00:01Z\"\x7d"))
    ∧ ((updateAsset emptyStub a1CarrierArg timeA timeB).2 = none
      ∧ (updateAsset emptyStub a1CarrierArg timeA timeB).1.world "A1"
          = some "\x7b\"assetID\":\"A1\",\"carrier\":\"X\",\"updatedAt\":\"2016-05-01T12:00:00Z\"\x7d")
    := by
  refine ⟨rfl, rfl, rfl, ?_, ?_, ⟨by decide, by decide⟩, ⟨by decide, by decide⟩⟩
  · intro p k bytes existing hv hk hf hw hb hu
    obtain ⟨hg, hn⟩ := GetState_present stub k bytes hf hw hb
    rw [createAsset_eq, createOrUpdateAsset_eq stub args now1 now2 hv hk, if_neg hn, hg, hu]
  · intro p k hv hk h
    rw [updateAsset_eq, createOrUpdateAsset_eq stub args now1 now2 hv hk,
      if_pos (GetState_absent stub k h)]

/-! ## Theorems: composition of patches -/

/-- C26. Merging is associative: merging `c` into the merge of `b` into `a` gives
the same record, and the same nil error, as merging into `a` the merge of `c`
into `b`; over a sequence, merging two patches one after the other equals
merging their merge once. Merging a patch into the empty record returns the
patch, so the record of the create branch, which is the patch, is the merge of
the patch into the empty record. -/
theorem merge_composes (a b c : AssetState) :
    mergePartialState (mergePartialState a b).1 c
        = mergePartialState a (mergePartialState b c).1
    ∧ mergeAll a [b, c] = mergeAll a [(mergePartialState b c).1]
    ∧ mergePartialState AssetState.empty c = (c, none)
    ∧ (∀ (stub : Stub) (args : List String) (now1 now2 : Time) (k : String),
        validateInput args = (c, none) → c.assetID = some k →
        ((stub.GetState k).2.isSome ∨ (stub.GetState k).1.length = 0) →
        createOrUpdateAsset stub args now1 now2
          = storeAsset stub k
              { (mergePartialState AssetState.empty c).1 with updatedAt := some now1 } now2) := by
  have assoc : (mergePartialState (mergePartialState a b).1 c).1
      = (mergePartialState a (mergePartialState b c).1).1 := by
    simp only [mergePartialState_eq]
    obtain ⟨b1, b2, b3, b4, b5⟩ := b
    obtain ⟨c1, c2, c3, c4, c5⟩ := c
    cases b1 <;> cases b2 <;> cases b3 <;> cases b4 <;> cases b5 <;>
      cases c1 <;> cases c2 <;> cases c3 <;> cases c4 <;> cases c5 <;> rfl
  have unit : (mergePartialState AssetState.empty c).1 = c := by
    rw [mergePartialState_eq]
    obtain ⟨c1, c2, c3, c4, c5⟩ := c
    cases c1 <;> cases c2 <;> cases c3 <;> cases c4 <;> cases c5 <;> rfl
  refine ⟨Prod.ext assoc rfl, assoc, Prod.ext unit rfl, ?_⟩
  intro stub args now1 now2 k hv hk hc
  rw [createOrUpdateAsset_eq stub args now1 now2 hv hk, if_pos hc, unit]

end SimpleContract
